import Mathlib

/-!
# VoxelNode (libraries/voxels/src/VoxelNode.cpp)

A shallow embedding of the octree node of `VoxelNode.cpp`.

* A node exclusively owns its children, so the pointer structure is a tree and is embedded as
  an inductive type; mutating a node through a pointer becomes a functional update.
* The static members (`_voxelNodeCount`, `_voxelNodeLeafCount`, the owner-index registry) and
  the runs of the hook notifiers are collected in `World`, which every operation threads.
* `uint64_t` counters are `Nat` with explicit `% 2 ^ 64`; colour channels (`unsigned char`)
  are `Fin 256`; `float` densities are taken as exact rationals.
* Not embedded: `_lastChanged` (a wall-clock reading), `_box`, `_glBufferIndex`,
  `_sourceID`, the memory-usage counters and the inline/out-of-line storage of the octal
  code. None of them is read by an embedded operation.
-/

namespace Voxel

/-! ## Data model -/

/-- Modelled from the spec: `nodeColor` and `colorPart` are declared in a header that is not
under src/; "4 integer channels: R, G, B in [0,255], presence flag". The code treats a colour
as an array of 4 `unsigned char`: red, green, blue and the flag. -/
structure nodeColor where
  red : Fin 256
  green : Fin 256
  blue : Fin 256
  alpha : Fin 256
deriving DecidableEq, Repr

/-- Conversion of an `int` to `unsigned char`. -/
def toUChar (x : Nat) : Fin 256 := ⟨x % 2 ^ 8, Nat.mod_lt _ (by decide)⟩

/-- Modelled from the spec: the members are declared in VoxelNode.h (not under src/); these
are the ones that VoxelNode.cpp reads or writes in the embedded functions. `_childCount`,
the "cached count of non-empty slots", is an integer that `++` and `--` move by one;
`_voxelSystemIndex` is a `uint8_t`; `_octalCode` is kept decoded. -/
structure NodeData where
  _octalCode : List Nat
  _trueColor : nodeColor
  _currentColor : nodeColor
  _falseColored : Bool
  _density : ℚ
  _childCount : Int
  _voxelSystemIndex : Nat
  _isDirty : Bool
  _shouldRender : Bool
deriving DecidableEq

/-- A node: its scalar members and the array `_children[NUMBER_OF_CHILDREN]` of owning
pointers (`none` is `NULL`). -/
inductive VoxelNode where
  | mk (data : NodeData) (_children : List (Option VoxelNode))

/-- Modelled from the spec: `NUMBER_OF_CHILDREN` is declared in a header that is not under
src/; "fixed array of 8 optional exclusive child ownership slots". -/
def NUMBER_OF_CHILDREN : Nat := 8

/-- Process-wide state: the static counters, the owner-index registry (`std::map`s as
association lists, a `VoxelSystem*` as a number with `0` for `NULL`), and the number of runs
of `notifyUpdateHooks` and of `notifyDeleteHooks` so far. -/
structure World where
  _voxelNodeCount : Nat
  _voxelNodeLeafCount : Nat
  _nextIndex : Nat
  _mapVoxelSystemPointersToIndex : List (Nat × Nat)
  _mapIndexToVoxelSystemPointers : List (Nat × Nat)
  updateNotifications : Nat
  deleteNotifications : Nat
deriving DecidableEq, Repr

/-- The process before any node exists. -/
def World.empty : World := ⟨0, 0, 0, [], [], 0, 0⟩

/-- Increment of a `uint64_t`. -/
def incr64 (x : Nat) : Nat := (x + 1) % 2 ^ 64

/-- Decrement of a `uint64_t`. -/
def decr64 (x : Nat) : Nat := (x + (2 ^ 64 - 1)) % 2 ^ 64

namespace VoxelNode

/-- The scalar members of a node. -/
def data : VoxelNode → NodeData
  | mk d _ => d

/-- The child array of a node. -/
def _children : VoxelNode → List (Option VoxelNode)
  | mk _ cs => cs

/-- Update of the scalar members, children untouched. -/
def withData (n : VoxelNode) (f : NodeData → NodeData) : VoxelNode :=
  mk (f n.data) n._children

/-- Assignment `_children[i] = p`. -/
def setChild (n : VoxelNode) (i : Nat) (p : Option VoxelNode) : VoxelNode :=
  mk n.data (n._children.set i p)

/-- Modelled from the spec: `getChildAtIndex` is declared in VoxelNode.h (not under src/);
it reads slot `childIndex` of the child array. -/
def getChildAtIndex (n : VoxelNode) (childIndex : Nat) : Option VoxelNode :=
  (n._children[childIndex]?).join

/-- Modelled from the spec: `isLeaf` is declared in VoxelNode.h (not under src/);
"isLeaf() ⟺ childCount == 0". -/
def isLeaf (n : VoxelNode) : Bool := n.data._childCount == 0

/-- Modelled from the spec: `isColored` is declared in VoxelNode.h (not under src/);
the presence flag of the true colour: "0 = uncolored/empty, 1 = colored". -/
def isColored (n : VoxelNode) : Bool := n.data._trueColor.alpha == 1

/-- Modelled from the spec: `getColor` is declared in VoxelNode.h (not under src/);
"the color actually reported to consumers", the display colour `_currentColor`. -/
def getColor (n : VoxelNode) : nodeColor := n.data._currentColor

/-- Modelled from the spec: `getTrueColor` is declared in VoxelNode.h (not under src/);
the authoritative colour `_trueColor`. -/
def getTrueColor (n : VoxelNode) : nodeColor := n.data._trueColor

/-- Modelled from the spec: `getDensity` is declared in VoxelNode.h (not under src/). -/
def getDensity (n : VoxelNode) : ℚ := n.data._density

/-- Modelled from the spec: `setDensity` is declared in VoxelNode.h (not under src/);
it stores the density. -/
def setDensity (n : VoxelNode) (density : ℚ) : VoxelNode :=
  n.withData fun d => { d with _density := density }

/-- Modelled from the spec: `childOctalCode` belongs to OctalCode.h (not under src/);
"produce a new code one level deeper selecting octant". The code is kept decoded, as the
list of its 3-bit groups. -/
def childOctalCode (code : List Nat) (childIndex : Nat) : List Nat := code ++ [childIndex]

/-- Modelled from the spec: `getLevel` is declared in VoxelNode.h (not under src/);
"level(code) = number of 3-bit groups". -/
def getLevel (n : VoxelNode) : Nat := n.data._octalCode.length

/-! ## Hooks and the owner-index registry -/

/-- One run of `notifyUpdateHooks`. -/
def notifyUpdateHooks (w : World) : World :=
  { w with updateNotifications := w.updateNotifications + 1 }

/-- One run of `notifyDeleteHooks`. -/
def notifyDeleteHooks (w : World) : World :=
  { w with deleteNotifications := w.deleteNotifications + 1 }

/-- Function `markWithChangedTime`: stamps the node (not embedded) and notifies the update
hooks. -/
def markWithChangedTime (n : VoxelNode) (w : World) : VoxelNode × World :=
  (n, notifyUpdateHooks w)

/-- Assignment `m[k] = v` on a `std::map`. -/
def mapSet (m : List (Nat × Nat)) (k v : Nat) : List (Nat × Nat) :=
  (k, v) :: m.filter fun e => e.1 != k

/-- Function `getVoxelSystem`: the owner registered under the node's index, `NULL` if none. -/
def getVoxelSystem (n : VoxelNode) (w : World) : Nat :=
  match w._mapIndexToVoxelSystemPointers.lookup n.data._voxelSystemIndex with
  | some p => p
  | none => 0

/-- Function `setVoxelSystem`: looks the owner up, registering it under `_nextIndex` (a
`uint8_t`) when it is new, and stores the index in the node. -/
def setVoxelSystem (n : VoxelNode) (voxelSystem : Nat) (w : World) : VoxelNode × World :=
  match w._mapVoxelSystemPointersToIndex.lookup voxelSystem with
  | some index => (n.withData fun d => { d with _voxelSystemIndex := index }, w)
  | none =>
    let index := w._nextIndex
    (n.withData fun d => { d with _voxelSystemIndex := index },
      { w with
        _nextIndex := (w._nextIndex + 1) % 2 ^ 8
        _mapVoxelSystemPointersToIndex := mapSet w._mapVoxelSystemPointersToIndex voxelSystem index
        _mapIndexToVoxelSystemPointers := mapSet w._mapIndexToVoxelSystemPointers index voxelSystem })

/-! ## Construction and destruction -/

/-- Function `init`: the members as the constructor leaves them. -/
def init (octalCode : List Nat) (w : World) : VoxelNode × World :=
  let n0 : VoxelNode := mk
    { _octalCode := octalCode
      _trueColor := ⟨0, 0, 0, 0⟩
      _currentColor := ⟨0, 0, 0, 0⟩
      _falseColored := false
      _density := 0
      _childCount := 0
      _voxelSystemIndex := 0
      _isDirty := false
      _shouldRender := false }
    (List.replicate NUMBER_OF_CHILDREN none)
  let r := setVoxelSystem n0 0 w
  let n1 := r.1.withData fun d => { d with _isDirty := true, _shouldRender := false }
  markWithChangedTime n1 r.2

/-- Constructor `VoxelNode(unsigned char* octalCode)`. -/
def new (octalCode : List Nat) (w : World) : VoxelNode × World :=
  let r := init octalCode w
  (r.1, { r.2 with
    _voxelNodeCount := incr64 r.2._voxelNodeCount
    _voxelNodeLeafCount := incr64 r.2._voxelNodeLeafCount })

/-- Constructor `VoxelNode()`: a root, whose code has no 3-bit group. -/
def newRoot (w : World) : VoxelNode × World := new [] w

mutual
/-- Destructor `~VoxelNode`: notifies the delete hooks, decrements the node counter, the leaf
counter too when `isLeaf()`, then deletes every child. -/
def delete : VoxelNode → World → World
  | mk d cs, w =>
    let w1 := notifyDeleteHooks w
    let w2 := { w1 with _voxelNodeCount := decr64 w1._voxelNodeCount }
    let w3 := if d._childCount == 0 then
        { w2 with _voxelNodeLeafCount := decr64 w2._voxelNodeLeafCount } else w2
    deleteChildren cs w3
/-- The loop of the destructor over the child array. -/
def deleteChildren : List (Option VoxelNode) → World → World
  | [], w => w
  | none :: rest, w => deleteChildren rest w
  | some c :: rest, w => deleteChildren rest (delete c w)
end

/-- Statement `delete p` on a pointer: nothing on `NULL`. -/
def deletePtr (p : Option VoxelNode) (w : World) : World :=
  match p with
  | some c => delete c w
  | none => w

/-! ## Structural mutation -/

/-- Function `deleteChildAtIndex`. -/
def deleteChildAtIndex (n : VoxelNode) (childIndex : Nat) (w : World) : VoxelNode × World :=
  match n.getChildAtIndex childIndex with
  | some c =>
    let w1 := delete c w
    let n1 := n.setChild childIndex none
    let n2 := n1.withData fun d => { d with _isDirty := true, _childCount := d._childCount - 1 }
    let r := markWithChangedTime n2 w1
    if r.1.isLeaf then
      (r.1, { r.2 with _voxelNodeLeafCount := incr64 r.2._voxelNodeLeafCount })
    else r
  | none => (n, w)

/-- Function `removeChildAtIndex`: the first component is the returned pointer, which the
caller now owns. -/
def removeChildAtIndex (n : VoxelNode) (childIndex : Nat) (w : World) :
    Option VoxelNode × VoxelNode × World :=
  let returnedChild := n.getChildAtIndex childIndex
  match n.getChildAtIndex childIndex with
  | some _ =>
    let n1 := n.setChild childIndex none
    let n2 := n1.withData fun d => { d with _isDirty := true, _childCount := d._childCount - 1 }
    let r := markWithChangedTime n2 w
    if r.1.isLeaf then
      (returnedChild, r.1, { r.2 with _voxelNodeLeafCount := incr64 r.2._voxelNodeLeafCount })
    else (returnedChild, r)
  | none => (returnedChild, n, w)

/-- Function `addChildAtIndex`: the first component is the returned pointer
`_children[childIndex]`. -/
def addChildAtIndex (n : VoxelNode) (childIndex : Nat) (w : World) :
    Option VoxelNode × VoxelNode × World :=
  match n.getChildAtIndex childIndex with
  | none =>
    let w1 := if n.isLeaf then
        { w with _voxelNodeLeafCount := decr64 w._voxelNodeLeafCount } else w
    let c := new (childOctalCode n.data._octalCode childIndex) w1
    let n1 := n.setChild childIndex (some c.1)
    let c2 := setVoxelSystem c.1 (n1.getVoxelSystem c.2) c.2
    let n2 := n1.setChild childIndex (some c2.1)
    let n3 := n2.withData fun d => { d with _isDirty := true, _childCount := d._childCount + 1 }
    let r := markWithChangedTime n3 c2.2
    (r.1.getChildAtIndex childIndex, r)
  | some c => (some c, n, w)

/-- Function `safeDeepDeleteChildAtIndex`. The recursion of the source is bounded here by
`fuel`, the number of nested calls allowed; `none` means the bound was reached. -/
def safeDeepDeleteChildAtIndex :
    Nat → VoxelNode → Nat → World → Option (VoxelNode × World)
  | 0, _, _, _ => none
  | fuel + 1, n, childIndex, w =>
    match n.getChildAtIndex childIndex with
    | some childToDelete =>
      (if !childToDelete.isLeaf then
          (List.range NUMBER_OF_CHILDREN).foldlM
            (fun (s : VoxelNode × World) i => safeDeepDeleteChildAtIndex fuel s.1 i s.2)
            (childToDelete, w)
        else some (childToDelete, w)).bind fun s =>
          let n1 := n.setChild childIndex (some s.1)
          let r := deleteChildAtIndex n1 childIndex s.2
          let n2 := r.1.withData fun d => { d with _isDirty := true }
          some (markWithChangedTime n2 r.2)
    | none => some (n, w)

/-! ## Colour -/

/-- Function `setFalseColor`. -/
def setFalseColor (n : VoxelNode) (red green blue : Fin 256) (w : World) : VoxelNode × World :=
  if n.data._falseColored != true || n.data._currentColor.red != red
      || n.data._currentColor.green != green || n.data._currentColor.blue != blue then
    markWithChangedTime
      (n.withData fun d =>
        { d with _falseColored := true, _currentColor := ⟨red, green, blue, 1⟩, _isDirty := true })
      w
  else (n, w)

/-- Function `setFalseColored`. -/
def setFalseColored (n : VoxelNode) (isFalseColored : Bool) (w : World) : VoxelNode × World :=
  if n.data._falseColored != isFalseColored then
    let n1 := if n.data._falseColored && !isFalseColored then
        n.withData fun d => { d with _currentColor := d._trueColor }
      else n
    markWithChangedTime
      (n1.withData fun d =>
        { d with _falseColored := isFalseColored, _isDirty := true, _density := 1 })
      w
  else (n, w)

/-- Function `setColor`. -/
def setColor (n : VoxelNode) (color : nodeColor) (w : World) : VoxelNode × World :=
  if n.data._trueColor.red != color.red || n.data._trueColor.green != color.green
      || n.data._trueColor.blue != color.blue then
    let n1 := n.withData fun d => { d with _trueColor := color }
    let n2 := if !n1.data._falseColored then
        n1.withData fun d => { d with _currentColor := color }
      else n1
    markWithChangedTime (n2.withData fun d => { d with _isDirty := true, _density := 1 }) w
  else (n, w)

/-- The accumulators of `setColorFromAverageOfChildren`: `colorArray[0..3]` and `density`. -/
structure AverageAcc where
  colorArray0 : Nat
  colorArray1 : Nat
  colorArray2 : Nat
  colorArray3 : Nat
  density : ℚ
deriving DecidableEq

/-- One iteration of the loop of `setColorFromAverageOfChildren`. -/
def averageStep (n : VoxelNode) (acc : AverageAcc) (i : Nat) : AverageAcc :=
  match n.getChildAtIndex i with
  | some c =>
    let acc1 := if c.isColored then
        { acc with
          colorArray0 := acc.colorArray0 + c.getTrueColor.red.val
          colorArray1 := acc.colorArray1 + c.getTrueColor.green.val
          colorArray2 := acc.colorArray2 + c.getTrueColor.blue.val
          colorArray3 := acc.colorArray3 + 1 }
      else acc
    { acc1 with density := acc1.density + c.getDensity }
  | none => acc

/-- The accumulators after the loop of `setColorFromAverageOfChildren`. -/
def averageLoop (n : VoxelNode) : AverageAcc :=
  (List.range NUMBER_OF_CHILDREN).foldl (averageStep n) ⟨0, 0, 0, 0, 0⟩

/-- The constant `VISIBLE_ABOVE_DENSITY`, `0.10f` taken as the rational 1/10. -/
def VISIBLE_ABOVE_DENSITY : ℚ := 1 / 10

/-- Function `setColorFromAverageOfChildren`. The integer division by `colorArray[3]` is
undefined when no existing child is coloured: the result is then `none`. -/
def setColorFromAverageOfChildren (n : VoxelNode) (w : World) : Option (VoxelNode × World) :=
  let acc := averageLoop n
  let density := acc.density / (NUMBER_OF_CHILDREN : ℚ)
  if density > VISIBLE_ABOVE_DENSITY then
    if acc.colorArray3 = 0 then none
    else
      let newColor : nodeColor :=
        ⟨toUChar (acc.colorArray0 / acc.colorArray3), toUChar (acc.colorArray1 / acc.colorArray3),
          toUChar (acc.colorArray2 / acc.colorArray3), 1⟩
      let r := setColor n newColor w
      some (r.1.setDensity density, r.2)
  else
    let r := setColor n ⟨0, 0, 0, 0⟩ w
    some (r.1.setDensity density, r.2)

/-- Function `handleSubtreeChanged`, with `myTree->getShouldReaverage()` as a parameter. -/
def handleSubtreeChanged (n : VoxelNode) (shouldReaverage : Bool) (w : World) :
    Option (VoxelNode × World) :=
  if shouldReaverage then
    match setColorFromAverageOfChildren n w with
    | some r => some (markWithChangedTime r.1 r.2)
    | none => none
  else some (markWithChangedTime n w)

/-- The locals of the first loop of `collapseIdenticalLeaves`. -/
structure CollapseScan where
  allChildrenMatch : Bool
  red : Nat
  green : Nat
  blue : Nat
deriving DecidableEq

/-- The first loop of `collapseIdenticalLeaves`, over the indices still to visit; a `break`
returns the locals at once. -/
def collapseScan (n : VoxelNode) : List Nat → CollapseScan → CollapseScan
  | [], s => s
  | i :: rest, s =>
    match n.getChildAtIndex i with
    | none => { s with allChildrenMatch := false }
    | some c =>
      if !c.isLeaf || !c.isColored then { s with allChildrenMatch := false }
      else if i == 0 then
        collapseScan n rest
          { s with red := c.getColor.red.val, green := c.getColor.green.val,
                   blue := c.getColor.blue.val }
      else if s.red != c.getColor.red.val || s.green != c.getColor.green.val
          || s.blue != c.getColor.blue.val then
        { s with allChildrenMatch := false }
      else collapseScan n rest s

/-- The second loop of `collapseIdenticalLeaves`: `delete _children[i]; _children[i]=NULL`. -/
def collapseDelete (s : VoxelNode × World) (i : Nat) : VoxelNode × World :=
  (s.1.setChild i none, deletePtr (s.1.getChildAtIndex i) s.2)

/-- Function `collapseIdenticalLeaves`: the first component is the returned flag. -/
def collapseIdenticalLeaves (n : VoxelNode) (w : World) : Bool × VoxelNode × World :=
  let s := collapseScan n (List.range NUMBER_OF_CHILDREN) ⟨true, 0, 0, 0⟩
  if s.allChildrenMatch then
    let r := (List.range NUMBER_OF_CHILDREN).foldl collapseDelete (n, w)
    let n1 := r.1.withData fun d => { d with _childCount := 0 }
    let collapsedColor : nodeColor := ⟨toUChar s.red, toUChar s.green, toUChar s.blue, 1⟩
    (true, setColor n1 collapsedColor r.2)
  else (false, n, w)

/-! ## Live nodes and operation sequences -/

/-- A process state: the static members and the live nodes that no other node owns (the roots
a caller holds, among them children detached by `removeChildAtIndex`). -/
structure State where
  world : World
  roots : List VoxelNode

/-- The process before any node was constructed. -/
def State.start : State := ⟨World.empty, []⟩

/-- The node reached from `n` by following the child pointers of `path`. -/
def nodeAt : List Nat → VoxelNode → Option VoxelNode
  | [], n => some n
  | i :: rest, n =>
    match n.getChildAtIndex i with
    | some c => nodeAt rest c
    | none => none

/-- A method call `f` made on the node that `path` reaches from `n`, through the owning
pointers: the nodes on the way see the modified descendant. `none` when `path` reaches no
node or when the call itself does not return. -/
def callAt (f : VoxelNode → World → Option (VoxelNode × World)) :
    List Nat → VoxelNode → World → Option (VoxelNode × World)
  | [], n, w => f n w
  | i :: rest, n, w =>
    match n.getChildAtIndex i with
    | some c =>
      match callAt f rest c w with
      | some r => some (n.setChild i (some r.1), r.2)
      | none => none
    | none => none

/-- The calls a client can make: on root `k`, at the node `path` reaches from it. -/
inductive Op where
  | newNode (octalCode : List Nat)
  | deleteNode (k : Nat)
  | addChildAtIndex (k : Nat) (path : List Nat) (childIndex : Nat)
  | removeChildAtIndex (k : Nat) (path : List Nat) (childIndex : Nat)
  | deleteChildAtIndex (k : Nat) (path : List Nat) (childIndex : Nat)
  | safeDeepDeleteChildAtIndex (k : Nat) (path : List Nat) (childIndex : Nat) (fuel : Nat)
  | collapseIdenticalLeaves (k : Nat) (path : List Nat)
  | setColor (k : Nat) (path : List Nat) (color : nodeColor)
  | setFalseColor (k : Nat) (path : List Nat) (red green blue : Fin 256)
  | setFalseColored (k : Nat) (path : List Nat) (isFalseColored : Bool)
  | setColorFromAverageOfChildren (k : Nat) (path : List Nat)
  | setVoxelSystem (k : Nat) (path : List Nat) (voxelSystem : Nat)

/-- A call on a node inside root `k`; `none` when there is no such node or no return. -/
def State.call (s : State) (k : Nat) (path : List Nat)
    (f : VoxelNode → World → Option (VoxelNode × World)) : Option State :=
  match s.roots[k]? with
  | some t =>
    match callAt f path t s.world with
    | some r => some ⟨r.2, s.roots.set k r.1⟩
    | none => none
  | none => none

/-- One call. `none` when the call cannot be made (no such node, octant index outside
[0,8)) or does not return (recursion bound reached, division by zero). -/
def step : Op → State → Option State
  | .newNode octalCode, s =>
    let r := new octalCode s.world
    some ⟨r.2, s.roots ++ [r.1]⟩
  | .deleteNode k, s =>
    match s.roots[k]? with
    | some t => some ⟨delete t s.world, s.roots.eraseIdx k⟩
    | none => none
  | .addChildAtIndex k path i, s =>
    if i < NUMBER_OF_CHILDREN then
      s.call k path fun n w => some (addChildAtIndex n i w).2
    else none
  | .removeChildAtIndex k path i, s =>
    if i < NUMBER_OF_CHILDREN then
      match s.roots[k]? with
      | some t =>
        match nodeAt path t with
        | some p =>
          match s.call k path fun n w => some (removeChildAtIndex n i w).2 with
          | some s1 => some ⟨s1.world, s1.roots ++ (p.getChildAtIndex i).toList⟩
          | none => none
        | none => none
      | none => none
    else none
  | .deleteChildAtIndex k path i, s =>
    if i < NUMBER_OF_CHILDREN then
      s.call k path fun n w => some (deleteChildAtIndex n i w)
    else none
  | .safeDeepDeleteChildAtIndex k path i fuel, s =>
    if i < NUMBER_OF_CHILDREN then
      s.call k path fun n w => safeDeepDeleteChildAtIndex fuel n i w
    else none
  | .collapseIdenticalLeaves k path, s =>
    s.call k path fun n w => some (collapseIdenticalLeaves n w).2
  | .setColor k path color, s =>
    s.call k path fun n w => some (setColor n color w)
  | .setFalseColor k path red green blue, s =>
    s.call k path fun n w => some (setFalseColor n red green blue w)
  | .setFalseColored k path isFalseColored, s =>
    s.call k path fun n w => some (setFalseColored n isFalseColored w)
  | .setColorFromAverageOfChildren k path, s =>
    s.call k path fun n w => setColorFromAverageOfChildren n w
  | .setVoxelSystem k path voxelSystem, s =>
    s.call k path fun n w => some (setVoxelSystem n voxelSystem w)

/-- The states that sequences of calls drawn from `allowed` reach from the empty process. -/
inductive Reachable (allowed : Op → Prop) : State → Prop
  | start : Reachable allowed State.start
  | step (op : Op) (s s1 : State) :
      Reachable allowed s → allowed op → step op s = some s1 → Reachable allowed s1

/-- Construction and `addChildAtIndex` only. -/
def Op.isBuild : Op → Prop
  | .newNode _ => True
  | .addChildAtIndex _ _ _ => True
  | _ => False

/-- Number of non-null slots of a child array. -/
def occupied (cs : List (Option VoxelNode)) : Nat := (cs.filter Option.isSome).length

mutual
/-- The structural invariant, at a node and all its descendants: 8 slots, and the cached
`_childCount` is the number of non-null slots. -/
def Inv : VoxelNode → Prop
  | mk d cs => d._childCount = (occupied cs : Int) ∧ cs.length = 8 ∧ InvChildren cs
/-- The invariant at every child of an array. -/
def InvChildren : List (Option VoxelNode) → Prop
  | [] => True
  | none :: rest => InvChildren rest
  | some c :: rest => Inv c ∧ InvChildren rest
end

mutual
/-- Number of nodes of a subtree. -/
def numNodes : VoxelNode → Nat
  | mk _ cs => 1 + numNodesChildren cs
/-- Number of nodes below a child array. -/
def numNodesChildren : List (Option VoxelNode) → Nat
  | [] => 0
  | none :: rest => numNodesChildren rest
  | some c :: rest => numNodes c + numNodesChildren rest
end

mutual
/-- Number of nodes of a subtree that have no child (all slots null). -/
def numChildless : VoxelNode → Nat
  | mk _ cs => (if occupied cs = 0 then 1 else 0) + numChildlessChildren cs
/-- Number of childless nodes below a child array. -/
def numChildlessChildren : List (Option VoxelNode) → Nat
  | [] => 0
  | none :: rest => numChildlessChildren rest
  | some c :: rest => numChildless c + numChildlessChildren rest
end

mutual
/-- Height of a subtree, 1 for a node without children. -/
def depth : VoxelNode → Nat
  | mk _ cs => 1 + depthChildren cs
/-- Largest height below a child array. -/
def depthChildren : List (Option VoxelNode) → Nat
  | [] => 0
  | none :: rest => depthChildren rest
  | some c :: rest => max (depth c) (depthChildren rest)
end

/-- Live nodes of a state. -/
def State.numNodes (s : State) : Nat := (s.roots.map VoxelNode.numNodes).sum

/-- Live nodes of a state that have no child. -/
def State.numChildless (s : State) : Nat := (s.roots.map VoxelNode.numChildless).sum

/-- Both counters hold values of a `uint64_t`. -/
def InRange (w : World) : Prop :=
  w._voxelNodeCount < 2 ^ 64 ∧ w._voxelNodeLeafCount < 2 ^ 64

/-- Between `(n, w)` and `(m, v)` the two counters moved, modulo 2^64, by exactly the change
in the number of nodes and of childless nodes of the subtree. -/
def Balanced (n : VoxelNode) (w : World) (m : VoxelNode) (v : World) : Prop :=
  (v._voxelNodeCount : ZMod (2 ^ 64)) + (numNodes n : ZMod (2 ^ 64)) =
      (w._voxelNodeCount : ZMod (2 ^ 64)) + (numNodes m : ZMod (2 ^ 64)) ∧
    (v._voxelNodeLeafCount : ZMod (2 ^ 64)) + (numChildless n : ZMod (2 ^ 64)) =
      (w._voxelNodeLeafCount : ZMod (2 ^ 64)) + (numChildless m : ZMod (2 ^ 64))

/-- The counters are exact: in range, and equal modulo 2^64 to the number of live nodes and
of live childless nodes. -/
def State.CountersExact (s : State) : Prop :=
  InRange s.world ∧
    (s.world._voxelNodeCount : ZMod (2 ^ 64)) = (s.numNodes : ZMod (2 ^ 64)) ∧
    (s.world._voxelNodeLeafCount : ZMod (2 ^ 64)) = (s.numChildless : ZMod (2 ^ 64))

/-- Runs a sequence of calls from the empty process. -/
def run (ops : List Op) : Option State := ops.foldlM (fun s op => step op s) State.start

/-- Runs a sequence of calls from the empty process, skipping a call that cannot be made. -/
def runD (ops : List Op) : State := ops.foldl (fun s op => (step op s).getD s) State.start

/-- A root with children 1 and 3, child 3 having a child 5 of its own: 4 nodes. -/
def builtState : State :=
  runD [.newNode [], .addChildAtIndex 0 [] 3, .addChildAtIndex 0 [3] 5, .addChildAtIndex 0 [] 1]

/-- The root of `builtState`. -/
def builtRoot : VoxelNode := builtState.roots.headD (newRoot World.empty).1

/-- Child 3 of the root of `builtState`. -/
def builtChild : VoxelNode := (builtRoot.getChildAtIndex 3).getD builtRoot

/-- Calls that build a root with 8 leaf children, each painted (255,0,0,1). -/
def redLeavesOps : List Op :=
  [Op.newNode []] ++ (List.range 8).map (fun i => Op.addChildAtIndex 0 [] i) ++
    (List.range 8).map (fun i => Op.setColor 0 [i] ⟨255, 0, 0, 1⟩)

/-- Construction, the structural mutators, node destruction, and `setColor`. -/
def Op.isAccounting : Op → Prop
  | .setFalseColor _ _ _ _ _ => False
  | .setFalseColored _ _ _ => False
  | .setColorFromAverageOfChildren _ _ => False
  | .setVoxelSystem _ _ _ => False
  | _ => True

/-! ## Concrete nodes used as inputs -/

/-- Calls `addChildAtIndex(i)` for every octant in turn. -/
def addAllChildren (s : VoxelNode × World) : VoxelNode × World :=
  (List.range NUMBER_OF_CHILDREN).foldl (fun s i => (addChildAtIndex s.1 i s.2).2) s

/-- A root in a fresh process to which all 8 children were added, nothing coloured. -/
def rootWithFreshChildren : VoxelNode × World := addAllChildren (newRoot World.empty)

/-- Calls `setColor(color)` on each of the 8 children in turn. -/
def paintChildren (color : nodeColor) (s : VoxelNode × World) : Option (VoxelNode × World) :=
  (List.range NUMBER_OF_CHILDREN).foldlM
    (fun s i => callAt (fun c w => some (setColor c color w)) [i] s.1 s.2) s

/-- A root that was never coloured (true colour (0,0,0,0)) whose 8 children are leaves with
true colour (0,0,0,1): each child was painted (1,0,0,1) and then (0,0,0,1). -/
def rootWithBlackLeaves : Option (VoxelNode × World) :=
  (paintChildren ⟨1, 0, 0, 1⟩ rootWithFreshChildren).bind (paintChildren ⟨0, 0, 0, 1⟩)

/-- A root with true colour (0,0,0,1) and no children: painted (1,0,0,1), then (0,0,0,1). -/
def blackRoot : VoxelNode × World :=
  let r0 := newRoot World.empty
  let r1 := setColor r0.1 ⟨1, 0, 0, 1⟩ r0.2
  setColor r1.1 ⟨0, 0, 0, 1⟩ r1.2

/-- A root painted (255,0,0,0) by `setColor`, to which children 0 to 3 were then added and
painted (255,0,0,1); slots 4 to 7 stay empty. -/
def redRootWithFourRedLeaves : Option (VoxelNode × World) :=
  let r0 := newRoot World.empty
  let r1 := setColor r0.1 ⟨255, 0, 0, 0⟩ r0.2
  [0, 1, 2, 3].foldlM
    (fun s i =>
      let a := addChildAtIndex s.1 i s.2
      callAt (fun c w => some (setColor c ⟨255, 0, 0, 1⟩ w)) [i] a.2.1 a.2.2)
    r1

/-- A fresh root to which children 0 to 3 were added and painted (255,0,0,1). -/
def rootWithFourRedLeaves : Option (VoxelNode × World) :=
  [0, 1, 2, 3].foldlM
    (fun s i =>
      let a := addChildAtIndex s.1 i s.2
      callAt (fun c w => some (setColor c ⟨255, 0, 0, 1⟩ w)) [i] a.2.1 a.2.2)
    (newRoot World.empty)

/-- A fresh root after `setColor((0,0,0,1))`. -/
def roundTripColoured : VoxelNode × World :=
  setColor (newRoot World.empty).1 ⟨0, 0, 0, 1⟩ (newRoot World.empty).2

/-- Then after `setFalseColor(9,9,9)`. -/
def roundTripOverridden : VoxelNode × World :=
  setFalseColor roundTripColoured.1 9 9 9 roundTripColoured.2

/-- Then after `setFalseColored(false)`. -/
def roundTripRestored : VoxelNode × World :=
  setFalseColored roundTripOverridden.1 false roundTripOverridden.2

/-! ## Predicates and measures used in the statements -/

/-- Child `i` passes the scan against the colour `(r, g, b)`: it exists, is a leaf, is
coloured, and its display colour has that RGB. -/
def ScanOk (n : VoxelNode) (r g b : Nat) (i : Nat) : Prop :=
  ∃ c, n.getChildAtIndex i = some c ∧ c.isLeaf = true ∧ c.isColored = true ∧
    c.getColor.red.val = r ∧ c.getColor.green.val = g ∧ c.getColor.blue.val = b

/-- Weight 1 of an occupied slot. -/
def slotOccupied (p : Option VoxelNode) : Nat := if p.isSome then 1 else 0

/-- Nodes owned through a pointer. -/
def slotNodes (p : Option VoxelNode) : Nat :=
  match p with
  | some c => numNodes c
  | none => 0

/-- Childless nodes owned through a pointer. -/
def slotChildless (p : Option VoxelNode) : Nat :=
  match p with
  | some c => numChildless c
  | none => 0

/-- The node that `removeChildAtIndex` and `deleteChildAtIndex` leave when slot `i` is
occupied. -/
def detached (n : VoxelNode) (i : Nat) : VoxelNode :=
  (n.setChild i none).withData fun d =>
    { d with _isDirty := true, _childCount := d._childCount - 1 }

/-- Every root of the state satisfies the structural invariant. -/
def State.AllInv (s : State) : Prop := ∀ t ∈ s.roots, Inv t

/-- What one call of `safeDeepDeleteChildAtIndex` guarantees. -/
def SafeDeepDeleteSpec (n : VoxelNode) (i : Nat) (w : World) (r : VoxelNode × World) : Prop :=
  Inv r.1 ∧ InRange r.2 ∧ Balanced n w r.1 r.2 ∧ r.1._children = n._children.set i none

/-- Density of the child in slot `i`, 0 for an empty slot. -/
def childDensity (n : VoxelNode) (i : Nat) : ℚ :=
  match n.getChildAtIndex i with
  | some c => c.getDensity
  | none => 0

/-! ## Invariants of colour, density and owner index -/

mutual
/-- The property `P` holds of the members of the node and of every descendant. -/
def AllData (P : NodeData → Prop) : VoxelNode → Prop
  | mk d cs => P d ∧ AllDataChildren P cs
/-- The property `P` holds throughout every subtree of a child array. -/
def AllDataChildren (P : NodeData → Prop) : List (Option VoxelNode) → Prop
  | [] => True
  | none :: rest => AllDataChildren P rest
  | some c :: rest => AllData P c ∧ AllDataChildren P rest
end

/-- Without an override the display colour is the true colour, in all four channels. -/
def ColourOk (d : NodeData) : Prop := d._falseColored = false → d._currentColor = d._trueColor

/-- The density is a fraction in [0,1]. -/
def DensityOk (d : NodeData) : Prop := 0 ≤ d._density ∧ d._density ≤ 1

/-- The owner index of the node is registered in the index-to-owner map `m`. -/
def IndexOk (m : List (Nat × Nat)) (d : NodeData) : Prop :=
  (m.lookup d._voxelSystemIndex).isSome = true

/-- The two maps of the registry agree in this direction: the owner registered under an
index has that index, and every index given to an owner is registered. -/
def RegistryOk (w : World) : Prop :=
  (∀ k p, w._mapIndexToVoxelSystemPointers.lookup k = some p →
      w._mapVoxelSystemPointersToIndex.lookup p = some k) ∧
    ∀ p k, w._mapVoxelSystemPointersToIndex.lookup p = some k →
      (w._mapIndexToVoxelSystemPointers.lookup k).isSome = true

/-- The three node invariants together. -/
def GoodData (m : List (Nat × Nat)) (d : NodeData) : Prop :=
  ColourOk d ∧ DensityOk d ∧ IndexOk m d

/-- Every index registered in `w` is registered in `v`. -/
def RegistryLe (w v : World) : Prop :=
  ∀ k, (w._mapIndexToVoxelSystemPointers.lookup k).isSome = true →
    (v._mapIndexToVoxelSystemPointers.lookup k).isSome = true

/-- The registry is consistent and every live node satisfies the node invariants. -/
def State.Good (s : State) : Prop :=
  RegistryOk s.world ∧
    ∀ t ∈ s.roots, AllData (GoodData s.world._mapIndexToVoxelSystemPointers) t

/-- A call keeps the registry consistent, forgets no registered index, and keeps the node
invariants throughout the subtree it is made on. -/
def Keeps (f : VoxelNode → World → Option (VoxelNode × World)) : Prop :=
  ∀ n w r, RegistryOk w → AllData (GoodData w._mapIndexToVoxelSystemPointers) n →
    f n w = some r →
    RegistryOk r.2 ∧ RegistryLe w r.2 ∧
      AllData (GoodData r.2._mapIndexToVoxelSystemPointers) r.1

/-- The two maps of the registry are the same in `w` and `v`. -/
def SameRegistry (w v : World) : Prop :=
  v._mapVoxelSystemPointersToIndex = w._mapVoxelSystemPointersToIndex ∧
    v._mapIndexToVoxelSystemPointers = w._mapIndexToVoxelSystemPointers

/-- A state with one root that was painted, overridden with (9,9,9) and restored. -/
def restoredState : State :=
  runD [.newNode [], .setColor 0 [] ⟨255, 0, 0, 1⟩, .setFalseColor 0 [] 9 9 9,
    .setFalseColored 0 [] false]

/-- A state with one root whose children 0 to 3 were painted (255,0,0,1) and which was then
averaged. -/
def averagedState : State :=
  runD [.newNode [], .addChildAtIndex 0 [] 0, .addChildAtIndex 0 [] 1, .addChildAtIndex 0 [] 2,
    .addChildAtIndex 0 [] 3, .setColor 0 [0] ⟨255, 0, 0, 1⟩, .setColor 0 [1] ⟨255, 0, 0, 1⟩,
    .setColor 0 [2] ⟨255, 0, 0, 1⟩, .setColor 0 [3] ⟨255, 0, 0, 1⟩,
    .setColorFromAverageOfChildren 0 []]

/-- A state with one root whose owner was set to each of the 257 owners 1, ..., 257 in
turn: the 8-bit index counter has wrapped. -/
def wrappedState : State :=
  runD (Op.newNode [] :: (List.range 257).map fun v => Op.setVoxelSystem 0 [] (v + 1))

/-! ## Level of detail -/

/-- Function `calculateShouldRender`. `furthestDistanceToCamera` and
`boundaryDistanceForRenderLevel` belong to code that is not under src/ and are parameters:
the distance `furthestDistance` and the policy `boundaryDistanceForRenderLevel`, with values
in any linear order (the rationals, the reals); levels are integers. -/
def calculateShouldRender {α : Type} [LinearOrder α] (n : VoxelNode) (furthestDistance : α)
    (boundaryDistanceForRenderLevel : Int → α) (boundaryLevelAdjust : Int) : Bool :=
  if n.isColored then
    let boundary := boundaryDistanceForRenderLevel ((n.getLevel : Int) + boundaryLevelAdjust)
    let childBoundary :=
      boundaryDistanceForRenderLevel ((n.getLevel : Int) + 1 + boundaryLevelAdjust)
    let inBoundary : Bool := decide (furthestDistance ≤ boundary)
    let inChildBoundary : Bool := decide (furthestDistance ≤ childBoundary)
    (n.isLeaf && inChildBoundary) || (inBoundary && !inChildBoundary)
  else false

/-- Modelled from the spec: `clearDirtyBit` is declared in VoxelNode.h (not under src/);
"dirty: boolean, set on any mutation, cleared by an external consumer". -/
def clearDirtyBit (n : VoxelNode) : VoxelNode :=
  n.withData fun d => { d with _isDirty := false }

/-! ## Further concrete inputs -/

/-- A fresh root after `setFalseColor(9,9,9)`: override active, true colour (0,0,0,0). -/
def overriddenRoot : VoxelNode × World :=
  setFalseColor (newRoot World.empty).1 9 9 9 (newRoot World.empty).2

/-- A root painted (255,0,0,1) with a child in slot 0 painted (0,255,0,1). -/
def lodParent : VoxelNode :=
  (runD [.newNode [], .setColor 0 [] ⟨255, 0, 0, 1⟩, .addChildAtIndex 0 [] 0,
    .setColor 0 [0] ⟨0, 255, 0, 1⟩]).roots.headD (newRoot World.empty).1

/-- Child 0 of `lodParent`. -/
def lodChild : VoxelNode := (lodParent.getChildAtIndex 0).getD lodParent

/-- A boundary policy: 20 up to level 0, 10 at level 1, 5 from level 2 on. -/
def lodBoundary (level : Int) : ℚ := if level ≤ 0 then 20 else if level ≤ 1 then 10 else 5

/-- Calls `setVoxelSystem` on the node with each owner in turn. -/
def registerOwners (owners : List Nat) (s : VoxelNode × World) : VoxelNode × World :=
  owners.foldl (fun s v => setVoxelSystem s.1 v s.2) s

/-- A fresh root whose owner was set to owner 1. -/
def ownedNode : VoxelNode × World :=
  setVoxelSystem (newRoot World.empty).1 1 (newRoot World.empty).2

/-- The registry after a second node registered the 256 further owners 2, ..., 257. -/
def crowdedWorld : World :=
  (registerOwners ((List.range 256).map (· + 2)) (new [] ownedNode.2)).2

/-- Calls that build a root with one child in slot 0 that was painted (1,0,0,1) and then
(0,0,0,0): the child is uncoloured with density 1. -/
def hollowChildOps : List Op :=
  [.newNode [], .addChildAtIndex 0 [] 0, .setColor 0 [0] ⟨1, 0, 0, 1⟩,
    .setColor 0 [0] ⟨0, 0, 0, 0⟩]

/-- A root painted (255,0,0,1) with 8 leaf children painted (255,0,0,1), its dirty flag
cleared. -/
def cleanRedRoot : VoxelNode × World :=
  let s := runD (redLeavesOps ++ [Op.setColor 0 [] ⟨255, 0, 0, 1⟩])
  (clearDirtyBit (s.roots.headD (newRoot World.empty).1), s.world)

/-- A fresh root with 8 leaf children, each painted (255,0,0,1); no override anywhere. -/
def redLeavesRoot : VoxelNode × World :=
  let s := runD redLeavesOps
  (s.roots.headD (newRoot World.empty).1, s.world)

/-- The state after `collapseIdenticalLeaves()` on the root with 8 red leaves. -/
def collapsedState : State := runD (redLeavesOps ++ [Op.collapseIdenticalLeaves 0 []])

/-- Construction, `addChildAtIndex`, and the colour mutators of C12. -/
def Op.isColouring : Op → Prop
  | .newNode _ => True
  | .addChildAtIndex _ _ _ => True
  | .setColor _ _ _ => True
  | .setFalseColor _ _ _ _ _ => True
  | .setFalseColored _ _ _ => True
  | .setColorFromAverageOfChildren _ _ => True
  | .collapseIdenticalLeaves _ _ => True
  | _ => False

/-- Construction and the public mutators of C18 and C20. -/
def Op.isMutator : Op → Prop
  | .deleteNode _ => False
  | .setVoxelSystem _ _ _ => False
  | _ => True

/-! ## Projections -/

@[simp] theorem data_mk (d : NodeData) (cs : List (Option VoxelNode)) : (mk d cs).data = d := rfl

@[simp] theorem children_mk (d : NodeData) (cs : List (Option VoxelNode)) :
    (mk d cs)._children = cs := rfl

@[simp] theorem data_withData (n : VoxelNode) (f : NodeData → NodeData) :
    (n.withData f).data = f n.data := rfl

@[simp] theorem children_withData (n : VoxelNode) (f : NodeData → NodeData) :
    (n.withData f)._children = n._children := rfl

@[simp] theorem data_setChild (n : VoxelNode) (i : Nat) (p : Option VoxelNode) :
    (n.setChild i p).data = n.data := rfl

@[simp] theorem children_setChild (n : VoxelNode) (i : Nat) (p : Option VoxelNode) :
    (n.setChild i p)._children = n._children.set i p := rfl

theorem mk_eta (n : VoxelNode) : mk n.data n._children = n := by
  cases n; rfl

/-! ## collapseIdenticalLeaves: the scan -/

theorem range_children : List.range NUMBER_OF_CHILDREN = [0, 1, 2, 3, 4, 5, 6, 7] := by
  decide

theorem collapseScan_tail (n : VoxelNode) :
    ∀ (l : List Nat) (s : CollapseScan), 0 ∉ l → s.allChildrenMatch = true →
      ((∀ i ∈ l, ScanOk n s.red s.green s.blue i) → collapseScan n l s = s) ∧
      (¬ (∀ i ∈ l, ScanOk n s.red s.green s.blue i) →
        (collapseScan n l s).allChildrenMatch = false) := by
  intro l
  induction l with
  | nil => intro s _ _; simp [collapseScan]
  | cons i rest ih =>
    intro s h0 hs
    have hi : i ≠ 0 := fun h => h0 (by simp [h])
    have hrest : 0 ∉ rest := fun h => h0 (by simp [h])
    have ih1 := ih s hrest hs
    cases hc : n.getChildAtIndex i with
    | none =>
      constructor
      · intro hall
        obtain ⟨c, hc1, _⟩ := hall i (by simp)
        rw [hc] at hc1; cases hc1
      · intro _; simp [collapseScan, hc]
    | some c =>
      by_cases hlc : c.isLeaf = true ∧ c.isColored = true
      · by_cases hrgb : c.getColor.red.val = s.red ∧ c.getColor.green.val = s.green ∧
            c.getColor.blue.val = s.blue
        · have step : collapseScan n (i :: rest) s = collapseScan n rest s := by
            simp [collapseScan, hc, hlc.1, hlc.2, hi, hrgb.1, hrgb.2.1, hrgb.2.2]
          rw [step]
          constructor
          · intro hall
            exact ih1.1 fun j hj => hall j (by simp [hj])
          · intro hnall
            apply ih1.2
            intro hall
            apply hnall
            intro j hj
            rcases List.mem_cons.1 hj with rfl | hj
            · exact ⟨c, hc, hlc.1, hlc.2, hrgb.1, hrgb.2.1, hrgb.2.2⟩
            · exact hall j hj
        · constructor
          · intro hall
            obtain ⟨c1, hc1, _, _, h1, h2, h3⟩ := hall i (by simp)
            rw [hc] at hc1; cases hc1
            exact absurd ⟨h1, h2, h3⟩ hrgb
          · intro _
            have : (s.red != c.getColor.red.val || s.green != c.getColor.green.val
                || s.blue != c.getColor.blue.val) = true := by
              by_contra hne
              apply hrgb
              simp only [Bool.or_eq_true, bne_iff_ne, ne_eq, not_or, not_not] at hne
              exact ⟨hne.1.1.symm, hne.1.2.symm, hne.2.symm⟩
            simp [collapseScan, hc, hlc.1, hlc.2, hi, this]
      · constructor
        · intro hall
          obtain ⟨c1, hc1, h1, h2, _⟩ := hall i (by simp)
          rw [hc] at hc1; cases hc1
          exact absurd ⟨h1, h2⟩ hlc
        · intro _
          have : (!c.isLeaf || !c.isColored) = true := by
            by_contra hne
            apply hlc
            simpa using hne
          simp [collapseScan, hc, this]

/-- What the scan of `collapseIdenticalLeaves` computes: it succeeds exactly when child 0
exists, is a coloured leaf, and every child passes against child 0's display RGB, which is
then the RGB left in the locals. -/
theorem collapseScan_spec (n : VoxelNode) :
    (collapseScan n (List.range NUMBER_OF_CHILDREN) ⟨true, 0, 0, 0⟩).allChildrenMatch = true ↔
      ∃ r g b : Fin 256, (∀ i, i < 8 → ScanOk n r.val g.val b.val i) ∧
        collapseScan n (List.range NUMBER_OF_CHILDREN) ⟨true, 0, 0, 0⟩ =
          ⟨true, r.val, g.val, b.val⟩ := by
  rw [range_children]
  constructor
  · intro h
    cases hc : n.getChildAtIndex 0 with
    | none => simp [collapseScan, hc] at h
    | some c =>
      by_cases hlc : c.isLeaf = true ∧ c.isColored = true
      · have step : collapseScan n [0, 1, 2, 3, 4, 5, 6, 7] ⟨true, 0, 0, 0⟩ =
            collapseScan n [1, 2, 3, 4, 5, 6, 7]
              ⟨true, c.getColor.red.val, c.getColor.green.val, c.getColor.blue.val⟩ := by
          simp [collapseScan, hc, hlc.1, hlc.2]
        have t := collapseScan_tail n [1, 2, 3, 4, 5, 6, 7]
          ⟨true, c.getColor.red.val, c.getColor.green.val, c.getColor.blue.val⟩
          (by decide) rfl
        rw [step] at h ⊢
        by_cases hall : ∀ i ∈ [1, 2, 3, 4, 5, 6, 7],
            ScanOk n c.getColor.red.val c.getColor.green.val c.getColor.blue.val i
        · refine ⟨c.getColor.red, c.getColor.green, c.getColor.blue, ?_, t.1 hall⟩
          intro i hi
          rcases Nat.eq_zero_or_pos i with rfl | hpos
          · exact ⟨c, hc, hlc.1, hlc.2, rfl, rfl, rfl⟩
          · apply hall
            simp only [List.mem_cons, List.mem_singleton, List.not_mem_nil, or_false]
            omega
        · have := t.2 hall
          simp only at this
          rw [this] at h
          cases h
      · have : (!c.isLeaf || !c.isColored) = true := by
          by_contra hne
          apply hlc
          simpa using hne
        simp [collapseScan, hc, this] at h
  · rintro ⟨r, g, b, _, h⟩
    rw [h]

/-! ## Child arrays -/

theorem sum_map_set {α : Type} (f : α → Nat) (b : α) :
    ∀ (l : List α) (i : Nat) (a : α), l[i]? = some a →
      ((l.set i b).map f).sum + f a = (l.map f).sum + f b := by
  intro l
  induction l with
  | nil => intro i a h; simp at h
  | cons x rest ih =>
    intro i a h
    cases i with
    | zero =>
      simp only [List.getElem?_cons_zero, Option.some.injEq] at h
      subst h
      simp only [List.set_cons_zero, List.map_cons, List.sum_cons]
      omega
    | succ j =>
      simp only [List.getElem?_cons_succ] at h
      have := ih j a h
      simp only [List.set_cons_succ, List.map_cons, List.sum_cons]
      omega

theorem occupied_eq_sum (cs : List (Option VoxelNode)) :
    occupied cs = (cs.map slotOccupied).sum := by
  induction cs with
  | nil => rfl
  | cons p rest ih =>
    cases p with
    | none => simpa [occupied, slotOccupied] using ih
    | some c =>
      simp only [occupied, slotOccupied, List.map_cons, List.sum_cons] at ih ⊢
      simp [List.filter_cons, ih]
      omega

theorem numNodesChildren_eq_sum (cs : List (Option VoxelNode)) :
    numNodesChildren cs = (cs.map slotNodes).sum := by
  induction cs with
  | nil => simp [numNodesChildren]
  | cons p rest ih => cases p <;> simp [numNodesChildren, slotNodes, ih]

theorem numChildlessChildren_eq_sum (cs : List (Option VoxelNode)) :
    numChildlessChildren cs = (cs.map slotChildless).sum := by
  induction cs with
  | nil => simp [numChildlessChildren]
  | cons p rest ih => cases p <;> simp [numChildlessChildren, slotChildless, ih]

theorem invChildren_iff (cs : List (Option VoxelNode)) :
    InvChildren cs ↔ ∀ c, some c ∈ cs → Inv c := by
  induction cs with
  | nil => simp [InvChildren]
  | cons p rest ih =>
    cases p with
    | none => simp [InvChildren, ih]
    | some c => simp [InvChildren, ih]

theorem inv_iff (n : VoxelNode) :
    Inv n ↔ n.data._childCount = (occupied n._children : Int) ∧ n._children.length = 8 ∧
      ∀ c, some c ∈ n._children → Inv c := by
  cases n with
  | mk d cs => simp [Inv, invChildren_iff]

theorem numNodes_eq (n : VoxelNode) : numNodes n = 1 + (n._children.map slotNodes).sum := by
  cases n with
  | mk d cs => simp [numNodes, numNodesChildren_eq_sum]

theorem numChildless_eq (n : VoxelNode) :
    numChildless n =
      (if occupied n._children = 0 then 1 else 0) + (n._children.map slotChildless).sum := by
  cases n with
  | mk d cs => simp [numChildless, numChildlessChildren_eq_sum]

theorem getChildAtIndex_eq_some (n : VoxelNode) (i : Nat) (c : VoxelNode) :
    n.getChildAtIndex i = some c ↔ n._children[i]? = some (some c) := by
  unfold getChildAtIndex
  cases h : n._children[i]? with
  | none => simp
  | some p => cases p <;> simp

theorem mem_of_getChildAtIndex (n : VoxelNode) (i : Nat) (c : VoxelNode)
    (h : n.getChildAtIndex i = some c) : some c ∈ n._children :=
  List.getElem?_mem ((getChildAtIndex_eq_some n i c).1 h)

theorem inv_child (n : VoxelNode) (i : Nat) (c : VoxelNode) (hn : Inv n)
    (h : n.getChildAtIndex i = some c) : Inv c :=
  ((inv_iff n).1 hn).2.2 c (mem_of_getChildAtIndex n i c h)

theorem getChildAtIndex_eq_none (n : VoxelNode) (i : Nat) (hi : i < n._children.length) :
    n.getChildAtIndex i = none ↔ n._children[i]? = some none := by
  unfold getChildAtIndex
  cases h : n._children[i]? with
  | none =>
    rw [List.getElem?_eq_none_iff] at h
    omega
  | some p => cases p <;> simp

/-! ## The structural invariant is kept by every operation -/

theorem inv_of_same (n m : VoxelNode) (hn : Inv n) (hc : m._children = n._children)
    (hd : m.data._childCount = n.data._childCount) : Inv m := by
  rw [inv_iff] at hn ⊢
  rw [hc, hd]
  exact hn

theorem occupied_set_some (cs : List (Option VoxelNode)) (i : Nat) (c c1 : VoxelNode)
    (h : cs[i]? = some (some c)) : occupied (cs.set i (some c1)) = occupied cs := by
  have := sum_map_set slotOccupied (some c1) cs i (some c) h
  rw [occupied_eq_sum, occupied_eq_sum]
  simpa [slotOccupied] using this

theorem occupied_set_none (cs : List (Option VoxelNode)) (i : Nat) (c : VoxelNode)
    (h : cs[i]? = some (some c)) : occupied (cs.set i none) + 1 = occupied cs := by
  have := sum_map_set slotOccupied none cs i (some c) h
  rw [occupied_eq_sum, occupied_eq_sum]
  simpa [slotOccupied] using this

theorem occupied_set_fresh (cs : List (Option VoxelNode)) (i : Nat) (c1 : VoxelNode)
    (h : cs[i]? = some none) : occupied (cs.set i (some c1)) = occupied cs + 1 := by
  have := sum_map_set slotOccupied (some c1) cs i none h
  rw [occupied_eq_sum, occupied_eq_sum]
  simpa [slotOccupied] using this

theorem inv_setChild_some (n : VoxelNode) (i : Nat) (c c1 : VoxelNode) (hn : Inv n)
    (h : n.getChildAtIndex i = some c) (hc1 : Inv c1) : Inv (n.setChild i (some c1)) := by
  rw [inv_iff] at hn ⊢
  rw [getChildAtIndex_eq_some] at h
  refine ⟨?_, ?_, ?_⟩
  · simp only [data_setChild, children_setChild, occupied_set_some _ _ _ _ h]
    exact hn.1
  · simpa using hn.2.1
  · intro x hx
    rcases List.mem_or_eq_of_mem_set hx with hx | hx
    · exact hn.2.2 x hx
    · cases hx
      exact hc1

theorem inv_detached (n : VoxelNode) (i : Nat) (c : VoxelNode) (hn : Inv n)
    (h : n.getChildAtIndex i = some c) : Inv (detached n i) := by
  rw [inv_iff] at hn ⊢
  rw [getChildAtIndex_eq_some] at h
  have ho := occupied_set_none _ _ _ h
  refine ⟨?_, ?_, ?_⟩
  · simp only [detached, data_withData, data_setChild, children_withData, children_setChild]
    rw [hn.1]
    omega
  · simpa [detached] using hn.2.1
  · intro x hx
    simp only [detached, children_withData, children_setChild] at hx
    rcases List.mem_or_eq_of_mem_set hx with hx | hx
    · exact hn.2.2 x hx
    · cases hx

theorem deleteChildAtIndex_node (n : VoxelNode) (i : Nat) (w : World) (c : VoxelNode)
    (h : n.getChildAtIndex i = some c) : (deleteChildAtIndex n i w).1 = detached n i := by
  unfold deleteChildAtIndex
  simp only [h, markWithChangedTime]
  split <;> rfl

theorem removeChildAtIndex_node (n : VoxelNode) (i : Nat) (w : World) (c : VoxelNode)
    (h : n.getChildAtIndex i = some c) : (removeChildAtIndex n i w).2.1 = detached n i := by
  unfold removeChildAtIndex
  simp only [h, markWithChangedTime]
  split <;> rfl

theorem inv_deleteChildAtIndex (n : VoxelNode) (i : Nat) (w : World) (hn : Inv n) :
    Inv (deleteChildAtIndex n i w).1 := by
  cases h : n.getChildAtIndex i with
  | none => simpa [deleteChildAtIndex, h] using hn
  | some c =>
    rw [deleteChildAtIndex_node n i w c h]
    exact inv_detached n i c hn h

theorem inv_removeChildAtIndex (n : VoxelNode) (i : Nat) (w : World) (hn : Inv n) :
    Inv (removeChildAtIndex n i w).2.1 := by
  cases h : n.getChildAtIndex i with
  | none => simpa [removeChildAtIndex, h] using hn
  | some c =>
    rw [removeChildAtIndex_node n i w c h]
    exact inv_detached n i c hn h

theorem setVoxelSystem_children (n : VoxelNode) (v : Nat) (w : World) :
    (setVoxelSystem n v w).1._children = n._children := by
  unfold setVoxelSystem
  split <;> rfl

theorem setVoxelSystem_childCount (n : VoxelNode) (v : Nat) (w : World) :
    (setVoxelSystem n v w).1.data._childCount = n.data._childCount := by
  unfold setVoxelSystem
  split <;> rfl

theorem new_children (code : List Nat) (w : World) :
    (new code w).1._children = List.replicate 8 none := by
  simp [new, init, markWithChangedTime, setVoxelSystem_children, NUMBER_OF_CHILDREN]

theorem new_childCount (code : List Nat) (w : World) :
    (new code w).1.data._childCount = 0 := by
  simp [new, init, markWithChangedTime, setVoxelSystem_childCount]

theorem inv_new (code : List Nat) (w : World) : Inv (new code w).1 := by
  rw [inv_iff, new_children, new_childCount]
  refine ⟨by decide, by decide, ?_⟩
  intro c hc
  simp [List.mem_replicate] at hc

theorem inv_addChildAtIndex (n : VoxelNode) (i : Nat) (w : World) (hn : Inv n) (hi : i < 8) :
    Inv (addChildAtIndex n i w).2.1 := by
  cases h : n.getChildAtIndex i with
  | some c => simpa [addChildAtIndex, h] using hn
  | none =>
    have hc1 : ∀ (v : Nat) (w1 w2 : World) (code : List Nat),
        Inv (setVoxelSystem (new code w1).1 v w2).1 := fun v w1 w2 code =>
      inv_of_same _ _ (inv_new code w1) (setVoxelSystem_children _ _ _)
        (setVoxelSystem_childCount _ _ _)
    rw [inv_iff] at hn ⊢
    have hlen : i < n._children.length := by rw [hn.2.1]; exact hi
    have hget := (getChildAtIndex_eq_none n i hlen).1 h
    simp only [addChildAtIndex, h, markWithChangedTime, data_withData, data_setChild,
      children_withData, children_setChild, List.set_set, List.length_set]
    refine ⟨?_, hn.2.1, ?_⟩
    · rw [occupied_set_fresh _ _ _ hget, hn.1]
      push_cast
      ring
    · intro x hx
      rcases List.mem_or_eq_of_mem_set hx with hx | hx
      · exact hn.2.2 x hx
      · cases hx
        exact hc1 _ _ _ _

theorem setColor_children (n : VoxelNode) (c : nodeColor) (w : World) :
    (setColor n c w).1._children = n._children := by
  unfold setColor
  split
  · by_cases hf : n.data._falseColored = true <;> simp [markWithChangedTime, hf]
  · rfl

theorem setColor_childCount (n : VoxelNode) (c : nodeColor) (w : World) :
    (setColor n c w).1.data._childCount = n.data._childCount := by
  unfold setColor
  split
  · by_cases hf : n.data._falseColored = true <;> simp [markWithChangedTime, hf]
  · rfl

theorem inv_setColor (n : VoxelNode) (c : nodeColor) (w : World) (hn : Inv n) :
    Inv (setColor n c w).1 :=
  inv_of_same _ _ hn (setColor_children n c w) (setColor_childCount n c w)

theorem inv_setFalseColor (n : VoxelNode) (r g b : Fin 256) (w : World) (hn : Inv n) :
    Inv (setFalseColor n r g b w).1 := by
  unfold setFalseColor
  split
  · exact inv_of_same _ _ hn rfl rfl
  · exact hn

theorem inv_setFalseColored (n : VoxelNode) (b : Bool) (w : World) (hn : Inv n) :
    Inv (setFalseColored n b w).1 := by
  unfold setFalseColored
  split
  · refine inv_of_same _ _ hn ?_ ?_ <;>
      by_cases hf : (n.data._falseColored && !b) = true <;> simp [markWithChangedTime, hf]
  · exact hn

theorem inv_setColorFromAverageOfChildren (n : VoxelNode) (w : World) (r : VoxelNode × World)
    (hn : Inv n) (h : setColorFromAverageOfChildren n w = some r) : Inv r.1 := by
  unfold setColorFromAverageOfChildren at h
  simp only at h
  split at h
  · split at h
    · cases h
    · cases h
      exact inv_of_same _ _ (inv_setColor n _ w hn) rfl rfl
  · cases h
    exact inv_of_same _ _ (inv_setColor n _ w hn) rfl rfl

theorem foldl_collapseDelete_node (l : List Nat) (n : VoxelNode) (w : World) :
    (l.foldl collapseDelete (n, w)).1 =
      mk n.data (l.foldl (fun cs i => cs.set i none) n._children) := by
  induction l generalizing n w with
  | nil => simp [mk_eta]
  | cons i rest ih =>
    simp only [List.foldl_cons, collapseDelete]
    rw [ih]
    simp

theorem clear_all_slots (cs : List (Option VoxelNode)) (h : cs.length = 8) :
    [0, 1, 2, 3, 4, 5, 6, 7].foldl (fun cs i => cs.set i none) cs = List.replicate 8 none := by
  match cs, h with
  | [_, _, _, _, _, _, _, _], _ => rfl

theorem collapseIdenticalLeaves_of_false (n : VoxelNode) (w : World)
    (h : (collapseIdenticalLeaves n w).1 = false) :
    (collapseIdenticalLeaves n w).2 = (n, w) := by
  unfold collapseIdenticalLeaves at h ⊢
  by_cases hm : (collapseScan n (List.range NUMBER_OF_CHILDREN) ⟨true, 0, 0, 0⟩).allChildrenMatch
      = true
  · simp [hm] at h
  · simp only [Bool.not_eq_true] at hm
    simp [hm]

theorem collapseIdenticalLeaves_children (n : VoxelNode) (w : World)
    (hlen : n._children.length = 8) (h : (collapseIdenticalLeaves n w).1 = true) :
    (collapseIdenticalLeaves n w).2.1._children = List.replicate 8 none ∧
      (collapseIdenticalLeaves n w).2.1.data._childCount = 0 := by
  unfold collapseIdenticalLeaves at h ⊢
  by_cases hm : (collapseScan n (List.range NUMBER_OF_CHILDREN) ⟨true, 0, 0, 0⟩).allChildrenMatch
      = true
  · simp only [hm, if_true]
    rw [setColor_children, setColor_childCount]
    simp only [children_withData, data_withData, foldl_collapseDelete_node, children_mk,
      range_children, clear_all_slots _ hlen, and_self]
  · simp only [Bool.not_eq_true] at hm
    simp [hm] at h

theorem inv_collapseIdenticalLeaves (n : VoxelNode) (w : World) (hn : Inv n) :
    Inv (collapseIdenticalLeaves n w).2.1 := by
  cases h : (collapseIdenticalLeaves n w).1 with
  | false =>
    rw [collapseIdenticalLeaves_of_false n w h]
    exact hn
  | true =>
    obtain ⟨h1, h2⟩ := collapseIdenticalLeaves_children n w ((inv_iff n).1 hn).2.1 h
    rw [inv_iff, h1, h2]
    refine ⟨by decide, by decide, ?_⟩
    intro c hc
    simp [List.mem_replicate] at hc

theorem inv_foldlM (f : VoxelNode × World → Nat → Option (VoxelNode × World))
    (hf : ∀ s i r, Inv s.1 → f s i = some r → Inv r.1) :
    ∀ (l : List Nat) (s r : VoxelNode × World), Inv s.1 → l.foldlM f s = some r → Inv r.1 := by
  intro l
  induction l with
  | nil =>
    intro s r hs h
    simp only [List.foldlM_nil, Option.pure_def, Option.some.injEq] at h
    rw [← h]
    exact hs
  | cons i rest ih =>
    intro s r hs h
    simp only [List.foldlM_cons, Option.bind_eq_bind] at h
    cases hfi : f s i with
    | none => simp [hfi] at h
    | some s1 =>
      rw [hfi] at h
      exact ih s1 r (hf s i s1 hs hfi) h

theorem inv_safeDeepDeleteChildAtIndex :
    ∀ (fuel : Nat) (n : VoxelNode) (i : Nat) (w : World) (r : VoxelNode × World),
      Inv n → safeDeepDeleteChildAtIndex fuel n i w = some r → Inv r.1 := by
  intro fuel
  induction fuel with
  | zero => intro n i w r _ h; simp [safeDeepDeleteChildAtIndex] at h
  | succ fuel ih =>
    intro n i w r hn h
    unfold safeDeepDeleteChildAtIndex at h
    cases hc : n.getChildAtIndex i with
    | none =>
      simp only [hc, Option.some.injEq] at h
      rw [← h]
      exact hn
    | some c =>
      simp only [hc] at h
      have hinner : ∀ s1 : VoxelNode × World,
          (if (!c.isLeaf) = true then
            (List.range NUMBER_OF_CHILDREN).foldlM
              (fun (s : VoxelNode × World) j => safeDeepDeleteChildAtIndex fuel s.1 j s.2) (c, w)
          else some (c, w)) = some s1 → Inv s1.1 := by
        intro s1 hs1
        split at hs1
        · exact inv_foldlM _ (fun s j r hs hr => ih s.1 j s.2 r hs hr) _ (c, w) s1
            (inv_child n i c hn hc) hs1
        · cases hs1
          exact inv_child n i c hn hc
      rw [Option.bind_eq_some] at h
      obtain ⟨s1, hs1, h⟩ := h
      cases h
      simp only [markWithChangedTime]
      exact inv_of_same _ _ (inv_deleteChildAtIndex _ i s1.2
        (inv_setChild_some n i c s1.1 hn hc (hinner s1 hs1))) rfl rfl

theorem inv_nodeAt : ∀ (path : List Nat) (t n : VoxelNode), Inv t → nodeAt path t = some n →
    Inv n := by
  intro path
  induction path with
  | nil =>
    intro t n ht h
    simp only [nodeAt, Option.some.injEq] at h
    rw [← h]
    exact ht
  | cons i rest ih =>
    intro t n ht h
    unfold nodeAt at h
    cases hc : t.getChildAtIndex i with
    | none => simp [hc] at h
    | some c =>
      simp only [hc] at h
      exact ih c n (inv_child t i c ht hc) h

theorem inv_callAt (f : VoxelNode → World → Option (VoxelNode × World))
    (hf : ∀ n w r, Inv n → f n w = some r → Inv r.1) :
    ∀ (path : List Nat) (t : VoxelNode) (w : World) (r : VoxelNode × World),
      Inv t → callAt f path t w = some r → Inv r.1 := by
  intro path
  induction path with
  | nil => intro t w r ht h; exact hf t w r ht h
  | cons i rest ih =>
    intro t w r ht h
    unfold callAt at h
    cases hc : t.getChildAtIndex i with
    | none => simp [hc] at h
    | some c =>
      simp only [hc] at h
      cases hr : callAt f rest c w with
      | none => simp [hr] at h
      | some r1 =>
        simp only [hr, Option.some.injEq] at h
        rw [← h]
        exact inv_setChild_some t i c r1.1 ht hc (ih c w r1 (inv_child t i c ht hc) hr)

theorem allInv_call (s s1 : State) (k : Nat) (path : List Nat)
    (f : VoxelNode → World → Option (VoxelNode × World))
    (hf : ∀ n w r, Inv n → f n w = some r → Inv r.1)
    (hs : s.AllInv) (h : s.call k path f = some s1) : s1.AllInv := by
  unfold State.call at h
  cases ht : s.roots[k]? with
  | none => simp [ht] at h
  | some t =>
    simp only [ht] at h
    cases hr : callAt f path t s.world with
    | none => simp [hr] at h
    | some r =>
      simp only [hr, Option.some.injEq] at h
      rw [← h]
      intro x hx
      rcases List.mem_or_eq_of_mem_set hx with hx | hx
      · exact hs x hx
      · rw [hx]
        exact inv_callAt f hf path t s.world r (hs t (List.getElem?_mem ht)) hr

theorem allInv_step (op : Op) (s s1 : State) (hs : s.AllInv) (h : step op s = some s1) :
    s1.AllInv := by
  cases op with
  | newNode code =>
    simp only [step, Option.some.injEq] at h
    rw [← h]
    intro x hx
    rcases List.mem_append.1 hx with hx | hx
    · exact hs x hx
    · simp only [List.mem_singleton] at hx
      rw [hx]
      exact inv_new code s.world
  | deleteNode k =>
    simp only [step] at h
    cases ht : s.roots[k]? with
    | none => simp [ht] at h
    | some t =>
      simp only [ht, Option.some.injEq] at h
      rw [← h]
      intro x hx
      exact hs x (List.mem_of_mem_eraseIdx hx)
  | addChildAtIndex k path i =>
    simp only [step] at h
    split at h
    · rename_i hi
      refine allInv_call s s1 k path _ ?_ hs h
      intro n w r hn hr
      cases hr
      exact inv_addChildAtIndex n i w hn hi
    · cases h
  | removeChildAtIndex k path i =>
    simp only [step] at h
    split at h
    · cases ht : s.roots[k]? with
      | none => simp [ht] at h
      | some t =>
        simp only [ht] at h
        cases hp : nodeAt path t with
        | none => simp [hp] at h
        | some p =>
          simp only [hp] at h
          cases hc : s.call k path fun n w => some (removeChildAtIndex n i w).2 with
          | none => simp [hc] at h
          | some s2 =>
            simp only [hc, Option.some.injEq] at h
            rw [← h]
            have h2 : s2.AllInv := by
              refine allInv_call s s2 k path _ ?_ hs hc
              intro n w r hn hr
              cases hr
              exact inv_removeChildAtIndex n i w hn
            intro x hx
            rcases List.mem_append.1 hx with hx | hx
            · exact h2 x hx
            · have hpinv := inv_nodeAt path t p (hs t (List.getElem?_mem ht)) hp
              cases hci : p.getChildAtIndex i with
              | none => simp [hci] at hx
              | some c =>
                simp only [hci, Option.toList_some, List.mem_singleton] at hx
                rw [hx]
                exact inv_child p i c hpinv hci
    · cases h
  | deleteChildAtIndex k path i =>
    simp only [step] at h
    split at h
    · refine allInv_call s s1 k path _ ?_ hs h
      intro n w r hn hr
      cases hr
      exact inv_deleteChildAtIndex n i w hn
    · cases h
  | safeDeepDeleteChildAtIndex k path i fuel =>
    simp only [step] at h
    split at h
    · exact allInv_call s s1 k path _
        (fun n w r hn hr => inv_safeDeepDeleteChildAtIndex fuel n i w r hn hr) hs h
    · cases h
  | collapseIdenticalLeaves k path =>
    simp only [step] at h
    refine allInv_call s s1 k path _ ?_ hs h
    intro n w r hn hr
    cases hr
    exact inv_collapseIdenticalLeaves n w hn
  | setColor k path c =>
    simp only [step] at h
    refine allInv_call s s1 k path _ ?_ hs h
    intro n w r hn hr
    cases hr
    exact inv_setColor n c w hn
  | setFalseColor k path r g b =>
    simp only [step] at h
    refine allInv_call s s1 k path _ ?_ hs h
    intro n w r hn hr
    cases hr
    exact inv_setFalseColor n _ _ _ w hn
  | setFalseColored k path b =>
    simp only [step] at h
    refine allInv_call s s1 k path _ ?_ hs h
    intro n w r hn hr
    cases hr
    exact inv_setFalseColored n b w hn
  | setColorFromAverageOfChildren k path =>
    simp only [step] at h
    exact allInv_call s s1 k path _
      (fun n w r hn hr => inv_setColorFromAverageOfChildren n w r hn hr) hs h
  | setVoxelSystem k path v =>
    simp only [step] at h
    refine allInv_call s s1 k path _ ?_ hs h
    intro n w r hn hr
    cases hr
    exact inv_of_same _ _ hn (setVoxelSystem_children n v w) (setVoxelSystem_childCount n v w)

theorem allInv_reachable (allowed : Op → Prop) (s : State) (h : Reachable allowed s) :
    s.AllInv := by
  induction h with
  | start => intro t ht; simp [State.start] at ht
  | step op s s1 _ _ hstep ih => exact allInv_step op s s1 ih hstep

theorem occupied_eq_zero_iff (cs : List (Option VoxelNode)) :
    occupied cs = 0 ↔ ∀ p ∈ cs, p = none := by
  induction cs with
  | nil => simp [occupied]
  | cons p rest ih =>
    cases p with
    | none =>
      have : occupied (none :: rest) = occupied rest := by simp [occupied]
      simp [this, ih]
    | some c => simp [occupied]

/-! ## The global counters -/

theorem cast_incr64 (x : Nat) :
    ((incr64 x : Nat) : ZMod (2 ^ 64)) = (x : ZMod (2 ^ 64)) + 1 := by
  unfold incr64
  rw [ZMod.natCast_mod]
  push_cast
  rfl

theorem cast_decr64 (x : Nat) :
    ((decr64 x : Nat) : ZMod (2 ^ 64)) = (x : ZMod (2 ^ 64)) - 1 := by
  unfold decr64
  rw [ZMod.natCast_mod, Nat.cast_add, Nat.cast_sub (by norm_num), ZMod.natCast_self]
  push_cast; ring

theorem incr64_lt (x : Nat) : incr64 x < 2 ^ 64 := Nat.mod_lt _ (by norm_num)

theorem decr64_lt (x : Nat) : decr64 x < 2 ^ 64 := Nat.mod_lt _ (by norm_num)

theorem eq_mod_of_cast (x y : Nat) (hx : x < 2 ^ 64)
    (h : (x : ZMod (2 ^ 64)) = (y : ZMod (2 ^ 64))) : x = y % 2 ^ 64 := by
  have := (ZMod.natCast_eq_natCast_iff x y (2 ^ 64)).1 h
  unfold Nat.ModEq at this
  rw [← this, Nat.mod_eq_of_lt hx]

theorem isLeaf_iff_of_inv (n : VoxelNode) (hn : Inv n) :
    n.isLeaf = true ↔ occupied n._children = 0 := by
  rw [inv_iff] at hn
  simp only [isLeaf, beq_iff_eq, hn.1]
  exact Int.natCast_eq_zero

theorem inRange_decr_both (w : World) (k : Nat) :
    InRange { w with
      _voxelNodeCount := decr64 w._voxelNodeCount
      _voxelNodeLeafCount := decr64 w._voxelNodeLeafCount
      deleteNotifications := k } :=
  ⟨decr64_lt _, decr64_lt _⟩

theorem inRange_decr_nodes (w : World) (k : Nat) (hw : InRange w) :
    InRange { w with
      _voxelNodeCount := decr64 w._voxelNodeCount
      deleteNotifications := k } :=
  ⟨decr64_lt _, hw.2⟩

mutual
theorem delete_counters : ∀ (c : VoxelNode) (w : World), Inv c → InRange w →
    InRange (delete c w) ∧
      ((delete c w)._voxelNodeCount : ZMod (2 ^ 64)) =
        (w._voxelNodeCount : ZMod (2 ^ 64)) - (numNodes c : ZMod (2 ^ 64)) ∧
      ((delete c w)._voxelNodeLeafCount : ZMod (2 ^ 64)) =
        (w._voxelNodeLeafCount : ZMod (2 ^ 64)) - (numChildless c : ZMod (2 ^ 64))
  | mk d cs, w, hc, hw => by
    have hleaf := isLeaf_iff_of_inv (mk d cs) hc
    simp only [isLeaf, data_mk, children_mk] at hleaf
    simp only [Inv] at hc
    unfold delete
    simp only [notifyDeleteHooks]
    by_cases hz : (d._childCount == 0) = true
    · have ho : occupied cs = 0 := hleaf.1 hz
      simp only [hz, ↓reduceIte]
      obtain ⟨h1, h2, h3⟩ := deleteChildren_counters cs _ hc.2.2
        (inRange_decr_both w (w.deleteNotifications + 1))
      refine ⟨h1, ?_, ?_⟩
      · rw [h2]
        simp only [numNodes, cast_decr64]
        push_cast
        ring
      · rw [h3]
        simp only [numChildless, ho, ↓reduceIte, cast_decr64]
        push_cast
        ring
    · have ho : occupied cs ≠ 0 := fun h => hz (hleaf.2 h)
      simp only [hz, Bool.false_eq_true, ↓reduceIte]
      obtain ⟨h1, h2, h3⟩ := deleteChildren_counters cs _ hc.2.2
        (inRange_decr_nodes w (w.deleteNotifications + 1) hw)
      refine ⟨h1, ?_, ?_⟩
      · rw [h2]
        simp only [numNodes, cast_decr64]
        push_cast
        ring
      · rw [h3]
        simp only [numChildless, ho, ↓reduceIte]
        push_cast
        ring
theorem deleteChildren_counters : ∀ (cs : List (Option VoxelNode)) (w : World),
    InvChildren cs → InRange w →
    InRange (deleteChildren cs w) ∧
      ((deleteChildren cs w)._voxelNodeCount : ZMod (2 ^ 64)) =
        (w._voxelNodeCount : ZMod (2 ^ 64)) - (numNodesChildren cs : ZMod (2 ^ 64)) ∧
      ((deleteChildren cs w)._voxelNodeLeafCount : ZMod (2 ^ 64)) =
        (w._voxelNodeLeafCount : ZMod (2 ^ 64)) - (numChildlessChildren cs : ZMod (2 ^ 64))
  | [], w, _, hw => by
    simp [deleteChildren, numNodesChildren, numChildlessChildren, hw]
  | none :: rest, w, h, hw => by
    have := deleteChildren_counters rest w (by simpa [InvChildren] using h) hw
    simpa [deleteChildren, numNodesChildren, numChildlessChildren] using this
  | some c :: rest, w, h, hw => by
    simp only [InvChildren] at h
    obtain ⟨a1, a2, a3⟩ := delete_counters c w h.1 hw
    obtain ⟨b1, b2, b3⟩ := deleteChildren_counters rest (delete c w) h.2 a1
    simp only [deleteChildren, numNodesChildren, numChildlessChildren]
    refine ⟨b1, ?_, ?_⟩
    · rw [b2, a2]
      push_cast
      ring
    · rw [b3, a3]
      push_cast
      ring
end

theorem getChildAtIndex_setChild_self (n : VoxelNode) (i : Nat) (p : Option VoxelNode)
    (hi : i < n._children.length) : (n.setChild i p).getChildAtIndex i = p := by
  simp [getChildAtIndex, List.getElem?_set_self hi]

theorem getChildAtIndex_withData (n : VoxelNode) (f : NodeData → NodeData) (i : Nat) :
    (n.withData f).getChildAtIndex i = n.getChildAtIndex i := rfl

theorem length_setChild (n : VoxelNode) (i : Nat) (p : Option VoxelNode) :
    (n.setChild i p)._children.length = n._children.length := by
  simp

theorem numNodes_congr (n m : VoxelNode) (h : m._children = n._children) :
    numNodes m = numNodes n := by
  rw [numNodes_eq, numNodes_eq, h]

theorem numChildless_congr (n m : VoxelNode) (h : m._children = n._children) :
    numChildless m = numChildless n := by
  rw [numChildless_eq, numChildless_eq, h]

theorem depth_congr (n m : VoxelNode) (h : m._children = n._children) : depth m = depth n := by
  cases n; cases m
  simp only [children_mk] at h
  simp [depth, h]

theorem numNodes_setChild (n : VoxelNode) (i : Nat) (p q : Option VoxelNode)
    (h : n._children[i]? = some p) :
    numNodes (n.setChild i q) + slotNodes p = numNodes n + slotNodes q := by
  have := sum_map_set slotNodes q n._children i p h
  rw [numNodes_eq (n.setChild i q), numNodes_eq n, children_setChild]
  omega

theorem numChildless_setChild_some (n : VoxelNode) (i : Nat) (c c1 : VoxelNode)
    (h : n._children[i]? = some (some c)) :
    numChildless (n.setChild i (some c1)) + numChildless c =
      numChildless n + numChildless c1 := by
  have := sum_map_set slotChildless (some c1) n._children i (some c) h
  rw [numChildless_eq (n.setChild i (some c1)), numChildless_eq n, children_setChild,
    occupied_set_some _ _ _ _ h]
  simp only [slotChildless] at this
  omega

theorem numChildless_setChild_none (n : VoxelNode) (i : Nat) (c : VoxelNode)
    (h : n._children[i]? = some (some c)) :
    numChildless (n.setChild i none) + numChildless c =
      numChildless n + (if occupied (n._children.set i none) = 0 then 1 else 0) := by
  have := sum_map_set slotChildless none n._children i (some c) h
  have ho := occupied_set_none _ _ _ h
  have hne : occupied n._children ≠ 0 := by omega
  rw [numChildless_eq (n.setChild i none), numChildless_eq n, children_setChild]
  simp only [slotChildless] at this
  simp only [hne, ↓reduceIte]
  omega

theorem numChildless_setChild_fresh (n : VoxelNode) (i : Nat) (c1 : VoxelNode)
    (h : n._children[i]? = some none) :
    numChildless (n.setChild i (some c1)) + (if occupied n._children = 0 then 1 else 0) =
      numChildless n + numChildless c1 := by
  have := sum_map_set slotChildless (some c1) n._children i none h
  have ho := occupied_set_fresh _ _ c1 h
  have hne : occupied (n._children.set i (some c1)) ≠ 0 := by omega
  rw [numChildless_eq (n.setChild i (some c1)), numChildless_eq n, children_setChild]
  simp only [slotChildless] at this
  simp only [hne, ↓reduceIte]
  omega

theorem balanced_refl (n : VoxelNode) (w : World) : Balanced n w n w := ⟨rfl, rfl⟩

theorem balanced_trans (a b c : VoxelNode) (u v w : World) (h1 : Balanced a u b v)
    (h2 : Balanced b v c w) : Balanced a u c w := by
  obtain ⟨h11, h12⟩ := h1
  obtain ⟨h21, h22⟩ := h2
  exact ⟨by linear_combination h11 + h21, by linear_combination h12 + h22⟩

theorem balanced_of_same (n m m1 : VoxelNode) (w v v1 : World) (h : Balanced n w m v)
    (hc : m1._children = m._children) (h1 : v1._voxelNodeCount = v._voxelNodeCount)
    (h2 : v1._voxelNodeLeafCount = v._voxelNodeLeafCount) : Balanced n w m1 v1 := by
  unfold Balanced
  rw [numNodes_congr m m1 hc, numChildless_congr m m1 hc, h1, h2]
  exact h

/-- A balanced change of the child in slot `i` is a balanced change of the parent. -/
theorem balanced_setChild (n : VoxelNode) (i : Nat) (c c1 : VoxelNode) (w v : World)
    (h : n.getChildAtIndex i = some c) (hb : Balanced c w c1 v) :
    Balanced n w (n.setChild i (some c1)) v := by
  rw [getChildAtIndex_eq_some] at h
  have e1 := congrArg (Nat.cast : Nat → ZMod (2 ^ 64)) (numNodes_setChild n i _ (some c1) h)
  have e2 := congrArg (Nat.cast : Nat → ZMod (2 ^ 64)) (numChildless_setChild_some n i c c1 h)
  simp only [slotNodes] at e1
  push_cast at e1 e2
  obtain ⟨hb1, hb2⟩ := hb
  exact ⟨by linear_combination hb1 - e1, by linear_combination hb2 - e2⟩

theorem deleteChildAtIndex_eq (n : VoxelNode) (i : Nat) (w : World) (c : VoxelNode)
    (h : n.getChildAtIndex i = some c) :
    deleteChildAtIndex n i w =
      if (detached n i).isLeaf then
        (detached n i, { notifyUpdateHooks (delete c w) with
          _voxelNodeLeafCount := incr64 (delete c w)._voxelNodeLeafCount })
      else (detached n i, notifyUpdateHooks (delete c w)) := by
  unfold deleteChildAtIndex
  simp only [h, markWithChangedTime]
  rfl

theorem deleteChildAtIndex_balanced (n : VoxelNode) (i : Nat) (w : World) (hn : Inv n)
    (hw : InRange w) :
    InRange (deleteChildAtIndex n i w).2 ∧
      Balanced n w (deleteChildAtIndex n i w).1 (deleteChildAtIndex n i w).2 := by
  cases h : n.getChildAtIndex i with
  | none =>
    simp only [deleteChildAtIndex, h]
    exact ⟨hw, balanced_refl n w⟩
  | some c =>
    obtain ⟨d1, d2, d3⟩ := delete_counters c w (inv_child n i c hn h) hw
    have hleaf := isLeaf_iff_of_inv _ (inv_detached n i c hn h)
    have hget := (getChildAtIndex_eq_some n i c).1 h
    have e1 := congrArg (Nat.cast : Nat → ZMod (2 ^ 64)) (numNodes_setChild n i _ none hget)
    have e2 := congrArg (Nat.cast : Nat → ZMod (2 ^ 64)) (numChildless_setChild_none n i c hget)
    have c1 : numNodes (detached n i) = numNodes (n.setChild i none) :=
      numNodes_congr _ _ rfl
    have c2 : numChildless (detached n i) = numChildless (n.setChild i none) :=
      numChildless_congr _ _ rfl
    simp only [slotNodes] at e1
    rw [deleteChildAtIndex_eq n i w c h]
    by_cases hl : (detached n i).isLeaf = true
    · have ho : occupied (n._children.set i none) = 0 := by
        simpa [detached] using hleaf.1 hl
      simp only [hl, ↓reduceIte, Balanced, notifyUpdateHooks, cast_incr64, c1, c2]
      rw [ho] at e2
      push_cast at e1 e2
      refine ⟨⟨d1.1, incr64_lt _⟩, ?_, ?_⟩
      · rw [d2]; linear_combination -e1
      · rw [d3]; linear_combination -e2
    · have ho : occupied (n._children.set i none) ≠ 0 := fun h0 =>
        hl (hleaf.2 (by simpa [detached] using h0))
      simp only [hl, Bool.false_eq_true, ↓reduceIte, Balanced, notifyUpdateHooks, c1, c2]
      simp only [ho, ↓reduceIte] at e2
      push_cast at e1 e2
      refine ⟨d1, ?_, ?_⟩
      · rw [d2]; linear_combination -e1
      · rw [d3]; linear_combination -e2

theorem depthChildren_set_none : ∀ (cs : List (Option VoxelNode)) (i : Nat),
    depthChildren (cs.set i none) ≤ depthChildren cs := by
  intro cs
  induction cs with
  | nil => intro i; simp
  | cons p rest ih =>
    intro i
    cases i with
    | zero => cases p <;> simp [depthChildren]
    | succ j =>
      have := ih j
      cases p <;> simp only [List.set_cons_succ, depthChildren] <;> omega

theorem depth_le_depthChildren : ∀ (cs : List (Option VoxelNode)) (c : VoxelNode),
    some c ∈ cs → depth c ≤ depthChildren cs := by
  intro cs
  induction cs with
  | nil => intro c h; simp at h
  | cons p rest ih =>
    intro c h
    rcases List.mem_cons.1 h with h | h
    · subst h
      simp only [depthChildren]
      omega
    · have := ih c h
      cases p <;> simp only [depthChildren] <;> omega

theorem depth_child_lt (n : VoxelNode) (i : Nat) (c : VoxelNode)
    (h : n.getChildAtIndex i = some c) : depth c + 1 ≤ depth n := by
  have hm := mem_of_getChildAtIndex n i c h
  cases n with
  | mk d cs =>
    have := depth_le_depthChildren cs c hm
    simp only [depth]
    omega

theorem depth_of_set_none (n m : VoxelNode) (i : Nat)
    (h : m._children = n._children.set i none) : depth m ≤ depth n := by
  cases n with
  | mk d cs =>
    cases m with
    | mk e ds =>
      simp only [children_mk] at h
      have := depthChildren_set_none cs i
      simp only [depth, h]
      omega

theorem set_none_of_empty : ∀ (cs : List (Option VoxelNode)) (i : Nat),
    (cs[i]?).join = none → cs.set i none = cs := by
  intro cs
  induction cs with
  | nil => intro i _; simp
  | cons p rest ih =>
    intro i h
    cases i with
    | zero =>
      cases p with
      | none => rfl
      | some c => simp at h
    | succ j =>
      simp only [List.getElem?_cons_succ] at h
      simp [ih j h]

theorem lt_length_of_getChildAtIndex (n : VoxelNode) (i : Nat) (c : VoxelNode)
    (h : n.getChildAtIndex i = some c) : i < n._children.length := by
  rw [getChildAtIndex_eq_some] at h
  by_contra hlt
  rw [List.getElem?_eq_none_iff.2 (by omega)] at h
  cases h

theorem safeDeepDelete_loop (fuel : Nat)
    (ih : ∀ (n : VoxelNode) (i : Nat) (w : World), Inv n → InRange w → depth n ≤ fuel →
      ∃ r, safeDeepDeleteChildAtIndex fuel n i w = some r ∧ SafeDeepDeleteSpec n i w r) :
    ∀ (l : List Nat) (s : VoxelNode × World), Inv s.1 → InRange s.2 → depth s.1 ≤ fuel →
      ∃ r, l.foldlM (fun (s : VoxelNode × World) j => safeDeepDeleteChildAtIndex fuel s.1 j s.2)
          s = some r ∧ Inv r.1 ∧ InRange r.2 ∧ Balanced s.1 s.2 r.1 r.2 := by
  intro l
  induction l with
  | nil =>
    intro s h1 h2 _
    exact ⟨s, rfl, h1, h2, balanced_refl _ _⟩
  | cons j rest ihl =>
    intro s h1 h2 h3
    obtain ⟨r1, hr1, a1, a2, a3, a4⟩ := ih s.1 j s.2 h1 h2 h3
    have hd : depth r1.1 ≤ fuel := le_trans (depth_of_set_none s.1 r1.1 j a4) h3
    obtain ⟨r, hr, b1, b2, b3⟩ := ihl r1 a1 a2 hd
    refine ⟨r, ?_, b1, b2, balanced_trans _ _ _ _ _ _ a3 b3⟩
    simp only [List.foldlM_cons, Option.bind_eq_bind, hr1, Option.some_bind]
    exact hr

/-- With fuel for the height of the node, `safeDeepDeleteChildAtIndex` returns, empties slot
`childIndex`, keeps the structural invariant and moves the counters by exactly the nodes and
childless nodes it removed. -/
theorem safeDeepDeleteChildAtIndex_spec :
    ∀ (fuel : Nat) (n : VoxelNode) (i : Nat) (w : World), Inv n → InRange w → depth n ≤ fuel →
      ∃ r, safeDeepDeleteChildAtIndex fuel n i w = some r ∧ SafeDeepDeleteSpec n i w r := by
  intro fuel
  induction fuel with
  | zero =>
    intro n i w _ _ hd
    cases n with
    | mk d cs => simp [depth] at hd
  | succ fuel ih =>
    intro n i w hn hw hd
    unfold safeDeepDeleteChildAtIndex
    cases hc : n.getChildAtIndex i with
    | none =>
      refine ⟨(n, w), rfl, hn, hw, balanced_refl n w, ?_⟩
      exact (set_none_of_empty n._children i hc).symm
    | some c =>
      have hcinv := inv_child n i c hn hc
      have hcd : depth c ≤ fuel := by
        have := depth_child_lt n i c hc
        omega
      have hinner : ∃ s1 : VoxelNode × World,
          (if (!c.isLeaf) = true then
            (List.range NUMBER_OF_CHILDREN).foldlM
              (fun (s : VoxelNode × World) j => safeDeepDeleteChildAtIndex fuel s.1 j s.2) (c, w)
          else some (c, w)) = some s1 ∧ Inv s1.1 ∧ InRange s1.2 ∧ Balanced c w s1.1 s1.2 := by
        by_cases hl : (!c.isLeaf) = true
        · simp only [hl, ↓reduceIte]
          exact safeDeepDelete_loop fuel ih _ (c, w) hcinv hw hcd
        · simp only [hl, Bool.false_eq_true, ↓reduceIte]
          exact ⟨(c, w), rfl, hcinv, hw, balanced_refl c w⟩
      obtain ⟨s1, hs1, i1, i2, i3⟩ := hinner
      simp only [hs1, Option.some_bind, markWithChangedTime]
      have hn1 : Inv (n.setChild i (some s1.1)) := inv_setChild_some n i c s1.1 hn hc i1
      have hb1 : Balanced n w (n.setChild i (some s1.1)) s1.2 :=
        balanced_setChild n i c s1.1 w s1.2 hc i3
      obtain ⟨e1, e2⟩ := deleteChildAtIndex_balanced (n.setChild i (some s1.1)) i s1.2 hn1 i2
      have hlen := lt_length_of_getChildAtIndex n i c hc
      have hnode := deleteChildAtIndex_node (n.setChild i (some s1.1)) i s1.2 s1.1
        (getChildAtIndex_setChild_self n i (some s1.1) hlen)
      have hb2 := balanced_trans _ _ _ _ _ _ hb1 e2
      refine ⟨_, rfl, ?_, ?_, ?_, ?_⟩
      · exact inv_of_same _ _ (inv_deleteChildAtIndex _ i s1.2 hn1) rfl rfl
      · exact e1
      · exact balanced_of_same _ _ _ _ _ _ hb2 rfl rfl rfl
      · simp only [children_withData, hnode, detached, children_setChild, List.set_set]

/-- The node that `safeDeepDeleteChildAtIndex` leaves is the node that `deleteChildAtIndex`
leaves, whenever the call returns. -/
theorem safeDeepDeleteChildAtIndex_node (fuel : Nat) (n : VoxelNode) (i : Nat) (w : World)
    (r : VoxelNode × World) (h : safeDeepDeleteChildAtIndex fuel n i w = some r) :
    r.1 = (deleteChildAtIndex n i w).1 := by
  cases fuel with
  | zero => simp [safeDeepDeleteChildAtIndex] at h
  | succ fuel =>
    unfold safeDeepDeleteChildAtIndex at h
    cases hc : n.getChildAtIndex i with
    | none =>
      simp only [hc, Option.some.injEq] at h
      subst h
      simp [deleteChildAtIndex, hc]
    | some c =>
      simp only [hc] at h
      obtain ⟨s1, _, h2⟩ := Option.bind_eq_some.1 h
      simp only [markWithChangedTime, Option.some.injEq] at h2
      subst h2
      have hlen := lt_length_of_getChildAtIndex n i c hc
      rw [deleteChildAtIndex_node n i w c hc]
      simp only [deleteChildAtIndex_node (n.setChild i (some s1.1)) i s1.2 s1.1
        (getChildAtIndex_setChild_self n i (some s1.1) hlen)]
      cases n with
      | mk d cs => simp [detached, setChild, withData, data, _children, List.set_set]

theorem setVoxelSystem_counters (n : VoxelNode) (v : Nat) (w : World) :
    (setVoxelSystem n v w).2._voxelNodeCount = w._voxelNodeCount ∧
      (setVoxelSystem n v w).2._voxelNodeLeafCount = w._voxelNodeLeafCount := by
  unfold setVoxelSystem
  split <;> exact ⟨rfl, rfl⟩

theorem new_counters (code : List Nat) (w : World) :
    (new code w).2._voxelNodeCount = incr64 w._voxelNodeCount ∧
      (new code w).2._voxelNodeLeafCount = incr64 w._voxelNodeLeafCount := by
  simp [new, init, markWithChangedTime, notifyUpdateHooks, setVoxelSystem_counters]

theorem measures_of_no_children (n : VoxelNode) (h : n._children = List.replicate 8 none) :
    numNodes n = 1 ∧ numChildless n = 1 := by
  rw [numNodes_eq, numChildless_eq, h]
  decide

theorem addChildAtIndex_balanced (n : VoxelNode) (i : Nat) (w : World) (hn : Inv n)
    (hw : InRange w) (hi : i < 8) :
    InRange (addChildAtIndex n i w).2.2 ∧
      Balanced n w (addChildAtIndex n i w).2.1 (addChildAtIndex n i w).2.2 := by
  cases h : n.getChildAtIndex i with
  | some c =>
    simp only [addChildAtIndex, h]
    exact ⟨hw, balanced_refl n w⟩
  | none =>
    have hleaf := isLeaf_iff_of_inv n hn
    have hlen : i < n._children.length := by rw [((inv_iff n).1 hn).2.1]; exact hi
    have hget := (getChildAtIndex_eq_none n i hlen).1 h
    have hw1 : ∀ w1 : World, (if n.isLeaf = true then
          { w with _voxelNodeLeafCount := decr64 w._voxelNodeLeafCount } else w) = w1 →
        w1._voxelNodeCount = w._voxelNodeCount ∧
          (w1._voxelNodeLeafCount : ZMod (2 ^ 64)) +
              ((if occupied n._children = 0 then 1 else 0 : Nat) : ZMod (2 ^ 64)) =
            (w._voxelNodeLeafCount : ZMod (2 ^ 64)) := by
      intro w1 h1
      subst h1
      by_cases hl : n.isLeaf = true
      · have ho := hleaf.1 hl
        simp only [hl, ho, ↓reduceIte, cast_decr64]
        exact ⟨trivial, by push_cast; ring⟩
      · have ho : occupied n._children ≠ 0 := fun h0 => hl (hleaf.2 h0)
        simp only [hl, ho, Bool.false_eq_true, ↓reduceIte]
        exact ⟨trivial, by push_cast; ring⟩
    simp only [addChildAtIndex, h, markWithChangedTime, notifyUpdateHooks, Balanced]
    generalize hgw : (if n.isLeaf = true then
        { w with _voxelNodeLeafCount := decr64 w._voxelNodeLeafCount } else w) = w1
    obtain ⟨hw1n, hw1l⟩ := hw1 w1 hgw
    generalize getVoxelSystem (n.setChild i (some (new (childOctalCode n.data._octalCode i)
      w1).1)) (new (childOctalCode n.data._octalCode i) w1).2 = v
    generalize childOctalCode n.data._octalCode i = code
    have hm := measures_of_no_children (setVoxelSystem (new code w1).1 v (new code w1).2).1
      (by rw [setVoxelSystem_children, new_children])
    have hc := setVoxelSystem_counters (new code w1).1 v (new code w1).2
    have hnew := new_counters code w1
    have e1 := congrArg (Nat.cast : Nat → ZMod (2 ^ 64)) (numNodes_setChild n i none
      (some (setVoxelSystem (new code w1).1 v (new code w1).2).1) hget)
    have e2 := congrArg (Nat.cast : Nat → ZMod (2 ^ 64)) (numChildless_setChild_fresh n i
      (setVoxelSystem (new code w1).1 v (new code w1).2).1 hget)
    generalize (if occupied n._children = 0 then 1 else 0 : Nat) = o at e2 hw1l
    simp only [slotNodes, hm.1, hm.2] at e1 e2
    push_cast at e1 e2
    have k1 : numNodes (((n.setChild i (some (new code w1).1)).setChild i
        (some (setVoxelSystem (new code w1).1 v (new code w1).2).1)).withData fun d =>
          { d with _isDirty := true, _childCount := d._childCount + 1 }) =
        numNodes (n.setChild i (some (setVoxelSystem (new code w1).1 v (new code w1).2).1)) :=
      numNodes_congr _ _ (by simp)
    have k2 : numChildless (((n.setChild i (some (new code w1).1)).setChild i
        (some (setVoxelSystem (new code w1).1 v (new code w1).2).1)).withData fun d =>
          { d with _isDirty := true, _childCount := d._childCount + 1 }) =
        numChildless (n.setChild i (some (setVoxelSystem (new code w1).1 v (new code w1).2).1)) :=
      numChildless_congr _ _ (by simp)
    rw [k1, k2, hc.1, hc.2, hnew.1, hnew.2, cast_incr64, cast_incr64, hw1n]
    refine ⟨⟨incr64_lt _, incr64_lt _⟩, ?_, ?_⟩
    · linear_combination -e1
    · linear_combination hw1l - e2

/-- A call that acts on the node at `path` in a balanced way, keeping the invariant, acts so
on the whole tree. -/
theorem callAt_lift (f : VoxelNode → World → Option (VoxelNode × World)) :
    ∀ (path : List Nat) (t : VoxelNode) (w : World) (p : VoxelNode) (r0 : VoxelNode × World),
      Inv t → nodeAt path t = some p → f p w = some r0 → Inv r0.1 → Balanced p w r0.1 r0.2 →
      ∃ t1, callAt f path t w = some (t1, r0.2) ∧ Inv t1 ∧ Balanced t w t1 r0.2 ∧
        numNodes t1 + numNodes p = numNodes t + numNodes r0.1 ∧
        nodeAt path t1 = some r0.1 := by
  intro path
  induction path with
  | nil =>
    intro t w p r0 ht hp hf hi hb
    simp only [nodeAt, Option.some.injEq] at hp
    subst hp
    exact ⟨r0.1, by simp [callAt, hf], hi, hb, by omega, rfl⟩
  | cons i rest ih =>
    intro t w p r0 ht hp hf hi hb
    unfold nodeAt at hp
    cases hc : t.getChildAtIndex i with
    | none => simp [hc] at hp
    | some c =>
      simp only [hc] at hp
      obtain ⟨c1, h1, h2, h3, h4, h5⟩ := ih c w p r0 (inv_child t i c ht hc) hp hf hi hb
      refine ⟨t.setChild i (some c1), ?_, inv_setChild_some t i c c1 ht hc h2,
        balanced_setChild t i c c1 w r0.2 hc h3, ?_, ?_⟩
      · simp [callAt, hc, h1]
      · have := numNodes_setChild t i _ (some c1) ((getChildAtIndex_eq_some t i c).1 hc)
        simp only [slotNodes] at this
        omega
      · unfold nodeAt
        rw [getChildAtIndex_setChild_self t i (some c1) (lt_length_of_getChildAtIndex t i c hc)]
        exact h5

theorem nodeAt_of_callAt (f : VoxelNode → World → Option (VoxelNode × World)) :
    ∀ (path : List Nat) (t : VoxelNode) (w : World) (r : VoxelNode × World),
      callAt f path t w = some r → ∃ p, nodeAt path t = some p := by
  intro path
  induction path with
  | nil => intro t w r _; exact ⟨t, rfl⟩
  | cons j rest ih =>
    intro t w r hr
    unfold callAt at hr
    cases hc : t.getChildAtIndex j with
    | none => simp [hc] at hr
    | some c =>
      simp only [hc] at hr
      cases hr2 : callAt f rest c w with
      | none => simp [hr2] at hr
      | some r2 =>
        obtain ⟨p, hp⟩ := ih c w r2 hr2
        exact ⟨p, by simp [nodeAt, hc, hp]⟩

theorem countersExact_set (s : State) (k : Nat) (t t1 : VoxelNode) (v : World)
    (hs : s.CountersExact) (ht : s.roots[k]? = some t) (hv : InRange v)
    (hb : Balanced t s.world t1 v) :
    State.CountersExact ⟨v, s.roots.set k t1⟩ := by
  obtain ⟨_, c1, c2⟩ := hs
  obtain ⟨b1, b2⟩ := hb
  have e1 := congrArg (Nat.cast : Nat → ZMod (2 ^ 64))
    (sum_map_set VoxelNode.numNodes t1 s.roots k t ht)
  have e2 := congrArg (Nat.cast : Nat → ZMod (2 ^ 64))
    (sum_map_set VoxelNode.numChildless t1 s.roots k t ht)
  simp only [Nat.cast_add] at e1 e2
  refine ⟨hv, ?_, ?_⟩
  · simp only [State.numNodes] at c1 ⊢
    linear_combination b1 + c1 - e1
  · simp only [State.numChildless] at c2 ⊢
    linear_combination b2 + c2 - e2

theorem countersExact_start : State.start.CountersExact := by
  refine ⟨⟨by decide, by decide⟩, ?_, ?_⟩ <;>
    simp [State.start, World.empty, State.numNodes, State.numChildless]

theorem countersExact_build (op : Op) (s s1 : State) (hop : op.isBuild) (hi : s.AllInv)
    (hs : s.CountersExact) (h : step op s = some s1) : s1.CountersExact := by
  cases op with
  | newNode code =>
    simp only [step, Option.some.injEq] at h
    rw [← h]
    obtain ⟨_, c1, c2⟩ := hs
    have hm := measures_of_no_children (new code s.world).1 (new_children code s.world)
    have hnew := new_counters code s.world
    refine ⟨⟨?_, ?_⟩, ?_, ?_⟩
    · show (new code s.world).2._voxelNodeCount < 2 ^ 64
      rw [hnew.1]; exact incr64_lt _
    · show (new code s.world).2._voxelNodeLeafCount < 2 ^ 64
      rw [hnew.2]; exact incr64_lt _
    · simp only [State.numNodes, List.map_append, List.sum_append, List.map_cons, List.map_nil,
        List.sum_cons, List.sum_nil, hm.1, hnew.1, cast_incr64] at c1 ⊢
      simp only [Nat.cast_add, Nat.cast_one, Nat.cast_zero]
      linear_combination c1
    · simp only [State.numChildless, List.map_append, List.sum_append, List.map_cons,
        List.map_nil, List.sum_cons, List.sum_nil, hm.2, hnew.2, cast_incr64] at c2 ⊢
      simp only [Nat.cast_add, Nat.cast_one, Nat.cast_zero]
      linear_combination c2
  | addChildAtIndex k path i =>
    simp only [step] at h
    split at h
    · rename_i hlt
      unfold State.call at h
      cases ht : s.roots[k]? with
      | none => simp [ht] at h
      | some t =>
        simp only [ht] at h
        cases hr : callAt (fun n w => some (addChildAtIndex n i w).2) path t s.world with
        | none => simp [hr] at h
        | some r =>
          simp only [hr, Option.some.injEq] at h
          rw [← h]
          have htinv := hi t (List.getElem?_mem ht)
          have hp := nodeAt_of_callAt _ path t s.world r hr
          obtain ⟨p, hp⟩ := hp
          have hpinv := inv_nodeAt path t p htinv hp
          obtain ⟨a1, a2⟩ := addChildAtIndex_balanced p i s.world hpinv hs.1 hlt
          obtain ⟨t1, h1, _, h3, _, _⟩ := callAt_lift (fun n w => some (addChildAtIndex n i w).2)
            path t s.world p (addChildAtIndex p i s.world).2 htinv hp rfl
            (inv_addChildAtIndex p i s.world hpinv hlt) a2
          rw [h1] at hr
          cases hr
          exact countersExact_set s k t t1 _ hs ht a1 h3
    · cases h
  | deleteNode _ => exact absurd hop (by simp [Op.isBuild])
  | removeChildAtIndex _ _ _ => exact absurd hop (by simp [Op.isBuild])
  | deleteChildAtIndex _ _ _ => exact absurd hop (by simp [Op.isBuild])
  | safeDeepDeleteChildAtIndex _ _ _ _ => exact absurd hop (by simp [Op.isBuild])
  | collapseIdenticalLeaves _ _ => exact absurd hop (by simp [Op.isBuild])
  | setColor _ _ _ => exact absurd hop (by simp [Op.isBuild])
  | setFalseColor _ _ _ _ _ => exact absurd hop (by simp [Op.isBuild])
  | setFalseColored _ _ _ => exact absurd hop (by simp [Op.isBuild])
  | setColorFromAverageOfChildren _ _ => exact absurd hop (by simp [Op.isBuild])
  | setVoxelSystem _ _ _ => exact absurd hop (by simp [Op.isBuild])

theorem countersExact_reachable (s : State) (h : Reachable Op.isBuild s) :
    s.CountersExact := by
  induction h with
  | start => exact countersExact_start
  | step op s s1 hr hop hstep ih =>
    exact countersExact_build op s s1 hop (allInv_reachable _ s hr) ih hstep

theorem reachable_foldl (allowed : Op → Prop) :
    ∀ (ops : List Op) (s : State), Reachable allowed s → (∀ op ∈ ops, allowed op) →
      Reachable allowed (ops.foldl (fun s op => (step op s).getD s) s) := by
  intro ops
  induction ops with
  | nil => intro s hs _; exact hs
  | cons op rest ih =>
    intro s hs hall
    simp only [List.foldl_cons]
    apply ih _ _ (fun o ho => hall o (List.mem_cons_of_mem _ ho))
    cases hstep : step op s with
    | none => exact hs
    | some s1 => exact Reachable.step op s s1 hs (hall op (List.mem_cons_self _ _)) hstep

theorem reachable_runD (allowed : Op → Prop) (ops : List Op) (h : ∀ op ∈ ops, allowed op) :
    Reachable allowed (runD ops) :=
  reachable_foldl allowed ops State.start Reachable.start h

theorem reachable_run (allowed : Op → Prop) :
    ∀ (ops : List Op) (s s1 : State), Reachable allowed s → (∀ op ∈ ops, allowed op) →
      ops.foldlM (fun s op => step op s) s = some s1 → Reachable allowed s1 := by
  intro ops
  induction ops with
  | nil =>
    intro s s1 hs _ h
    simp only [List.foldlM_nil, Option.pure_def, Option.some.injEq] at h
    rw [← h]
    exact hs
  | cons op rest ih =>
    intro s s1 hs hall h
    simp only [List.foldlM_cons, Option.bind_eq_bind] at h
    cases hstep : step op s with
    | none => simp [hstep] at h
    | some s2 =>
      rw [hstep] at h
      exact ih s2 s1 (Reachable.step op s s2 hs (hall op (List.mem_cons_self _ _)) hstep)
        (fun o ho => hall o (List.mem_cons_of_mem _ ho)) h

mutual
theorem numChildless_le_numNodes : ∀ n : VoxelNode, numChildless n ≤ numNodes n
  | mk d cs => by
    have := numChildlessChildren_le cs
    simp only [numChildless, numNodes]
    split <;> omega
theorem numChildlessChildren_le : ∀ cs : List (Option VoxelNode),
    numChildlessChildren cs ≤ numNodesChildren cs
  | [] => by simp [numChildlessChildren, numNodesChildren]
  | none :: rest => by
    have := numChildlessChildren_le rest
    simpa [numChildlessChildren, numNodesChildren] using this
  | some c :: rest => by
    have h1 := numChildless_le_numNodes c
    have h2 := numChildlessChildren_le rest
    simp only [numChildlessChildren, numNodesChildren]
    omega
end

theorem state_numChildless_le (s : State) : s.numChildless ≤ s.numNodes := by
  unfold State.numChildless State.numNodes
  induction s.roots with
  | nil => simp
  | cons t rest ih =>
    have := numChildless_le_numNodes t
    simp only [List.map_cons, List.sum_cons]
    omega

/-! ## Level of detail: lemmas -/

theorem calculateShouldRender_eq_true {α : Type} [LinearOrder α] (n : VoxelNode) (f : α)
    (B : Int → α) (adjust : Int) :
    calculateShouldRender n f B adjust = true ↔
      n.isColored = true ∧
        ((n.isLeaf = true ∧ f ≤ B ((n.getLevel : Int) + 1 + adjust)) ∨
          (f ≤ B ((n.getLevel : Int) + adjust) ∧ B ((n.getLevel : Int) + 1 + adjust) < f)) := by
  unfold calculateShouldRender
  by_cases hc : n.isColored = true
  · simp [hc]
  · simp [hc]

/-- For a boundary policy that does not increase with the level, a node that is not a leaf
and a node one level deeper are not both rendered when the deeper node's distance is not
smaller than the other's (in particular at one common distance). -/
theorem calculateShouldRender_exclusive {α : Type} [LinearOrder α] (p c : VoxelNode)
    (fP fC : α) (B : Int → α) (adjust : Int) (hB : ∀ a b : Int, a ≤ b → B b ≤ B a)
    (hp : p.isLeaf = false) (hl : c.getLevel = p.getLevel + 1) (hf : fP ≤ fC) :
    ¬ (calculateShouldRender p fP B adjust = true ∧
      calculateShouldRender c fC B adjust = true) := by
  rintro ⟨h1, h2⟩
  rw [calculateShouldRender_eq_true] at h1 h2
  rw [hl] at h2
  have hlt : B ((p.getLevel : Int) + 1 + adjust) < fP := by
    rcases h1.2 with h | h
    · rw [hp] at h
      exact absurd h.1 (by simp)
    · exact h.2
  have hle : fC ≤ B ((p.getLevel : Int) + 1 + adjust) := by
    rcases h2.2 with h | h
    · refine le_trans h.2 (hB _ _ ?_)
      push_cast
      omega
    · have := h.1
      push_cast at this
      exact this
  exact absurd (lt_of_lt_of_le hlt (le_trans hf hle)) (lt_irrefl _)

/-! ## Dirty marking: lemmas -/

mutual
theorem delete_updateNotifications :
    ∀ (c : VoxelNode) (w : World), (delete c w).updateNotifications = w.updateNotifications
  | mk d cs, w => by
    unfold delete
    rw [deleteChildren_updateNotifications]
    simp only [notifyDeleteHooks]
    split <;> rfl
theorem deleteChildren_updateNotifications :
    ∀ (cs : List (Option VoxelNode)) (w : World),
      (deleteChildren cs w).updateNotifications = w.updateNotifications
  | [], w => by simp [deleteChildren]
  | none :: rest, w => by
    simp only [deleteChildren]
    exact deleteChildren_updateNotifications rest w
  | some c :: rest, w => by
    simp only [deleteChildren]
    rw [deleteChildren_updateNotifications rest, delete_updateNotifications c]
end

theorem setVoxelSystem_updateNotifications (n : VoxelNode) (v : Nat) (w : World) :
    (setVoxelSystem n v w).2.updateNotifications = w.updateNotifications := by
  unfold setVoxelSystem
  split <;> rfl

theorem new_updateNotifications (code : List Nat) (w : World) :
    (new code w).2.updateNotifications = w.updateNotifications + 1 := by
  simp [new, init, markWithChangedTime, notifyUpdateHooks, setVoxelSystem_updateNotifications]

/-- On an empty slot `addChildAtIndex` sets the dirty flag and runs `markWithChangedTime` on
the node (the constructor of the child runs it once more). -/
theorem addChildAtIndex_marks (n : VoxelNode) (i : Nat) (w : World)
    (h : n.getChildAtIndex i = none) :
    (addChildAtIndex n i w).2.1.data._isDirty = true ∧
      (addChildAtIndex n i w).2.2.updateNotifications = w.updateNotifications + 2 := by
  simp only [addChildAtIndex, h, markWithChangedTime, notifyUpdateHooks, data_withData,
    setVoxelSystem_updateNotifications, new_updateNotifications, true_and]
  split <;> rfl

/-- On an occupied slot `removeChildAtIndex` sets the dirty flag and runs
`markWithChangedTime`. -/
theorem removeChildAtIndex_marks (n : VoxelNode) (i : Nat) (w : World) (c : VoxelNode)
    (h : n.getChildAtIndex i = some c) :
    (removeChildAtIndex n i w).2.1.data._isDirty = true ∧
      (removeChildAtIndex n i w).2.2.updateNotifications = w.updateNotifications + 1 := by
  simp only [removeChildAtIndex, h, markWithChangedTime, notifyUpdateHooks]
  split <;> exact ⟨rfl, rfl⟩

/-- On an occupied slot `deleteChildAtIndex` sets the dirty flag and runs
`markWithChangedTime`. -/
theorem deleteChildAtIndex_marks (n : VoxelNode) (i : Nat) (w : World) (c : VoxelNode)
    (h : n.getChildAtIndex i = some c) :
    (deleteChildAtIndex n i w).1.data._isDirty = true ∧
      (deleteChildAtIndex n i w).2.updateNotifications = w.updateNotifications + 1 := by
  rw [deleteChildAtIndex_eq n i w c h]
  split <;> exact ⟨rfl, by simp [notifyUpdateHooks, delete_updateNotifications]⟩

/-! ## Invariants of colour, density and owner index: lemmas -/

theorem allDataChildren_iff (P : NodeData → Prop) (cs : List (Option VoxelNode)) :
    AllDataChildren P cs ↔ ∀ c, some c ∈ cs → AllData P c := by
  induction cs with
  | nil => simp [AllDataChildren]
  | cons p rest ih =>
    cases p with
    | none => simp [AllDataChildren, ih]
    | some c => simp [AllDataChildren, ih]

theorem allData_iff (P : NodeData → Prop) (n : VoxelNode) :
    AllData P n ↔ P n.data ∧ ∀ c, some c ∈ n._children → AllData P c := by
  cases n with
  | mk d cs => simp [AllData, allDataChildren_iff]

mutual
theorem allData_mono (P Q : NodeData → Prop) (h : ∀ d, P d → Q d) :
    ∀ n : VoxelNode, AllData P n → AllData Q n
  | mk d cs, hn => by
    simp only [AllData] at hn ⊢
    exact ⟨h d hn.1, allDataChildren_mono P Q h cs hn.2⟩
theorem allDataChildren_mono (P Q : NodeData → Prop) (h : ∀ d, P d → Q d) :
    ∀ cs : List (Option VoxelNode), AllDataChildren P cs → AllDataChildren Q cs
  | [], _ => by simp [AllDataChildren]
  | none :: rest, hc => by
    simp only [AllDataChildren] at hc ⊢
    exact allDataChildren_mono P Q h rest hc
  | some c :: rest, hc => by
    simp only [AllDataChildren] at hc ⊢
    exact ⟨allData_mono P Q h c hc.1, allDataChildren_mono P Q h rest hc.2⟩
end

theorem allData_child (P : NodeData → Prop) (n : VoxelNode) (i : Nat) (c : VoxelNode)
    (hn : AllData P n) (h : n.getChildAtIndex i = some c) : AllData P c :=
  ((allData_iff P n).1 hn).2 c (mem_of_getChildAtIndex n i c h)

theorem allData_setChild (P : NodeData → Prop) (n : VoxelNode) (i : Nat)
    (p : Option VoxelNode) (hn : AllData P n) (hp : ∀ c, p = some c → AllData P c) :
    AllData P (n.setChild i p) := by
  rw [allData_iff] at hn ⊢
  refine ⟨hn.1, ?_⟩
  intro x hx
  rcases List.mem_or_eq_of_mem_set hx with hx | hx
  · exact hn.2 x hx
  · exact hp x hx.symm

theorem allData_of_children (P : NodeData → Prop) (n m : VoxelNode) (hn : AllData P n)
    (hc : m._children = n._children) (hd : P m.data) : AllData P m := by
  rw [allData_iff] at hn ⊢
  rw [hc]
  exact ⟨hd, hn.2⟩

theorem allData_nodeAt (P : NodeData → Prop) :
    ∀ (path : List Nat) (t n : VoxelNode), AllData P t → nodeAt path t = some n →
      AllData P n := by
  intro path
  induction path with
  | nil =>
    intro t n ht h
    simp only [nodeAt, Option.some.injEq] at h
    rw [← h]
    exact ht
  | cons i rest ih =>
    intro t n ht h
    unfold nodeAt at h
    cases hc : t.getChildAtIndex i with
    | none => simp [hc] at h
    | some c =>
      simp only [hc] at h
      exact ih c n (allData_child P t i c ht hc) h

theorem lookup_filter_ne (m : List (Nat × Nat)) (k j : Nat) (h : j ≠ k) :
    (m.filter fun e => e.1 != k).lookup j = m.lookup j := by
  induction m with
  | nil => rfl
  | cons e rest ih =>
    obtain ⟨a, b⟩ := e
    by_cases ha : a = k
    · subst ha
      have hja : (j == a) = false := by simpa using h
      simp [List.filter_cons, List.lookup_cons, hja, ih]
    · have hak : (a != k) = true := by simpa using ha
      simp only [List.filter_cons, hak, ↓reduceIte, List.lookup_cons, ih]

theorem lookup_mapSet (m : List (Nat × Nat)) (k v j : Nat) :
    (mapSet m k v).lookup j = if j = k then some v else m.lookup j := by
  unfold mapSet
  by_cases h : j = k
  · subst h
    simp [List.lookup_cons]
  · have hjk : (j == k) = false := by simpa using h
    simp only [List.lookup_cons, hjk, h, ↓reduceIte]
    exact lookup_filter_ne m k j h

theorem registryLe_refl (w : World) : RegistryLe w w := fun _ h => h

theorem registryLe_trans (u v w : World) (h1 : RegistryLe u v) (h2 : RegistryLe v w) :
    RegistryLe u w := fun k h => h2 k (h1 k h)

theorem goodData_mono (w v : World) (h : RegistryLe w v) (d : NodeData)
    (hd : GoodData w._mapIndexToVoxelSystemPointers d) :
    GoodData v._mapIndexToVoxelSystemPointers d :=
  ⟨hd.1, hd.2.1, h _ hd.2.2⟩

/-- What `setVoxelSystem` does to the registry and to the node. -/
theorem setVoxelSystem_registry (n : VoxelNode) (v : Nat) (w : World) (hw : RegistryOk w) :
    RegistryOk (setVoxelSystem n v w).2 ∧ RegistryLe w (setVoxelSystem n v w).2 ∧
      (setVoxelSystem n v w).2._mapVoxelSystemPointersToIndex.lookup v =
        some (setVoxelSystem n v w).1.data._voxelSystemIndex ∧
      IndexOk (setVoxelSystem n v w).2._mapIndexToVoxelSystemPointers
        (setVoxelSystem n v w).1.data ∧
      ∃ index, (setVoxelSystem n v w).1 =
        n.withData fun d => { d with _voxelSystemIndex := index } := by
  unfold setVoxelSystem
  cases hl : w._mapVoxelSystemPointersToIndex.lookup v with
  | some index =>
    simp only [data_withData]
    exact ⟨hw, registryLe_refl w, hl, hw.2 v index hl, index, rfl⟩
  | none =>
    simp only [data_withData]
    refine ⟨⟨?_, ?_⟩, ?_, ?_, ?_, w._nextIndex, rfl⟩
    · intro k p hk
      rw [lookup_mapSet] at hk ⊢
      by_cases hkn : k = w._nextIndex
      · simp only [hkn, ↓reduceIte, Option.some.injEq] at hk
        simp [hk, hkn]
      · simp only [hkn, ↓reduceIte] at hk
        have hp := hw.1 k p hk
        have hpv : p ≠ v := by
          intro hpv
          rw [hpv, hl] at hp
          cases hp
        simp [hpv, hp]
    · intro p k hp
      rw [lookup_mapSet] at hp ⊢
      by_cases hpv : p = v
      · simp only [hpv, ↓reduceIte, Option.some.injEq] at hp
        simp [hp]
      · simp only [hpv, ↓reduceIte] at hp
        by_cases hkn : k = w._nextIndex
        · simp [hkn]
        · simp only [hkn, ↓reduceIte]
          exact hw.2 p k hp
    · intro k hk
      show (List.lookup k (mapSet w._mapIndexToVoxelSystemPointers w._nextIndex v)).isSome = true
      rw [lookup_mapSet]
      by_cases hkn : k = w._nextIndex
      · simp [hkn]
      · simp only [hkn, ↓reduceIte]
        exact hk
    · show List.lookup v (mapSet w._mapVoxelSystemPointersToIndex v w._nextIndex) = _
      rw [lookup_mapSet]
      simp
    · show (List.lookup w._nextIndex
        (mapSet w._mapIndexToVoxelSystemPointers w._nextIndex v)).isSome = true
      rw [lookup_mapSet]
      simp

theorem sameRegistry_refl (w : World) : SameRegistry w w := ⟨rfl, rfl⟩

theorem sameRegistry_trans (u v w : World) (h1 : SameRegistry u v) (h2 : SameRegistry v w) :
    SameRegistry u w := ⟨h2.1.trans h1.1, h2.2.trans h1.2⟩

mutual
theorem delete_sameRegistry : ∀ (c : VoxelNode) (w : World), SameRegistry w (delete c w)
  | mk d cs, w => by
    unfold delete
    refine sameRegistry_trans _ _ _ ?_ (deleteChildren_sameRegistry cs _)
    simp only [notifyDeleteHooks]
    split <;> exact ⟨rfl, rfl⟩
theorem deleteChildren_sameRegistry :
    ∀ (cs : List (Option VoxelNode)) (w : World), SameRegistry w (deleteChildren cs w)
  | [], w => by simp [deleteChildren, sameRegistry_refl]
  | none :: rest, w => by
    simp only [deleteChildren]
    exact deleteChildren_sameRegistry rest w
  | some c :: rest, w => by
    simp only [deleteChildren]
    exact sameRegistry_trans _ _ _ (delete_sameRegistry c w)
      (deleteChildren_sameRegistry rest _)
end

/-- A call that leaves the registry alone and keeps the node invariants is kept. -/
theorem keeps_of_same (f : VoxelNode → World → Option (VoxelNode × World))
    (h : ∀ n w r, AllData (GoodData w._mapIndexToVoxelSystemPointers) n → f n w = some r →
      SameRegistry w r.2 ∧ AllData (GoodData w._mapIndexToVoxelSystemPointers) r.1) :
    Keeps f := by
  intro n w r hw hn hr
  obtain ⟨⟨h1, h2⟩, h3⟩ := h n w r hn hr
  refine ⟨?_, ?_, ?_⟩
  · unfold RegistryOk
    rw [h1, h2]
    exact hw
  · intro k hk
    rw [h2]
    exact hk
  · rw [h2]
    exact h3

theorem setColor_sameRegistry (n : VoxelNode) (c : nodeColor) (w : World) :
    SameRegistry w (setColor n c w).2 := by
  unfold setColor
  split <;> exact ⟨rfl, rfl⟩

theorem setColor_goodData (m : List (Nat × Nat)) (n : VoxelNode) (c : nodeColor) (w : World)
    (hn : GoodData m n.data) : GoodData m (setColor n c w).1.data := by
  unfold setColor
  split
  · by_cases hf : n.data._falseColored = true
    · simp only [markWithChangedTime, data_withData, hf, Bool.not_true, Bool.false_eq_true,
        ↓reduceIte]
      refine ⟨?_, ⟨by norm_num, by norm_num⟩, hn.2.2⟩
      intro h
      simp only [hf] at h
      cases h
    · simp only [Bool.not_eq_true] at hf
      simp only [markWithChangedTime, data_withData, hf, Bool.not_false, ↓reduceIte]
      exact ⟨fun _ => rfl, ⟨by norm_num, by norm_num⟩, hn.2.2⟩
  · exact hn

theorem setFalseColor_children (n : VoxelNode) (r g b : Fin 256) (w : World) :
    (setFalseColor n r g b w).1._children = n._children := by
  unfold setFalseColor
  split <;> rfl

theorem setFalseColor_sameRegistry (n : VoxelNode) (r g b : Fin 256) (w : World) :
    SameRegistry w (setFalseColor n r g b w).2 := by
  unfold setFalseColor
  split <;> exact ⟨rfl, rfl⟩

theorem setFalseColor_goodData (m : List (Nat × Nat)) (n : VoxelNode) (r g b : Fin 256)
    (w : World) (hn : GoodData m n.data) : GoodData m (setFalseColor n r g b w).1.data := by
  unfold setFalseColor
  split
  · refine ⟨?_, hn.2.1, hn.2.2⟩
    intro h
    simp [markWithChangedTime] at h
  · exact hn

theorem setFalseColored_children (n : VoxelNode) (b : Bool) (w : World) :
    (setFalseColored n b w).1._children = n._children := by
  unfold setFalseColored
  split
  · by_cases hf : (n.data._falseColored && !b) = true <;> simp [markWithChangedTime, hf]
  · rfl

theorem setFalseColored_sameRegistry (n : VoxelNode) (b : Bool) (w : World) :
    SameRegistry w (setFalseColored n b w).2 := by
  unfold setFalseColored
  split <;> exact ⟨rfl, rfl⟩

theorem setFalseColored_goodData (m : List (Nat × Nat)) (n : VoxelNode) (b : Bool)
    (w : World) (hn : GoodData m n.data) : GoodData m (setFalseColored n b w).1.data := by
  unfold setFalseColored
  split
  · rename_i hne
    by_cases hf : (n.data._falseColored && !b) = true
    · simp only [markWithChangedTime, hf, ↓reduceIte, data_withData]
      exact ⟨fun _ => rfl, ⟨by norm_num, by norm_num⟩, hn.2.2⟩
    · simp only [markWithChangedTime, hf, Bool.false_eq_true, ↓reduceIte, data_withData]
      refine ⟨?_, ⟨by norm_num, by norm_num⟩, hn.2.2⟩
      intro hb
      simp only at hb
      subst hb
      have h1 : n.data._falseColored = true := by
        cases hx : n.data._falseColored with
        | true => rfl
        | false => simp [hx] at hne
      simp [h1] at hf
  · exact hn

theorem averageStep_density (n : VoxelNode) (acc : AverageAcc) (i : Nat) :
    (averageStep n acc i).density = acc.density + childDensity n i := by
  unfold averageStep childDensity
  cases n.getChildAtIndex i with
  | none => simp
  | some c => by_cases hc : c.isColored = true <;> simp [hc]

theorem foldl_averageStep_density (n : VoxelNode) (l : List Nat) (acc : AverageAcc) :
    (l.foldl (averageStep n) acc).density = acc.density + (l.map (childDensity n)).sum := by
  induction l generalizing acc with
  | nil => simp
  | cons i rest ih => simp [ih, averageStep_density, add_assoc]

theorem sum_bounds (l : List ℚ) (h : ∀ x ∈ l, 0 ≤ x ∧ x ≤ 1) :
    0 ≤ l.sum ∧ l.sum ≤ l.length := by
  induction l with
  | nil => simp
  | cons x rest ih =>
    have hx := h x (List.mem_cons_self _ _)
    have hr := ih fun y hy => h y (List.mem_cons_of_mem _ hy)
    simp only [List.sum_cons, List.length_cons]
    push_cast
    constructor <;> linarith [hx.1, hx.2, hr.1, hr.2]

theorem averageLoop_density (n : VoxelNode) :
    (averageLoop n).density = ((List.range 8).map (childDensity n)).sum := by
  unfold averageLoop
  rw [foldl_averageStep_density]
  simp [NUMBER_OF_CHILDREN]

theorem childDensity_bounds (m : List (Nat × Nat)) (n : VoxelNode)
    (hn : AllData (GoodData m) n) (i : Nat) :
    0 ≤ childDensity n i ∧ childDensity n i ≤ 1 := by
  unfold childDensity
  cases hc : n.getChildAtIndex i with
  | none => simp
  | some c =>
    have := ((allData_iff _ c).1 (allData_child _ n i c hn hc)).1
    exact this.2.1

theorem averageLoop_density_bounds (m : List (Nat × Nat)) (n : VoxelNode)
    (hn : AllData (GoodData m) n) :
    0 ≤ (averageLoop n).density / 8 ∧ (averageLoop n).density / 8 ≤ 1 := by
  have h := sum_bounds ((List.range 8).map (childDensity n)) (by
    intro x hx
    obtain ⟨i, _, rfl⟩ := List.mem_map.1 hx
    exact childDensity_bounds m n hn i)
  rw [← averageLoop_density] at h
  simp only [List.length_map, List.length_range] at h
  push_cast at h
  constructor
  · linarith [h.1]
  · linarith [h.2]

theorem keeps_setColor (c : nodeColor) : Keeps fun n w => some (setColor n c w) := by
  apply keeps_of_same
  intro n w r hn hr
  cases hr
  exact ⟨setColor_sameRegistry n c w, allData_of_children _ n _ hn (setColor_children n c w)
    (setColor_goodData _ n c w ((allData_iff _ n).1 hn).1)⟩

theorem keeps_setFalseColor (r g b : Fin 256) :
    Keeps fun n w => some (setFalseColor n r g b w) := by
  apply keeps_of_same
  intro n w x hn hx
  cases hx
  exact ⟨setFalseColor_sameRegistry n r g b w, allData_of_children _ n _ hn
    (setFalseColor_children n r g b w)
    (setFalseColor_goodData _ n r g b w ((allData_iff _ n).1 hn).1)⟩

theorem keeps_setFalseColored (b : Bool) : Keeps fun n w => some (setFalseColored n b w) := by
  apply keeps_of_same
  intro n w x hn hx
  cases hx
  exact ⟨setFalseColored_sameRegistry n b w, allData_of_children _ n _ hn
    (setFalseColored_children n b w)
    (setFalseColored_goodData _ n b w ((allData_iff _ n).1 hn).1)⟩

theorem keeps_setColorFromAverageOfChildren :
    Keeps fun n w => setColorFromAverageOfChildren n w := by
  apply keeps_of_same
  intro n w r hn hr
  have hb := averageLoop_density_bounds _ n hn
  have hgood : ∀ c : nodeColor,
      AllData (GoodData w._mapIndexToVoxelSystemPointers)
        ((setColor n c w).1.setDensity ((averageLoop n).density / (NUMBER_OF_CHILDREN : ℚ))) := by
    intro c
    have hc := setColor_goodData _ n c w ((allData_iff _ n).1 hn).1
    refine allData_of_children _ n _ hn (setColor_children n c w) ?_
    refine ⟨hc.1, ?_, hc.2.2⟩
    simpa [DensityOk, setDensity, NUMBER_OF_CHILDREN] using hb
  unfold setColorFromAverageOfChildren at hr
  simp only at hr
  split at hr
  · split at hr
    · cases hr
    · cases hr
      exact ⟨setColor_sameRegistry n _ w, hgood _⟩
  · cases hr
    exact ⟨setColor_sameRegistry n _ w, hgood _⟩

theorem keeps_setVoxelSystem (v : Nat) : Keeps fun n w => some (setVoxelSystem n v w) := by
  intro n w r hw hn hr
  cases hr
  obtain ⟨h1, h2, _, h4, index, h5⟩ := setVoxelSystem_registry n v w hw
  refine ⟨h1, h2, ?_⟩
  have hn2 := allData_mono _ _ (goodData_mono w _ h2) n hn
  refine allData_of_children _ n _ hn2 (setVoxelSystem_children n v w) ?_
  have hd := ((allData_iff _ n).1 hn).1
  refine ⟨?_, ?_, h4⟩
  · rw [h5]; exact hd.1
  · rw [h5]; exact hd.2.1

theorem registryOk_of_same (w v : World) (h : SameRegistry w v) (hw : RegistryOk w) :
    RegistryOk v := by
  unfold RegistryOk
  rw [h.1, h.2]
  exact hw

theorem registryLe_of_same (w v : World) (h : SameRegistry w v) : RegistryLe w v := by
  intro k hk
  rw [h.2]
  exact hk

theorem allData_of_same (w v : World) (h : SameRegistry w v) (n : VoxelNode)
    (hn : AllData (GoodData w._mapIndexToVoxelSystemPointers) n) :
    AllData (GoodData v._mapIndexToVoxelSystemPointers) n := by
  rw [h.2]
  exact hn

theorem allData_le (w v : World) (h : RegistryLe w v) (n : VoxelNode)
    (hn : AllData (GoodData w._mapIndexToVoxelSystemPointers) n) :
    AllData (GoodData v._mapIndexToVoxelSystemPointers) n :=
  allData_mono _ _ (goodData_mono w v h) n hn

theorem keeps_id : Keeps fun n w => some (n, w) := by
  intro n w r hw hn hr
  cases hr
  exact ⟨hw, registryLe_refl w, hn⟩

/-- The constructor keeps the registry consistent and builds a node that satisfies the node
invariants. -/
theorem new_good (code : List Nat) (w : World) (hw : RegistryOk w) :
    RegistryOk (new code w).2 ∧ RegistryLe w (new code w).2 ∧
      AllData (GoodData (new code w).2._mapIndexToVoxelSystemPointers) (new code w).1 := by
  generalize hn0 : (mk
    { _octalCode := code
      _trueColor := ⟨0, 0, 0, 0⟩
      _currentColor := ⟨0, 0, 0, 0⟩
      _falseColored := false
      _density := 0
      _childCount := 0
      _voxelSystemIndex := 0
      _isDirty := false
      _shouldRender := false }
    (List.replicate NUMBER_OF_CHILDREN none) : VoxelNode) = n0
  obtain ⟨h1, h2, _, h4, index, h5⟩ := setVoxelSystem_registry n0 0 w hw
  have hsame : SameRegistry (setVoxelSystem n0 0 w).2 (new code w).2 := by
    simp only [new, init, markWithChangedTime, notifyUpdateHooks, hn0]
    exact ⟨rfl, rfl⟩
  have hnode : (new code w).1 = (setVoxelSystem n0 0 w).1.withData fun d =>
      { d with _isDirty := true, _shouldRender := false } := by
    simp only [new, init, markWithChangedTime, hn0]
  refine ⟨registryOk_of_same _ _ hsame h1, registryLe_trans _ _ _ h2
    (registryLe_of_same _ _ hsame), ?_⟩
  rw [allData_iff, new_children, hsame.2]
  refine ⟨?_, ?_⟩
  · rw [hnode]
    refine ⟨?_, ?_, h4⟩
    · intro _
      rw [h5, ← hn0]
      rfl
    · rw [h5, ← hn0]
      exact ⟨le_refl _, by norm_num⟩
  · intro c hc
    simp [List.mem_replicate] at hc

theorem keeps_addChildAtIndex (i : Nat) : Keeps fun n w => some (addChildAtIndex n i w).2 := by
  intro n w r hw hn hr
  cases hr
  cases h : n.getChildAtIndex i with
  | some c =>
    simp only [addChildAtIndex, h]
    exact ⟨hw, registryLe_refl w, hn⟩
  | none =>
    simp only [addChildAtIndex, h, markWithChangedTime]
    generalize hgw : (if n.isLeaf = true then
        { w with _voxelNodeLeafCount := decr64 w._voxelNodeLeafCount } else w) = w1
    have hs1 : SameRegistry w w1 := by
      rw [← hgw]
      split <;> exact ⟨rfl, rfl⟩
    generalize getVoxelSystem (n.setChild i (some (new (childOctalCode n.data._octalCode i)
      w1).1)) (new (childOctalCode n.data._octalCode i) w1).2 = v
    generalize childOctalCode n.data._octalCode i = code
    obtain ⟨a1, a2, a3⟩ := new_good code w1 (registryOk_of_same _ _ hs1 hw)
    obtain ⟨b1, b2, b3⟩ := keeps_setVoxelSystem v (new code w1).1 (new code w1).2 _ a1 a3 rfl
    have hle : RegistryLe w (setVoxelSystem (new code w1).1 v (new code w1).2).2 :=
      registryLe_trans _ _ _ (registryLe_of_same _ _ hs1) (registryLe_trans _ _ _ a2 b2)
    have hfin : SameRegistry (setVoxelSystem (new code w1).1 v (new code w1).2).2
        (notifyUpdateHooks (setVoxelSystem (new code w1).1 v (new code w1).2).2) := ⟨rfl, rfl⟩
    refine ⟨registryOk_of_same _ _ hfin b1,
      registryLe_trans _ _ _ hle (registryLe_of_same _ _ hfin), ?_⟩
    refine allData_of_same _ _ hfin _ ?_
    have hn2 := allData_le _ _ hle n hn
    have hset : AllData (GoodData (setVoxelSystem (new code w1).1 v
        (new code w1).2).2._mapIndexToVoxelSystemPointers)
        ((n.setChild i (some (new code w1).1)).setChild i
          (some (setVoxelSystem (new code w1).1 v (new code w1).2).1)) := by
      refine allData_setChild _ _ i _ (allData_setChild _ n i _ hn2 ?_) ?_
      · intro c hc
        cases hc
        exact allData_le _ _ b2 _ a3
      · intro c hc
        cases hc
        exact b3
    exact allData_of_children _ _ _ hset rfl ((allData_iff _ _).1 hset).1

theorem allData_detached (P : NodeData → Prop) (n : VoxelNode) (i : Nat)
    (hP : ∀ d : NodeData, P d → P { d with _isDirty := true, _childCount := d._childCount - 1 })
    (hn : AllData P n) : AllData P (detached n i) := by
  have h1 : AllData P (n.setChild i none) := allData_setChild P n i none hn (by
    intro c hc
    cases hc)
  exact allData_of_children P _ _ h1 rfl (hP _ ((allData_iff P _).1 h1).1)

theorem goodData_bookkeeping (m : List (Nat × Nat)) (d : NodeData) (dirty : Bool) (k : Int)
    (hd : GoodData m d) : GoodData m { d with _isDirty := dirty, _childCount := k } := hd

theorem deleteChildAtIndex_sameRegistry (n : VoxelNode) (i : Nat) (w : World) :
    SameRegistry w (deleteChildAtIndex n i w).2 := by
  cases h : n.getChildAtIndex i with
  | none =>
    simp only [deleteChildAtIndex, h]
    exact sameRegistry_refl w
  | some c =>
    rw [deleteChildAtIndex_eq n i w c h]
    split <;> exact sameRegistry_trans _ _ _ (delete_sameRegistry c w) ⟨rfl, rfl⟩

theorem keeps_deleteChildAtIndex (i : Nat) : Keeps fun n w => some (deleteChildAtIndex n i w) := by
  apply keeps_of_same
  intro n w r hn hr
  cases hr
  refine ⟨deleteChildAtIndex_sameRegistry n i w, ?_⟩
  cases h : n.getChildAtIndex i with
  | none =>
    simp only [deleteChildAtIndex, h]
    exact hn
  | some c =>
    rw [deleteChildAtIndex_node n i w c h]
    exact allData_detached _ n i (fun d hd => goodData_bookkeeping _ d true _ hd) hn

theorem keeps_removeChildAtIndex (i : Nat) :
    Keeps fun n w => some (removeChildAtIndex n i w).2 := by
  apply keeps_of_same
  intro n w r hn hr
  cases hr
  cases h : n.getChildAtIndex i with
  | none =>
    simp only [removeChildAtIndex, h]
    exact ⟨sameRegistry_refl w, hn⟩
  | some c =>
    refine ⟨?_, ?_⟩
    · simp only [removeChildAtIndex, h, markWithChangedTime, notifyUpdateHooks]
      split <;> exact ⟨rfl, rfl⟩
    · rw [removeChildAtIndex_node n i w c h]
      exact allData_detached _ n i (fun d hd => goodData_bookkeeping _ d true _ hd) hn

theorem keeps_foldlM (g : Nat → VoxelNode → World → Option (VoxelNode × World))
    (hg : ∀ j, Keeps (g j)) :
    ∀ l : List Nat, Keeps fun n w =>
      l.foldlM (fun (s : VoxelNode × World) j => g j s.1 s.2) (n, w) := by
  intro l
  induction l with
  | nil =>
    intro n w r hw hn hr
    simp only [List.foldlM_nil, Option.pure_def, Option.some.injEq] at hr
    rw [← hr]
    exact ⟨hw, registryLe_refl w, hn⟩
  | cons j rest ih =>
    intro n w r hw hn hr
    simp only [List.foldlM_cons, Option.bind_eq_bind] at hr
    cases hj : g j n w with
    | none => simp [hj] at hr
    | some s1 =>
      rw [hj] at hr
      obtain ⟨a1, a2, a3⟩ := hg j n w s1 hw hn hj
      obtain ⟨b1, b2, b3⟩ := ih s1.1 s1.2 r a1 a3 hr
      exact ⟨b1, registryLe_trans _ _ _ a2 b2, b3⟩

theorem keeps_safeDeepDeleteChildAtIndex :
    ∀ (fuel i : Nat), Keeps fun n w => safeDeepDeleteChildAtIndex fuel n i w := by
  intro fuel
  induction fuel with
  | zero => intro i n w r _ _ hr; simp [safeDeepDeleteChildAtIndex] at hr
  | succ fuel ih =>
    intro i n w r hw hn hr
    unfold safeDeepDeleteChildAtIndex at hr
    cases hc : n.getChildAtIndex i with
    | none =>
      simp only [hc, Option.some.injEq] at hr
      rw [← hr]
      exact ⟨hw, registryLe_refl w, hn⟩
    | some c =>
      simp only [hc] at hr
      rw [Option.bind_eq_some] at hr
      obtain ⟨s1, hs1, hr⟩ := hr
      cases hr
      have hinner : RegistryOk s1.2 ∧ RegistryLe w s1.2 ∧
          AllData (GoodData s1.2._mapIndexToVoxelSystemPointers) s1.1 := by
        split at hs1
        · exact keeps_foldlM (fun j n w => safeDeepDeleteChildAtIndex fuel n j w)
            (fun j => ih j) _ c w s1 hw (allData_child _ n i c hn hc) hs1
        · cases hs1
          exact ⟨hw, registryLe_refl w, allData_child _ n i c hn hc⟩
      obtain ⟨a1, a2, a3⟩ := hinner
      have hn1 : AllData (GoodData s1.2._mapIndexToVoxelSystemPointers)
          (n.setChild i (some s1.1)) :=
        allData_setChild _ n i _ (allData_le _ _ a2 n hn) (by
          intro x hx
          cases hx
          exact a3)
      obtain ⟨b1, b2, b3⟩ := keeps_deleteChildAtIndex i _ s1.2 _ a1 hn1 rfl
      simp only [markWithChangedTime]
      refine ⟨registryOk_of_same _ _ ⟨rfl, rfl⟩ b1,
        registryLe_trans _ _ _ a2 (registryLe_trans _ _ _ b2 (registryLe_of_same _ _ ⟨rfl, rfl⟩)),
        ?_⟩
      exact allData_of_children _ _ _ b3 rfl ((allData_iff _ _).1 b3).1

theorem mem_clear_slots (l : List Nat) :
    ∀ (cs : List (Option VoxelNode)) (c : VoxelNode),
      some c ∈ l.foldl (fun cs i => cs.set i none) cs → some c ∈ cs := by
  induction l with
  | nil => intro cs c h; exact h
  | cons i rest ih =>
    intro cs c h
    simp only [List.foldl_cons] at h
    rcases List.mem_or_eq_of_mem_set (ih _ c h) with h1 | h1
    · exact h1
    · cases h1

theorem foldl_collapseDelete_sameRegistry (l : List Nat) :
    ∀ (n : VoxelNode) (w : World), SameRegistry w (l.foldl collapseDelete (n, w)).2 := by
  induction l with
  | nil => intro n w; exact sameRegistry_refl w
  | cons i rest ih =>
    intro n w
    simp only [List.foldl_cons, collapseDelete]
    refine sameRegistry_trans _ _ _ ?_ (ih _ _)
    unfold deletePtr
    split
    · exact delete_sameRegistry _ w
    · exact sameRegistry_refl w

theorem keeps_collapseIdenticalLeaves :
    Keeps fun n w => some (collapseIdenticalLeaves n w).2 := by
  apply keeps_of_same
  intro n w r hn hr
  cases hr
  cases h : (collapseIdenticalLeaves n w).1 with
  | false =>
    rw [collapseIdenticalLeaves_of_false n w h]
    exact ⟨sameRegistry_refl w, hn⟩
  | true =>
    unfold collapseIdenticalLeaves at h ⊢
    by_cases hm : (collapseScan n (List.range NUMBER_OF_CHILDREN)
        ⟨true, 0, 0, 0⟩).allChildrenMatch = true
    · simp only [hm, ↓reduceIte]
      have hcl : AllData (GoodData w._mapIndexToVoxelSystemPointers)
          (((List.range NUMBER_OF_CHILDREN).foldl collapseDelete (n, w)).1.withData fun d =>
            { d with _childCount := 0 }) := by
        rw [foldl_collapseDelete_node]
        rw [allData_iff] at hn ⊢
        exact ⟨hn.1, fun c hc => hn.2 c (mem_clear_slots _ _ c hc)⟩
      refine ⟨sameRegistry_trans _ _ _ (foldl_collapseDelete_sameRegistry _ n w)
        (setColor_sameRegistry _ _ _), ?_⟩
      exact allData_of_children _ _ _ hcl (setColor_children _ _ _)
        (setColor_goodData _ _ _ _ ((allData_iff _ _).1 hcl).1)
    · simp only [Bool.not_eq_true] at hm
      simp [hm] at h

theorem keeps_callAt (f : VoxelNode → World → Option (VoxelNode × World)) (hf : Keeps f) :
    ∀ path : List Nat, Keeps (callAt f path) := by
  intro path
  induction path with
  | nil => exact hf
  | cons i rest ih =>
    intro n w r hw hn hr
    unfold callAt at hr
    cases hc : n.getChildAtIndex i with
    | none => simp [hc] at hr
    | some c =>
      simp only [hc] at hr
      cases hr1 : callAt f rest c w with
      | none => simp [hr1] at hr
      | some r1 =>
        simp only [hr1, Option.some.injEq] at hr
        rw [← hr]
        obtain ⟨a1, a2, a3⟩ := ih c w r1 hw (allData_child _ n i c hn hc) hr1
        refine ⟨a1, a2, allData_setChild _ n i _ (allData_le _ _ a2 n hn) ?_⟩
        intro x hx
        cases hx
        exact a3

theorem good_call (s s1 : State) (k : Nat) (path : List Nat)
    (f : VoxelNode → World → Option (VoxelNode × World)) (hf : Keeps f) (hs : s.Good)
    (h : s.call k path f = some s1) : s1.Good ∧ RegistryLe s.world s1.world := by
  unfold State.call at h
  cases ht : s.roots[k]? with
  | none => simp [ht] at h
  | some t =>
    simp only [ht] at h
    cases hr : callAt f path t s.world with
    | none => simp [hr] at h
    | some r =>
      simp only [hr, Option.some.injEq] at h
      rw [← h]
      obtain ⟨a1, a2, a3⟩ := keeps_callAt f hf path t s.world r hs.1
        (hs.2 t (List.getElem?_mem ht)) hr
      refine ⟨⟨a1, ?_⟩, a2⟩
      intro x hx
      rcases List.mem_or_eq_of_mem_set hx with hx | hx
      · exact allData_le _ _ a2 x (hs.2 x hx)
      · rw [hx]
        exact a3

theorem good_step (op : Op) (s s1 : State) (hs : s.Good) (h : step op s = some s1) :
    s1.Good := by
  cases op with
  | newNode code =>
    simp only [step, Option.some.injEq] at h
    rw [← h]
    obtain ⟨a1, a2, a3⟩ := new_good code s.world hs.1
    refine ⟨a1, ?_⟩
    intro x hx
    rcases List.mem_append.1 hx with hx | hx
    · exact allData_le _ _ a2 x (hs.2 x hx)
    · simp only [List.mem_singleton] at hx
      rw [hx]
      exact a3
  | deleteNode k =>
    simp only [step] at h
    cases ht : s.roots[k]? with
    | none => simp [ht] at h
    | some t =>
      simp only [ht, Option.some.injEq] at h
      rw [← h]
      have hsame := delete_sameRegistry t s.world
      refine ⟨registryOk_of_same _ _ hsame hs.1, ?_⟩
      intro x hx
      exact allData_of_same _ _ hsame x (hs.2 x (List.mem_of_mem_eraseIdx hx))
  | addChildAtIndex k path i =>
    simp only [step] at h
    split at h
    · exact (good_call s s1 k path _ (keeps_addChildAtIndex i) hs h).1
    · cases h
  | removeChildAtIndex k path i =>
    simp only [step] at h
    split at h
    · cases ht : s.roots[k]? with
      | none => simp [ht] at h
      | some t =>
        simp only [ht] at h
        cases hp : nodeAt path t with
        | none => simp [hp] at h
        | some p =>
          simp only [hp] at h
          cases hc : s.call k path fun n w => some (removeChildAtIndex n i w).2 with
          | none => simp [hc] at h
          | some s2 =>
            simp only [hc, Option.some.injEq] at h
            rw [← h]
            obtain ⟨h2, hle⟩ := good_call s s2 k path _ (keeps_removeChildAtIndex i) hs hc
            refine ⟨h2.1, ?_⟩
            intro x hx
            rcases List.mem_append.1 hx with hx | hx
            · exact h2.2 x hx
            · have hpd := allData_nodeAt _ path t p (hs.2 t (List.getElem?_mem ht)) hp
              cases hci : p.getChildAtIndex i with
              | none => simp [hci] at hx
              | some c =>
                simp only [hci, Option.toList_some, List.mem_singleton] at hx
                rw [hx]
                exact allData_le _ _ hle c (allData_child _ p i c hpd hci)
    · cases h
  | deleteChildAtIndex k path i =>
    simp only [step] at h
    split at h
    · exact (good_call s s1 k path _ (keeps_deleteChildAtIndex i) hs h).1
    · cases h
  | safeDeepDeleteChildAtIndex k path i fuel =>
    simp only [step] at h
    split at h
    · exact (good_call s s1 k path _ (keeps_safeDeepDeleteChildAtIndex fuel i) hs h).1
    · cases h
  | collapseIdenticalLeaves k path =>
    simp only [step] at h
    exact (good_call s s1 k path _ keeps_collapseIdenticalLeaves hs h).1
  | setColor k path c =>
    simp only [step] at h
    exact (good_call s s1 k path _ (keeps_setColor c) hs h).1
  | setFalseColor k path r g b =>
    simp only [step] at h
    exact (good_call s s1 k path _ (keeps_setFalseColor r g b) hs h).1
  | setFalseColored k path b =>
    simp only [step] at h
    exact (good_call s s1 k path _ (keeps_setFalseColored b) hs h).1
  | setColorFromAverageOfChildren k path =>
    simp only [step] at h
    exact (good_call s s1 k path _ keeps_setColorFromAverageOfChildren hs h).1
  | setVoxelSystem k path v =>
    simp only [step] at h
    exact (good_call s s1 k path _ (keeps_setVoxelSystem v) hs h).1

theorem good_start : State.start.Good := by
  refine ⟨⟨?_, ?_⟩, ?_⟩
  · intro k p h
    simp [State.start, World.empty] at h
  · intro p k h
    simp [State.start, World.empty] at h
  · intro t ht
    simp [State.start] at ht

/-- Every state reachable by any calls has a consistent registry and satisfies the node
invariants at every live node. -/
theorem good_reachable (allowed : Op → Prop) (s : State) (h : Reachable allowed s) :
    s.Good := by
  induction h with
  | start => exact good_start
  | step op s s1 _ _ hstep ih => exact good_step op s s1 ih hstep

theorem goodData_nodeAt (allowed : Op → Prop) (s : State) (hs : Reachable allowed s)
    (t : VoxelNode) (ht : t ∈ s.roots) (path : List Nat) (n : VoxelNode)
    (hn : nodeAt path t = some n) :
    GoodData s.world._mapIndexToVoxelSystemPointers n.data :=
  ((allData_iff _ n).1
    (allData_nodeAt _ path t n ((good_reachable allowed s hs).2 t ht) hn)).1

theorem headD_mem {α : Type} (l : List α) (d : α) (h : l.length = 1) : l.headD d ∈ l := by
  match l, h with
  | [x], _ => simp

theorem setVoxelSystem_found (n : VoxelNode) (v : Nat) (w : World) (k : Nat)
    (h : w._mapVoxelSystemPointersToIndex.lookup v = some k) :
    (setVoxelSystem n v w).1.data._voxelSystemIndex = k := by
  simp [setVoxelSystem, h]

/-- In a consistent registry, on an empty slot of a node with 8 slots whose owner index is
registered, `addChildAtIndex` returns a child with the same owner index. -/
theorem addChildAtIndex_index (p : VoxelNode) (i : Nat) (w : World) (hw : RegistryOk w)
    (hidx : IndexOk w._mapIndexToVoxelSystemPointers p.data) (hlen : i < p._children.length)
    (hempty : p.getChildAtIndex i = none) :
    ∃ c, (addChildAtIndex p i w).1 = some c ∧
      c.data._voxelSystemIndex = p.data._voxelSystemIndex := by
  simp only [addChildAtIndex, hempty, markWithChangedTime, getChildAtIndex_withData]
  rw [getChildAtIndex_setChild_self _ _ _ (by simpa using hlen)]
  refine ⟨_, rfl, ?_⟩
  generalize hgw : (if p.isLeaf = true then
      { w with _voxelNodeLeafCount := decr64 w._voxelNodeLeafCount } else w) = w1
  have hs1 : SameRegistry w w1 := by
    rw [← hgw]
    split <;> exact ⟨rfl, rfl⟩
  generalize childOctalCode p.data._octalCode i = code
  obtain ⟨a1, a2, _⟩ := new_good code w1 (registryOk_of_same _ _ hs1 hw)
  have hidx2 : IndexOk (new code w1).2._mapIndexToVoxelSystemPointers p.data :=
    a2 _ (registryLe_of_same _ _ hs1 _ hidx)
  unfold IndexOk at hidx2
  cases hl : (new code w1).2._mapIndexToVoxelSystemPointers.lookup
      p.data._voxelSystemIndex with
  | none => simp [hl] at hidx2
  | some owner =>
    have hv : getVoxelSystem (p.setChild i (some (new code w1).1)) (new code w1).2 = owner := by
      simp [getVoxelSystem, hl]
    rw [hv]
    exact setVoxelSystem_found _ owner _ _ (a1.1 _ owner hl)

/-- What the scan of `collapseIdenticalLeaves` decides, in the terms the code uses: the call
returns true exactly when all 8 slots hold coloured leaves whose `getColor()` agree in R, G
and B. -/
theorem collapseIdenticalLeaves_scan_iff (n : VoxelNode) (w : World) :
    (collapseIdenticalLeaves n w).1 = true ↔
      ∃ r g b : Fin 256, ∀ i, i < 8 →
        ∃ c, n.getChildAtIndex i = some c ∧ c.isLeaf = true ∧ c.isColored = true ∧
          c.getColor.red = r ∧ c.getColor.green = g ∧ c.getColor.blue = b := by
  have key : (collapseIdenticalLeaves n w).1 =
      (collapseScan n (List.range NUMBER_OF_CHILDREN) ⟨true, 0, 0, 0⟩).allChildrenMatch := by
    unfold collapseIdenticalLeaves
    by_cases h : (collapseScan n (List.range NUMBER_OF_CHILDREN) ⟨true, 0, 0, 0⟩).allChildrenMatch
        = true
    · simp [h]
    · simp only [h]
      simp only [Bool.not_eq_true] at h
      simp [h]
  rw [key, collapseScan_spec]
  constructor
  · rintro ⟨r, g, b, hall, _⟩
    refine ⟨r, g, b, fun i hi => ?_⟩
    obtain ⟨c, h1, h2, h3, h4, h5, h6⟩ := hall i hi
    exact ⟨c, h1, h2, h3, Fin.ext h4, Fin.ext h5, Fin.ext h6⟩
  · rintro ⟨r, g, b, hall⟩
    have hall2 : ∀ i, i < 8 → ScanOk n r.val g.val b.val i := by
      intro i hi
      obtain ⟨c, h1, h2, h3, h4, h5, h6⟩ := hall i hi
      exact ⟨c, h1, h2, h3, by rw [h4], by rw [h5], by rw [h6]⟩
    have hm : (collapseScan n (List.range NUMBER_OF_CHILDREN) ⟨true, 0, 0, 0⟩).allChildrenMatch
        = true := by
      by_contra hne
      obtain ⟨c, hc, hl, hcol, h4, h5, h6⟩ := hall2 0 (by decide)
      have t := collapseScan_tail n [1, 2, 3, 4, 5, 6, 7] ⟨true, r.val, g.val, b.val⟩
        (by decide) rfl
      apply hne
      rw [range_children]
      have step : collapseScan n [0, 1, 2, 3, 4, 5, 6, 7] ⟨true, 0, 0, 0⟩ =
          collapseScan n [1, 2, 3, 4, 5, 6, 7] ⟨true, r.val, g.val, b.val⟩ := by
        simp [collapseScan, hc, hl, hcol, h4, h5, h6]
      rw [step, t.1 (fun i hi => hall2 i (by
        simp only [List.mem_cons, List.mem_singleton, List.not_mem_nil, or_false] at hi
        omega))]
    obtain ⟨r1, g1, b1, hall1, heq⟩ := (collapseScan_spec n).1 hm
    exact ⟨r1, g1, b1, hall1, heq⟩

/-! ## C1 -/

/-- C1 (as amended): for every node each of whose children shows its true colour
(`getColor()` equal to `getTrueColor()`, as for every child on which no false-colour
override is active), `collapseIdenticalLeaves()` returns true if and only if all 8 child
slots are occupied, every child is a leaf, every child is coloured (presence flag of its
true colour is 1), and all 8 children have the same R, G and B. -/
theorem collapseIdenticalLeaves_true_iff (n : VoxelNode) (w : World)
    (hshow : ∀ i c, n.getChildAtIndex i = some c → c.getColor = c.getTrueColor) :
    (collapseIdenticalLeaves n w).1 = true ↔
      ∃ r g b : Fin 256, ∀ i, i < 8 →
        ∃ c, n.getChildAtIndex i = some c ∧ c.isLeaf = true ∧ c.isColored = true ∧
          c.getTrueColor.red = r ∧ c.getTrueColor.green = g ∧ c.getTrueColor.blue = b := by
  rw [collapseIdenticalLeaves_scan_iff n w]
  constructor
  · rintro ⟨r, g, b, hall⟩
    refine ⟨r, g, b, fun i hi => ?_⟩
    obtain ⟨c, h1, h2, h3, h4, h5, h6⟩ := hall i hi
    have e := hshow i c h1
    exact ⟨c, h1, h2, h3, by rw [← e]; exact h4, by rw [← e]; exact h5, by rw [← e]; exact h6⟩
  · rintro ⟨r, g, b, hall⟩
    refine ⟨r, g, b, fun i hi => ?_⟩
    obtain ⟨c, h1, h2, h3, h4, h5, h6⟩ := hall i hi
    have e := hshow i c h1
    exact ⟨c, h1, h2, h3, by rw [e]; exact h4, by rw [e]; exact h5, by rw [e]; exact h6⟩

/-- C1 (witness): the fresh root with 8 leaves painted (255,0,0,1), none of them under an
override; the call returns true. -/
theorem collapseIdenticalLeaves_true_iff_witness :
    (∀ i c, redLeavesRoot.1.getChildAtIndex i = some c → c.getColor = c.getTrueColor) ∧
    (collapseIdenticalLeaves redLeavesRoot.1 redLeavesRoot.2).1 = true ∧
    ((collapseIdenticalLeaves redLeavesRoot.1 redLeavesRoot.2).1 = true ↔
      ∃ r g b : Fin 256, ∀ i, i < 8 →
        ∃ c, redLeavesRoot.1.getChildAtIndex i = some c ∧ c.isLeaf = true ∧
          c.isColored = true ∧
          c.getTrueColor.red = r ∧ c.getTrueColor.green = g ∧ c.getTrueColor.blue = b) := by
  have hlen : redLeavesRoot.1._children.length = 8 := by decide!
  have hall : ∀ i, i < 8 → ((redLeavesRoot.1.getChildAtIndex i).all
      fun c => decide (c.getColor = c.getTrueColor)) = true := by decide!
  have hshow : ∀ i c, redLeavesRoot.1.getChildAtIndex i = some c →
      c.getColor = c.getTrueColor := by
    intro i c h
    have hi : i < 8 := hlen ▸ lt_length_of_getChildAtIndex _ i c h
    have := hall i hi
    rw [h] at this
    simpa [Option.all] using this
  exact ⟨hshow, by decide!, collapseIdenticalLeaves_true_iff _ _ hshow⟩

/-- C1 (counterexample): on a root with 8 freshly constructed children (all leaves, all with
colour (0,0,0) and presence flag 0) the cached child count is exact, all 8 slots are
occupied by leaves of identical RGB, and yet `collapseIdenticalLeaves()` returns false. -/
theorem collapseIdenticalLeaves_uncoloured_children :
    rootWithFreshChildren.1.data._childCount = (occupied rootWithFreshChildren.1._children : Int) ∧
    (∀ i, i < 8 → ∃ c, rootWithFreshChildren.1.getChildAtIndex i = some c ∧ c.isLeaf = true ∧
      c.getTrueColor = ⟨0, 0, 0, 0⟩ ∧ c.getColor = ⟨0, 0, 0, 0⟩) ∧
    (collapseIdenticalLeaves rootWithFreshChildren.1 rootWithFreshChildren.2).1 = false := by
  refine ⟨by decide, ?_, by decide⟩
  intro i hi
  interval_cases i <;> exact ⟨_, rfl, by decide, by decide, by decide⟩

/-! ## C2 -/

/-- C2 (the code at the failing input): the root has true colour (0,0,0,0) and 8 leaf
children that all have true and display colour (0,0,0,1); `collapseIdenticalLeaves()`
returns true and leaves a leaf with 8 empty slots, but the root's true colour is still
(0,0,0,0), so the root is not coloured. -/
theorem collapseIdenticalLeaves_same_rgb_stays_uncoloured :
    rootWithBlackLeaves.map (fun s => s.1.getTrueColor) = some ⟨0, 0, 0, 0⟩ ∧
    rootWithBlackLeaves.map (fun s => (List.range 8).map fun i =>
        (s.1.getChildAtIndex i).map fun c => (c.isLeaf, c.getTrueColor, c.getColor)) =
      some (List.replicate 8 (some (true, ⟨0, 0, 0, 1⟩, ⟨0, 0, 0, 1⟩))) ∧
    rootWithBlackLeaves.map (fun s => (collapseIdenticalLeaves s.1 s.2).1) = some true ∧
    rootWithBlackLeaves.map (fun s => (collapseIdenticalLeaves s.1 s.2).2.1.isLeaf) =
      some true ∧
    rootWithBlackLeaves.map (fun s => (List.range 8).map fun i =>
        ((collapseIdenticalLeaves s.1 s.2).2.1.getChildAtIndex i).isSome) =
      some (List.replicate 8 false) ∧
    rootWithBlackLeaves.map (fun s => (collapseIdenticalLeaves s.1 s.2).2.1.getTrueColor) =
      some ⟨0, 0, 0, 0⟩ ∧
    rootWithBlackLeaves.map (fun s => (collapseIdenticalLeaves s.1 s.2).2.1.isColored) =
      some false := by
  refine ⟨?_, ?_, ?_, ?_, ?_, ?_, ?_⟩ <;> decide!

/-! ## C3 -/

/-- C3: if `collapseIdenticalLeaves()` returns false, the node (members, children and all
descendants) and the process-wide state (node and leaf counters, registry, number of update
and delete notifications) are exactly as before the call. -/
theorem collapseIdenticalLeaves_false_unchanged (n : VoxelNode) (w : World)
    (h : (collapseIdenticalLeaves n w).1 = false) :
    (collapseIdenticalLeaves n w).2 = (n, w) :=
  collapseIdenticalLeaves_of_false n w h

/-- C3 (witness): the root with 8 uncoloured children, on which the call returns false. -/
theorem collapseIdenticalLeaves_false_unchanged_witness :
    (collapseIdenticalLeaves rootWithFreshChildren.1 rootWithFreshChildren.2).1 = false ∧
    (collapseIdenticalLeaves rootWithFreshChildren.1 rootWithFreshChildren.2).2 =
      (rootWithFreshChildren.1, rootWithFreshChildren.2) :=
  ⟨by decide, collapseIdenticalLeaves_false_unchanged _ _ (by decide)⟩

/-! ## C4 -/

/-- C4 (the code at the failing inputs): (a) a node with true colour (0,0,0,1) and no
children gets density 0 from `setColorFromAverageOfChildren()`, not above 1/10, and keeps
presence flag 1; (b) a node with true colour (0,0,0,0) whose 8 children are coloured black
with density 1 gets density 1, above 1/10, and keeps true colour (0,0,0,0), presence 0. -/
theorem setColorFromAverageOfChildren_same_rgb_keeps_flag :
    (blackRoot.1.getTrueColor = ⟨0, 0, 0, 1⟩ ∧
      (List.range 8).map (fun i => (blackRoot.1.getChildAtIndex i).isSome) =
        List.replicate 8 false ∧
      (setColorFromAverageOfChildren blackRoot.1 blackRoot.2).map (fun r => r.1.getDensity) =
        some 0 ∧
      (setColorFromAverageOfChildren blackRoot.1 blackRoot.2).map (fun r => r.1.getTrueColor) =
        some ⟨0, 0, 0, 1⟩) ∧
    (rootWithBlackLeaves.map (fun s => s.1.getTrueColor) = some ⟨0, 0, 0, 0⟩ ∧
      rootWithBlackLeaves.map (fun s => (List.range 8).map fun i =>
          (s.1.getChildAtIndex i).map fun c => (c.getTrueColor, c.getDensity)) =
        some (List.replicate 8 (some (⟨0, 0, 0, 1⟩, 1))) ∧
      (rootWithBlackLeaves.bind fun s =>
          (setColorFromAverageOfChildren s.1 s.2).map fun r => r.1.getDensity) = some 1 ∧
      (rootWithBlackLeaves.bind fun s =>
          (setColorFromAverageOfChildren s.1 s.2).map fun r => r.1.getTrueColor) =
        some ⟨0, 0, 0, 0⟩) := by
  refine ⟨⟨?_, ?_, ?_, ?_⟩, ⟨?_, ?_, ?_, ?_⟩⟩ <;> decide!

/-! ## C5 -/

/-- Whenever `setColorFromAverageOfChildren()` returns, the density it leaves is the sum of
the densities of the existing children divided by 8. -/
theorem setColorFromAverageOfChildren_density (n : VoxelNode) (w : World)
    (r : VoxelNode × World) (h : setColorFromAverageOfChildren n w = some r) :
    r.1.getDensity = ((List.range 8).map (childDensity n)).sum / 8 := by
  have hd : (averageLoop n).density = ((List.range 8).map (childDensity n)).sum := by
    unfold averageLoop
    rw [foldl_averageStep_density]
    simp [NUMBER_OF_CHILDREN]
  unfold setColorFromAverageOfChildren at h
  simp only at h
  split at h
  · split at h
    · cases h
    · cases h
      simp [setDensity, getDensity, hd, NUMBER_OF_CHILDREN]
  · cases h
    simp [setDensity, getDensity, hd, NUMBER_OF_CHILDREN]

/-- C5 (the code at the failing input): a node with true colour (255,0,0,0), 4 children of
true colour (255,0,0,1) and density 1, and 4 absent children ends
`setColorFromAverageOfChildren()` with density 1/2 and true colour (255,0,0,0), presence
flag 0. -/
theorem setColorFromAverageOfChildren_red_example :
    redRootWithFourRedLeaves.map (fun s => s.1.getTrueColor) = some ⟨255, 0, 0, 0⟩ ∧
    redRootWithFourRedLeaves.map (fun s => (List.range 8).map fun i =>
        (s.1.getChildAtIndex i).map fun c => (c.getTrueColor, c.getDensity)) =
      some (List.replicate 4 (some (⟨255, 0, 0, 1⟩, 1)) ++ List.replicate 4 none) ∧
    (redRootWithFourRedLeaves.bind fun s =>
        (setColorFromAverageOfChildren s.1 s.2).map fun r => r.1.getDensity) = some (1 / 2) ∧
    (redRootWithFourRedLeaves.bind fun s =>
        (setColorFromAverageOfChildren s.1 s.2).map fun r => r.1.getTrueColor) =
      some ⟨255, 0, 0, 0⟩ := by
  refine ⟨?_, ?_, ?_, ?_⟩ <;> decide!

/-- The same children under a never-coloured root: density 1/2 and true colour
(255,0,0,1). -/
theorem setColorFromAverageOfChildren_red_example_fresh :
    rootWithFourRedLeaves.map (fun s => s.1.getTrueColor) = some ⟨0, 0, 0, 0⟩ ∧
    (rootWithFourRedLeaves.bind fun s =>
        (setColorFromAverageOfChildren s.1 s.2).map fun r => r.1.getDensity) = some (1 / 2) ∧
    (rootWithFourRedLeaves.bind fun s =>
        (setColorFromAverageOfChildren s.1 s.2).map fun r => r.1.getTrueColor) =
      some ⟨255, 0, 0, 1⟩ := by
  refine ⟨?_, ?_, ?_⟩ <;> decide!

/-! ## C6 -/

/-- C6: in every state reachable from the empty process by calls drawn from any set
`allowed` of the embedded calls (construction, `addChildAtIndex`, `removeChildAtIndex`,
`deleteChildAtIndex`, `safeDeepDeleteChildAtIndex` and `collapseIdenticalLeaves` with octant
index in [0,8), and also the colour calls that a successful collapse needs, node
destruction and `setVoxelSystem`), every live node (the node `path` reaches from any root)
has 8 slots and a `_childCount` equal to its number of non-null slots, and `isLeaf()` holds
exactly when all 8 slots are empty. -/
theorem childCount_invariant (allowed : Op → Prop) (s : State) (hs : Reachable allowed s)
    (t : VoxelNode) (ht : t ∈ s.roots) (path : List Nat) (n : VoxelNode)
    (hn : nodeAt path t = some n) :
    n.data._childCount = (occupied n._children : Int) ∧ n._children.length = 8 ∧
      (n.isLeaf = true ↔ ∀ i, i < 8 → n.getChildAtIndex i = none) := by
  have hinv := inv_nodeAt path t n (allInv_reachable _ s hs t ht) hn
  have h := (inv_iff n).1 hinv
  refine ⟨h.1, h.2.1, ?_⟩
  rw [isLeaf_iff_of_inv n hinv, occupied_eq_zero_iff]
  constructor
  · intro hall i hi
    have hlt : i < n._children.length := by rw [h.2.1]; exact hi
    rw [getChildAtIndex_eq_none n i hlt]
    have hmem : n._children[i] ∈ n._children := List.getElem_mem hlt
    rw [List.getElem?_eq_getElem hlt, hall _ hmem]
  · intro hall p hp
    obtain ⟨i, hlt, hget⟩ := List.getElem_of_mem hp
    have hi : i < 8 := by rw [← h.2.1]; exact hlt
    have := (getChildAtIndex_eq_none n i hlt).1 (hall i hi)
    rw [List.getElem?_eq_getElem hlt, hget] at this
    simpa using this

/-- C6 (witness): the root of `collapsedState`. Its 8 children were painted (255,0,0,1),
`collapseIdenticalLeaves()` returned true on it and deleted them: its `_childCount` is 0 and
its 8 slots are empty. -/
theorem childCount_invariant_witness :
    Reachable (fun _ => True) collapsedState ∧
    (collapseIdenticalLeaves redLeavesRoot.1 redLeavesRoot.2).1 = true ∧
    collapsedState.roots.length = 1 ∧
    (collapsedState.roots.headD (newRoot World.empty).1).data._childCount = 0 ∧
    ((collapsedState.roots.headD (newRoot World.empty).1).data._childCount =
        (occupied (collapsedState.roots.headD (newRoot World.empty).1)._children : Int) ∧
      (collapsedState.roots.headD (newRoot World.empty).1)._children.length = 8 ∧
      ((collapsedState.roots.headD (newRoot World.empty).1).isLeaf = true ↔
        ∀ i, i < 8 →
          (collapsedState.roots.headD (newRoot World.empty).1).getChildAtIndex i = none)) := by
  have h : (collapseIdenticalLeaves redLeavesRoot.1 redLeavesRoot.2).1 = true ∧
      collapsedState.roots.length = 1 ∧
      (collapsedState.roots.headD (newRoot World.empty).1).data._childCount = 0 := by
    refine ⟨?_, ?_, ?_⟩ <;> decide!
  exact ⟨reachable_runD _ _ (fun _ _ => trivial), h.1, h.2.1, h.2.2,
    childCount_invariant (fun _ => True) collapsedState
      (reachable_runD _ _ (fun _ _ => trivial))
      (collapsedState.roots.headD (newRoot World.empty).1) (headD_mem _ _ h.2.1) []
      (collapsedState.roots.headD (newRoot World.empty).1) rfl⟩

/-! ## C7 -/

/-- When slot `childIndex` is occupied, `addChildAtIndex` returns the existing child and
changes neither the node nor the process-wide state. -/
theorem addChildAtIndex_occupied (n : VoxelNode) (i : Nat) (w : World) (c : VoxelNode)
    (h : n.getChildAtIndex i = some c) : addChildAtIndex n i w = (some c, n, w) := by
  simp [addChildAtIndex, h]

/-- C7: for every node (8 child slots) and every octant `i` in [0,8), a second
`addChildAtIndex(i)` right after a first returns the same child as the first and leaves the
node, all its slots and members, and the process-wide state (counters, registry, update
notifications: so no node is constructed and no observer invoked) as the first call left
them; and whenever slot `i` is occupied the call returns the existing child with no state
change. -/
theorem addChildAtIndex_idempotent (n : VoxelNode) (i : Nat) (w : World)
    (hlen : n._children.length = 8) (hi : i < 8) :
    addChildAtIndex (addChildAtIndex n i w).2.1 i (addChildAtIndex n i w).2.2 =
        addChildAtIndex n i w ∧
      ∀ c, n.getChildAtIndex i = some c → addChildAtIndex n i w = (some c, n, w) := by
  refine ⟨?_, fun c hc => addChildAtIndex_occupied n i w c hc⟩
  cases hc : n.getChildAtIndex i with
  | some c =>
    rw [addChildAtIndex_occupied n i w c hc]
    exact addChildAtIndex_occupied n i w c hc
  | none =>
    have hfst : (addChildAtIndex n i w).1 = (addChildAtIndex n i w).2.1.getChildAtIndex i := by
      simp [addChildAtIndex, hc]
    have hsome : ∃ c, (addChildAtIndex n i w).2.1.getChildAtIndex i = some c := by
      simp only [addChildAtIndex, hc, markWithChangedTime, getChildAtIndex_withData]
      rw [getChildAtIndex_setChild_self _ _ _ (by rw [length_setChild, hlen]; exact hi)]
      exact ⟨_, rfl⟩
    obtain ⟨c, hc2⟩ := hsome
    rw [addChildAtIndex_occupied _ i _ c hc2]
    rw [Prod.ext_iff]
    exact ⟨by rw [hfst, hc2], rfl⟩

/-- C7 (witness): octant 3 of a fresh root; the slot is empty before the first call and
occupied after it. -/
theorem addChildAtIndex_idempotent_witness :
    (newRoot World.empty).1._children.length = 8 ∧ 3 < 8 ∧
    (newRoot World.empty).1.getChildAtIndex 3 = none ∧
    addChildAtIndex (addChildAtIndex (newRoot World.empty).1 3 (newRoot World.empty).2).2.1 3
        (addChildAtIndex (newRoot World.empty).1 3 (newRoot World.empty).2).2.2 =
      addChildAtIndex (newRoot World.empty).1 3 (newRoot World.empty).2 :=
  ⟨by decide, by decide, rfl,
    (addChildAtIndex_idempotent (newRoot World.empty).1 3 (newRoot World.empty).2
      (by decide) (by decide)).1⟩

/-! ## C8 -/

/-- C8 (the code at the failing input): a root with 8 leaf children all coloured
(255,0,0,1), built from the empty process by construction, `addChildAtIndex` and `setColor`;
the counters are exact there (9 nodes, 8 leaves). `collapseIdenticalLeaves()` on the root
succeeds and reaches a state with 1 live node, which is childless, while the leaf counter is
0; destroying that node then wraps the leaf counter to 2^64 - 1 with no node alive. -/
theorem collapseIdenticalLeaves_leaf_counter :
    (run redLeavesOps).map (fun s => (s.world._voxelNodeCount, s.numNodes)) = some (9, 9) ∧
    (run redLeavesOps).map (fun s => (s.world._voxelNodeLeafCount, s.numChildless)) =
      some (8, 8) ∧
    (run redLeavesOps).map (fun s => s.roots.map fun t => (collapseIdenticalLeaves t s.world).1) =
      some [true] ∧
    (∃ s, run (redLeavesOps ++ [Op.collapseIdenticalLeaves 0 []]) = some s ∧
      Reachable Op.isAccounting s ∧ s.world._voxelNodeCount = 1 ∧ s.numNodes = 1 ∧
      s.world._voxelNodeLeafCount = 0 ∧ s.numChildless = 1) ∧
    (run (redLeavesOps ++ [Op.collapseIdenticalLeaves 0 [], Op.deleteNode 0])).map
        (fun s => (s.world._voxelNodeLeafCount, s.numChildless)) =
      some (18446744073709551615, 0) := by
  refine ⟨by decide!, by decide!, by decide!, ?_, by decide!⟩
  have h : (run (redLeavesOps ++ [Op.collapseIdenticalLeaves 0 []])).map
      (fun s => (s.world._voxelNodeCount, s.numNodes, s.world._voxelNodeLeafCount,
        s.numChildless)) = some (1, 1, 0, 1) := by decide!
  cases hs : run (redLeavesOps ++ [Op.collapseIdenticalLeaves 0 []]) with
  | none => simp [hs] at h
  | some s =>
    simp only [hs, Option.map_some', Option.some.injEq, Prod.mk.injEq] at h
    refine ⟨s, rfl, ?_, h.1, h.2.1, h.2.2.1, h.2.2.2⟩
    refine reachable_run Op.isAccounting _ State.start s Reachable.start ?_ hs
    intro op hop
    simp only [redLeavesOps, List.mem_append, List.mem_cons, List.mem_map, List.mem_range,
      List.mem_singleton, List.not_mem_nil, or_false] at hop
    rcases hop with ((rfl | ⟨i, _, rfl⟩) | ⟨i, _, rfl⟩) | rfl <;> trivial

/-! ## C9 -/

/-- C9: in a state built from the empty process only by construction and `addChildAtIndex`,
with `N = s.numNodes` live nodes, let `c` be the child in the occupied slot `i` of a live
node `p`, and `M = numNodes c` the size of the subtree under that slot. With fuel for the
height of `p`, `p.safeDeepDeleteChildAtIndex(i)` returns, `N - M` nodes stay alive, the node
counter is `N - M` and the leaf counter is the number of childless nodes that remain (both
as `uint64_t`, so modulo 2^64, and exactly when `N < 2^64`); slot `i` of `p` is then empty,
so `p` is counted among the childless nodes if that was its only child. -/
theorem safeDeepDeleteChildAtIndex_counters (s : State) (hs : Reachable Op.isBuild s)
    (k : Nat) (t : VoxelNode) (path : List Nat) (p : VoxelNode) (i : Nat) (c : VoxelNode)
    (fuel : Nat) (ht : s.roots[k]? = some t) (hp : nodeAt path t = some p) (hi : i < 8)
    (hc : p.getChildAtIndex i = some c) (hfuel : depth p ≤ fuel) :
    ∃ s1, step (Op.safeDeepDeleteChildAtIndex k path i fuel) s = some s1 ∧
      s1.numNodes + numNodes c = s.numNodes ∧
      s1.world._voxelNodeCount = (s.numNodes - numNodes c) % 2 ^ 64 ∧
      s1.world._voxelNodeLeafCount = s1.numChildless % 2 ^ 64 ∧
      (s.numNodes < 2 ^ 64 → s1.world._voxelNodeCount = s.numNodes - numNodes c ∧
        s1.world._voxelNodeLeafCount = s1.numChildless) ∧
      ∃ t1 p1, s1.roots = s.roots.set k t1 ∧ nodeAt path t1 = some p1 ∧
        p1._children = p._children.set i none := by
  have hall := allInv_reachable _ s hs
  have hex := countersExact_reachable s hs
  have htinv := hall t (List.getElem?_mem ht)
  have hpinv := inv_nodeAt path t p htinv hp
  obtain ⟨r0, hr0, q1, q2, q3, q4⟩ :=
    safeDeepDeleteChildAtIndex_spec fuel p i s.world hpinv hex.1 hfuel
  obtain ⟨t1, h1, _, h3, h4, h5⟩ := callAt_lift
    (fun n w => safeDeepDeleteChildAtIndex fuel n i w) path t s.world p r0 htinv hp hr0 q1 q3
  have hstep : step (Op.safeDeepDeleteChildAtIndex k path i fuel) s =
      some ⟨r0.2, s.roots.set k t1⟩ := by
    have hi2 : i < NUMBER_OF_CHILDREN := hi
    simp only [step, hi2, ↓reduceIte, State.call, ht, h1]
  have hex1 := countersExact_set s k t t1 r0.2 hex ht q2 h3
  have hsub : numNodes r0.1 + numNodes c = numNodes p := by
    have e := numNodes_setChild p i _ none ((getChildAtIndex_eq_some p i c).1 hc)
    have e2 : numNodes r0.1 = numNodes (p.setChild i none) := numNodes_congr _ _ (by rw [q4]; rfl)
    simp only [slotNodes] at e
    omega
  have hsum := sum_map_set VoxelNode.numNodes t1 s.roots k t ht
  have hnodes : State.numNodes ⟨r0.2, s.roots.set k t1⟩ + numNodes c = s.numNodes := by
    simp only [State.numNodes]
    omega
  have hcount : r0.2._voxelNodeCount = (s.numNodes - numNodes c) % 2 ^ 64 := by
    have := eq_mod_of_cast _ _ hex1.1.1 hex1.2.1
    rw [this]
    congr 1
    omega
  have hleaf : r0.2._voxelNodeLeafCount =
      State.numChildless ⟨r0.2, s.roots.set k t1⟩ % 2 ^ 64 :=
    eq_mod_of_cast _ _ hex1.1.2 hex1.2.2
  refine ⟨⟨r0.2, s.roots.set k t1⟩, hstep, hnodes, hcount, hleaf, ?_, t1, r0.1, rfl, h5, q4⟩
  intro hlt
  have hle := state_numChildless_le ⟨r0.2, s.roots.set k t1⟩
  constructor
  · rw [hcount]
    exact Nat.mod_eq_of_lt (by omega)
  · rw [hleaf]
    exact Nat.mod_eq_of_lt (by omega)

/-- C9 (witness): `builtState` has N = 4 nodes and the subtree under slot 3 of its root has
M = 2; the root has height 3, for which fuel 3 is enough. -/
theorem safeDeepDeleteChildAtIndex_counters_witness :
    Reachable Op.isBuild builtState ∧ builtState.roots[0]? = some builtRoot ∧
    builtRoot.getChildAtIndex 3 = some builtChild ∧ builtState.numNodes = 4 ∧
    numNodes builtChild = 2 ∧
    ∃ s1, step (Op.safeDeepDeleteChildAtIndex 0 [] 3 3) builtState = some s1 ∧
      s1.numNodes + numNodes builtChild = builtState.numNodes ∧
      s1.world._voxelNodeCount = (builtState.numNodes - numNodes builtChild) % 2 ^ 64 ∧
      s1.world._voxelNodeLeafCount = s1.numChildless % 2 ^ 64 ∧
      (builtState.numNodes < 2 ^ 64 →
        s1.world._voxelNodeCount = builtState.numNodes - numNodes builtChild ∧
        s1.world._voxelNodeLeafCount = s1.numChildless) ∧
      ∃ t1 p1, s1.roots = builtState.roots.set 0 t1 ∧ nodeAt [] t1 = some p1 ∧
        p1._children = builtRoot._children.set 3 none :=
  ⟨reachable_runD _ _ (by simp [Op.isBuild]), rfl, rfl, by decide, by decide,
    safeDeepDeleteChildAtIndex_counters builtState (reachable_runD _ _ (by simp [Op.isBuild]))
      0 builtRoot [] builtRoot 3 builtChild 3 rfl rfl (by decide) rfl (by decide)⟩

/-! ## C10 -/

/-- C10 (the code at the failing input): on a freshly constructed node (no override, true
colour (0,0,0,0)), `setColor((0,0,0,1))`, then `setFalseColor(9,9,9)`, then
`setFalseColored(false)`: the first step leaves the true colour (0,0,0,0); after the second
step the display colour is (9,9,9,1); after the third the display colour and the true
colour are both (0,0,0,0), not (0,0,0,1). -/
theorem override_round_trip_same_rgb :
    (newRoot World.empty).1.data._falseColored = false ∧
    (newRoot World.empty).1.getTrueColor = ⟨0, 0, 0, 0⟩ ∧
    roundTripColoured.1.getTrueColor = ⟨0, 0, 0, 0⟩ ∧
    roundTripOverridden.1.getColor = ⟨9, 9, 9, 1⟩ ∧
    roundTripRestored.1.getColor = ⟨0, 0, 0, 0⟩ ∧
    roundTripRestored.1.getTrueColor = ⟨0, 0, 0, 0⟩ := by
  refine ⟨?_, ?_, ?_, ?_, ?_, ?_⟩ <;> decide

/-! ## C11 -/

/-- C11 (the code at the failing input): a node with the override active, display colour
(9,9,9,1) and true colour (0,0,0,0); `setColor((0,0,0,1))` leaves the display colour
unchanged, and leaves the true colour (0,0,0,0) too, not (0,0,0,1). -/
theorem setColor_under_override_same_rgb :
    overriddenRoot.1.data._falseColored = true ∧
    overriddenRoot.1.getColor = ⟨9, 9, 9, 1⟩ ∧
    overriddenRoot.1.getTrueColor = ⟨0, 0, 0, 0⟩ ∧
    (setColor overriddenRoot.1 ⟨0, 0, 0, 1⟩ overriddenRoot.2).1.getColor = ⟨9, 9, 9, 1⟩ ∧
    (setColor overriddenRoot.1 ⟨0, 0, 0, 1⟩ overriddenRoot.2).1.getTrueColor = ⟨0, 0, 0, 0⟩ := by
  refine ⟨?_, ?_, ?_, ?_, ?_⟩ <;> decide

/-! ## C12 -/

/-- C12: in every state reachable from the empty process by construction,
`addChildAtIndex`, `setColor`, `setFalseColor`, `setFalseColored`,
`setColorFromAverageOfChildren` and `collapseIdenticalLeaves`, every live node whose override
is not active (`_falseColored == false`) has a display colour equal to its true colour in
all four channels. -/
theorem display_is_true_colour (s : State) (hs : Reachable Op.isColouring s) (t : VoxelNode)
    (ht : t ∈ s.roots) (path : List Nat) (n : VoxelNode) (hn : nodeAt path t = some n)
    (hf : n.data._falseColored = false) : n.getColor = n.getTrueColor :=
  (goodData_nodeAt _ s hs t ht path n hn).1 hf

/-- C12 (witness): the root of `restoredState`, painted (255,0,0,1), overridden and
restored: no override is active and both colours are (255,0,0,1). -/
theorem display_is_true_colour_witness :
    Reachable Op.isColouring restoredState ∧
    (restoredState.roots.headD (newRoot World.empty).1).data._falseColored = false ∧
    (restoredState.roots.headD (newRoot World.empty).1).getTrueColor = ⟨255, 0, 0, 1⟩ ∧
    (restoredState.roots.headD (newRoot World.empty).1).getColor =
      (restoredState.roots.headD (newRoot World.empty).1).getTrueColor :=
  ⟨reachable_runD _ _ (by simp [Op.isColouring]), by decide, by decide,
    display_is_true_colour restoredState (reachable_runD _ _ (by simp [Op.isColouring]))
      (restoredState.roots.headD (newRoot World.empty).1) (headD_mem _ _ (by decide)) []
      (restoredState.roots.headD (newRoot World.empty).1) rfl (by decide)⟩

/-! ## C13 -/

/-- C13: for every node, every `boundaryLevelAdjust`, every furthest-corner distance `f` and
every boundary policy `B` (values in any linear order, the reals among them),
`calculateShouldRender` returns true if and only if the node is coloured and either it is a
leaf with `f ≤ B(level+1+adjust)`, or `f ≤ B(level+adjust)` and `f > B(level+1+adjust)`;
so it returns false for every uncoloured node. -/
theorem calculateShouldRender_iff {α : Type} [LinearOrder α] (n : VoxelNode) (f : α)
    (B : Int → α) (adjust : Int) :
    calculateShouldRender n f B adjust = true ↔
      n.isColored = true ∧
        ((n.isLeaf = true ∧ f ≤ B ((n.getLevel : Int) + 1 + adjust)) ∨
          (f ≤ B ((n.getLevel : Int) + adjust) ∧ f > B ((n.getLevel : Int) + 1 + adjust))) := by
  unfold calculateShouldRender
  by_cases hc : n.isColored = true
  · simp [hc]
  · simp [hc]

/-! ## C14 -/

/-- C14 (the code at the failing input): the policy `lodBoundary` does not increase with the
level; `lodParent` is coloured, at level 0, and `lodChild`, its child in slot 0, is coloured,
at level 1; with furthest-corner distances 11 for the parent and 9 for the child (9 ≤ 11),
`calculateShouldRender` returns true for both. -/
theorem calculateShouldRender_parent_and_child :
    (∀ a b : Int, a ≤ b → lodBoundary b ≤ lodBoundary a) ∧
    lodParent.isColored = true ∧ lodParent.getLevel = 0 ∧
    lodParent.getChildAtIndex 0 = some lodChild ∧
    lodChild.isColored = true ∧ lodChild.getLevel = 1 ∧ (9 : ℚ) ≤ 11 ∧
    calculateShouldRender lodParent (11 : ℚ) lodBoundary 0 = true ∧
    calculateShouldRender lodChild (9 : ℚ) lodBoundary 0 = true := by
  refine ⟨?_, by decide, by decide, rfl, by decide, by decide, by norm_num, by decide!,
    by decide!⟩
  intro a b hab
  unfold lodBoundary
  split_ifs <;> first | omega | norm_num

/-! ## C15 -/

set_option maxHeartbeats 4000000 in
/-- C15 (the code at the failing input): a node's owner is set to owner 1, which gets index
1, and `getVoxelSystem()` returns owner 1. After another node registered the 256 further
owners 2, ..., 257 the 8-bit counter has wrapped, owner 257 was given index 1 as well, and
`getVoxelSystem()` on the first node, whose owner was never set again, returns owner 257:
the owner registered under index 1, the index of owner 1, is owner 257. -/
theorem getVoxelSystem_after_wrap :
    ownedNode.1.data._voxelSystemIndex = 1 ∧
    getVoxelSystem ownedNode.1 ownedNode.2 = 1 ∧
    getVoxelSystem ownedNode.1 crowdedWorld = 257 ∧
    crowdedWorld._mapVoxelSystemPointersToIndex.lookup 1 = some 1 ∧
    crowdedWorld._mapVoxelSystemPointersToIndex.lookup 257 = some 1 ∧
    crowdedWorld._mapIndexToVoxelSystemPointers.lookup 1 = some 257 := by
  have h : (ownedNode.1.data._voxelSystemIndex, getVoxelSystem ownedNode.1 ownedNode.2,
      getVoxelSystem ownedNode.1 crowdedWorld,
      crowdedWorld._mapVoxelSystemPointersToIndex.lookup 1,
      crowdedWorld._mapVoxelSystemPointersToIndex.lookup 257,
      crowdedWorld._mapIndexToVoxelSystemPointers.lookup 1) =
      (1, 1, 257, some 1, some 1, some 257) := by decide!
  simpa only [Prod.mk.injEq] using h

/-! ## C16 -/

/-- C16: in every state reachable from the empty process by any calls (among them
`setVoxelSystem` with any number of owners, so also after the 8-bit index counter has
wrapped), for every live node `p` and every empty slot `i` in [0,8), `p.addChildAtIndex(i)`
returns a child whose owner index equals that of `p`. -/
theorem addChildAtIndex_owner_index (allowed : Op → Prop) (s : State)
    (hs : Reachable allowed s) (t : VoxelNode) (ht : t ∈ s.roots) (path : List Nat)
    (p : VoxelNode) (hp : nodeAt path t = some p) (i : Nat) (hi : i < 8)
    (hempty : p.getChildAtIndex i = none) :
    ∃ c, (addChildAtIndex p i s.world).1 = some c ∧
      c.data._voxelSystemIndex = p.data._voxelSystemIndex := by
  have hgood := good_reachable allowed s hs
  have hinv := inv_nodeAt path t p (allInv_reachable allowed s hs t ht) hp
  have hlen : i < p._children.length := by
    rw [((inv_iff p).1 hinv).2.1]
    exact hi
  exact addChildAtIndex_index p i s.world hgood.1
    (goodData_nodeAt allowed s hs t ht path p hp).2.2 hlen hempty

set_option maxHeartbeats 4000000 in
/-- C16 (witness): the root of `wrappedState`, whose owner was set to 257 owners in turn; its
owner index is 1 after the wrap, and so is that of the child added in slot 0. -/
theorem addChildAtIndex_owner_index_witness :
    Reachable (fun _ => True) wrappedState ∧ wrappedState.world._nextIndex = 2 ∧
    (wrappedState.roots.headD (newRoot World.empty).1).data._voxelSystemIndex = 1 ∧
    ∃ c, (addChildAtIndex (wrappedState.roots.headD (newRoot World.empty).1) 0
        wrappedState.world).1 = some c ∧
      c.data._voxelSystemIndex =
        (wrappedState.roots.headD (newRoot World.empty).1).data._voxelSystemIndex := by
  have h : (wrappedState.world._nextIndex,
      (wrappedState.roots.headD (newRoot World.empty).1).data._voxelSystemIndex,
      wrappedState.roots.length,
      ((wrappedState.roots.headD (newRoot World.empty).1).getChildAtIndex 0).isSome) =
      (2, 1, 1, false) := by decide!
  simp only [Prod.mk.injEq] at h
  exact ⟨reachable_runD _ _ (fun _ _ => trivial), h.1, h.2.1,
    addChildAtIndex_owner_index (fun _ => True) wrappedState
      (reachable_runD _ _ (fun _ _ => trivial))
      (wrappedState.roots.headD (newRoot World.empty).1) (headD_mem _ _ h.2.2.1) []
      (wrappedState.roots.headD (newRoot World.empty).1) rfl 0 (by decide)
      (Option.not_isSome_iff_eq_none.1 (by rw [h.2.2.2]; exact Bool.false_ne_true))⟩

/-! ## C17 -/

/-- C17 (as amended): for every node and every colour `c` that differs from the node's true
colour in R, G or B, the node's density after `setColor(c)` is 1. -/
theorem setColor_density (n : VoxelNode) (c : nodeColor) (w : World)
    (h : n.getTrueColor.red ≠ c.red ∨ n.getTrueColor.green ≠ c.green ∨
      n.getTrueColor.blue ≠ c.blue) :
    (setColor n c w).1.getDensity = 1 := by
  have hg : (n.data._trueColor.red != c.red || n.data._trueColor.green != c.green
      || n.data._trueColor.blue != c.blue) = true := by
    simpa [getTrueColor, or_assoc] using h
  unfold setColor
  simp only [hg, ↓reduceIte, markWithChangedTime, getDensity, data_withData]

/-- C17 (witness): a fresh node and the colour (255,0,0,1). -/
theorem setColor_density_witness :
    (setColor (newRoot World.empty).1 ⟨255, 0, 0, 1⟩ (newRoot World.empty).2).1.getDensity = 1 :=
  setColor_density (newRoot World.empty).1 ⟨255, 0, 0, 1⟩ (newRoot World.empty).2
    (Or.inl (by decide))

/-- C17 (counterexample): a freshly constructed node has true colour (0,0,0,0) and density
0; after `setColor((0,0,0,0))` its density is still 0, not 1. -/
theorem setColor_same_colour_density :
    (newRoot World.empty).1.getTrueColor = ⟨0, 0, 0, 0⟩ ∧
    (setColor (newRoot World.empty).1 ⟨0, 0, 0, 0⟩ (newRoot World.empty).2).1.getDensity = 0 ∧
    (setColor (newRoot World.empty).1 ⟨0, 0, 0, 0⟩ (newRoot World.empty).2).1.getDensity ≠ 1 := by
  refine ⟨?_, ?_, ?_⟩ <;> decide!

/-! ## C18 -/

/-- C18 (the code at the failing input): construction, `addChildAtIndex(0)` and two
`setColor` calls on the child reach a state whose root has one child, uncoloured with
density 1. In `setColorFromAverageOfChildren()` on the root the density is 1/8, above the
threshold, and the divisor `colorArray[3]` is 0: the call divides by zero. -/
theorem setColorFromAverageOfChildren_divides_by_zero :
    ∃ s t, run hollowChildOps = some s ∧ Reachable Op.isMutator s ∧ s.roots = [t] ∧
      (t.getChildAtIndex 0).map (fun c => (c.isColored, c.getDensity)) = some (false, 1) ∧
      (averageLoop t).density / 8 = 1 / 8 ∧
      (averageLoop t).density / 8 > VISIBLE_ABOVE_DENSITY ∧
      (averageLoop t).colorArray3 = 0 ∧
      (setColorFromAverageOfChildren t s.world).isSome = false ∧
      (step (Op.setColorFromAverageOfChildren 0 []) s).isSome = false := by
  have h1 : (run hollowChildOps).map (fun s => s.roots.length) = some 1 := by decide
  have h2 : (run hollowChildOps).map (fun s => s.roots.map fun t =>
      (t.getChildAtIndex 0).map (fun c => (c.isColored, c.getDensity))) =
      some [some (false, 1)] := by decide!
  have h3 : (run hollowChildOps).map (fun s => s.roots.map fun t =>
      ((averageLoop t).density / 8, (averageLoop t).colorArray3)) =
      some [(1 / 8, 0)] := by decide!
  have h4 : (run hollowChildOps).map (fun s => s.roots.map fun t =>
      (setColorFromAverageOfChildren t s.world).isSome) = some [false] := by decide!
  have h5 : (run hollowChildOps).map (fun s =>
      (step (Op.setColorFromAverageOfChildren 0 []) s).isSome) = some false := by decide!
  cases hs : run hollowChildOps with
  | none => simp [hs] at h1
  | some s =>
    simp only [hs, Option.map_some', Option.some.injEq] at h1 h2 h3 h4 h5
    match hr : s.roots, h1 with
    | [t], _ =>
      simp only [hr, List.map_cons, List.map_nil, List.cons.injEq, Prod.mk.injEq,
        and_true] at h2 h3 h4
      refine ⟨s, t, rfl, ?_, hr, h2, h3.1, ?_, h3.2, h4, h5⟩
      · refine reachable_run Op.isMutator _ State.start s Reachable.start ?_ hs
        intro op hop
        simp only [hollowChildOps, List.mem_cons, List.mem_singleton, List.not_mem_nil,
          or_false] at hop
        rcases hop with rfl | rfl | rfl | rfl <;> trivial
      · rw [h3.1]
        decide!

/-! ## C19 -/

/-- C19 (the code at the failing input): a root with true colour (255,0,0,1), dirty flag
false, and 8 leaf children coloured (255,0,0,1); `collapseIdenticalLeaves()` returns true and
leaves the root without children, but its dirty flag is still false and no update
notification has run. -/
theorem collapseIdenticalLeaves_stays_clean :
    cleanRedRoot.1.data._isDirty = false ∧
    cleanRedRoot.1.getTrueColor = ⟨255, 0, 0, 1⟩ ∧
    (List.range 8).map (fun i => (cleanRedRoot.1.getChildAtIndex i).map
        fun c => (c.isLeaf, c.getTrueColor)) =
      List.replicate 8 (some (true, ⟨255, 0, 0, 1⟩)) ∧
    (collapseIdenticalLeaves cleanRedRoot.1 cleanRedRoot.2).1 = true ∧
    (List.range 8).map (fun i =>
        ((collapseIdenticalLeaves cleanRedRoot.1 cleanRedRoot.2).2.1.getChildAtIndex i).isSome) =
      List.replicate 8 false ∧
    (collapseIdenticalLeaves cleanRedRoot.1 cleanRedRoot.2).2.1.data._isDirty = false ∧
    (collapseIdenticalLeaves cleanRedRoot.1 cleanRedRoot.2).2.2.updateNotifications =
      cleanRedRoot.2.updateNotifications := by
  refine ⟨?_, ?_, ?_, ?_, ?_, ?_, ?_⟩ <;> decide!

/-! ## C20 -/

/-- C20: in every state reachable from the empty process by construction, `setColor`,
`setFalseColor`, `setFalseColored`, `addChildAtIndex`, `removeChildAtIndex`,
`deleteChildAtIndex`, `safeDeepDeleteChildAtIndex`, `collapseIdenticalLeaves` and
`setColorFromAverageOfChildren`, the density `d` of every live node satisfies
`0 ≤ d ≤ 1` (densities as exact rationals). -/
theorem density_in_unit_interval (s : State) (hs : Reachable Op.isMutator s) (t : VoxelNode)
    (ht : t ∈ s.roots) (path : List Nat) (n : VoxelNode) (hn : nodeAt path t = some n) :
    0 ≤ n.getDensity ∧ n.getDensity ≤ 1 :=
  (goodData_nodeAt _ s hs t ht path n hn).2.1

/-- C20 (witness): the root of `averagedState`, whose density after averaging 4 children of
density 1 and 4 empty slots is 1/2. -/
theorem density_in_unit_interval_witness :
    Reachable Op.isMutator averagedState ∧
    (averagedState.roots.headD (newRoot World.empty).1).getDensity = 1 / 2 ∧
    0 ≤ (averagedState.roots.headD (newRoot World.empty).1).getDensity ∧
    (averagedState.roots.headD (newRoot World.empty).1).getDensity ≤ 1 :=
  ⟨reachable_runD _ _ (by simp [Op.isMutator]), by decide!,
    density_in_unit_interval averagedState (reachable_runD _ _ (by simp [Op.isMutator]))
      (averagedState.roots.headD (newRoot World.empty).1) (headD_mem _ _ (by decide!)) []
      (averagedState.roots.headD (newRoot World.empty).1) rfl⟩

/-! ## C21 -/

/-- C21: for every node `p` whose cached child counts are right throughout its subtree,
every slot `i` and every process state `w` whose two counters hold `uint64_t` values, with
fuel for the height of `p`: `p.safeDeepDeleteChildAtIndex(i)` returns, and it leaves the
node that `p.deleteChildAtIndex(i)` leaves from the same state (the same child array, which
is that of `p` with slot `i` emptied and the other slots as they were, and the same
`_childCount`), with the same values of `_voxelNodeCount` and `_voxelNodeLeafCount`; when
slot `i` is empty both calls return the node and the process state unchanged. -/
theorem safeDeepDeleteChildAtIndex_agrees_with_deleteChildAtIndex (p : VoxelNode) (i : Nat)
    (w : World) (fuel : Nat) (hp : Inv p) (hw : InRange w) (hfuel : depth p ≤ fuel) :
    ∃ r, safeDeepDeleteChildAtIndex fuel p i w = some r ∧
      r.1 = (deleteChildAtIndex p i w).1 ∧
      r.1._children = p._children.set i none ∧
      (deleteChildAtIndex p i w).1._children = p._children.set i none ∧
      r.1.data._childCount = (deleteChildAtIndex p i w).1.data._childCount ∧
      r.2._voxelNodeCount = (deleteChildAtIndex p i w).2._voxelNodeCount ∧
      r.2._voxelNodeLeafCount = (deleteChildAtIndex p i w).2._voxelNodeLeafCount ∧
      (p.getChildAtIndex i = none → r = (p, w) ∧ deleteChildAtIndex p i w = (p, w)) := by
  obtain ⟨r, hr, _, q2, q3, q4⟩ := safeDeepDeleteChildAtIndex_spec fuel p i w hp hw hfuel
  obtain ⟨e1, e2⟩ := deleteChildAtIndex_balanced p i w hp hw
  have hnode := safeDeepDeleteChildAtIndex_node fuel p i w r hr
  have hcount : r.2._voxelNodeCount = (deleteChildAtIndex p i w).2._voxelNodeCount := by
    have h1 := q3.1
    have h2 := e2.1
    rw [hnode] at h1
    have hz : (r.2._voxelNodeCount : ZMod (2 ^ 64)) =
        ((deleteChildAtIndex p i w).2._voxelNodeCount : ZMod (2 ^ 64)) := by
      linear_combination h1 - h2
    rw [eq_mod_of_cast _ _ q2.1 hz]
    exact Nat.mod_eq_of_lt e1.1
  have hleaf : r.2._voxelNodeLeafCount = (deleteChildAtIndex p i w).2._voxelNodeLeafCount := by
    have h1 := q3.2
    have h2 := e2.2
    rw [hnode] at h1
    have hz : (r.2._voxelNodeLeafCount : ZMod (2 ^ 64)) =
        ((deleteChildAtIndex p i w).2._voxelNodeLeafCount : ZMod (2 ^ 64)) := by
      linear_combination h1 - h2
    rw [eq_mod_of_cast _ _ q2.2 hz]
    exact Nat.mod_eq_of_lt e1.2
  refine ⟨r, hr, hnode, q4, by rw [← hnode]; exact q4, by rw [hnode], hcount, hleaf, ?_⟩
  intro hnone
  have hdel : deleteChildAtIndex p i w = (p, w) := by simp [deleteChildAtIndex, hnone]
  refine ⟨?_, hdel⟩
  cases fuel with
  | zero =>
    cases p with
    | mk d cs => simp [depth] at hfuel
  | succ fuel =>
    unfold safeDeepDeleteChildAtIndex at hr
    simp only [hnone, Option.some.injEq] at hr
    exact hr.symm

/-- C21 (witness): the root of `builtState` (children 1 and 3, child 3 with a child 5) and
its occupied slot 3, with fuel 3 for its height 3. -/
theorem safeDeepDeleteChildAtIndex_agrees_with_deleteChildAtIndex_witness :
    Inv builtRoot ∧ InRange builtState.world ∧ depth builtRoot ≤ 3 ∧
    builtRoot.getChildAtIndex 3 = some builtChild ∧
    ∃ r, safeDeepDeleteChildAtIndex 3 builtRoot 3 builtState.world = some r ∧
      r.1 = (deleteChildAtIndex builtRoot 3 builtState.world).1 ∧
      r.1._children = builtRoot._children.set 3 none ∧
      (deleteChildAtIndex builtRoot 3 builtState.world).1._children =
        builtRoot._children.set 3 none ∧
      r.1.data._childCount = (deleteChildAtIndex builtRoot 3 builtState.world).1.data._childCount ∧
      r.2._voxelNodeCount = (deleteChildAtIndex builtRoot 3 builtState.world).2._voxelNodeCount ∧
      r.2._voxelNodeLeafCount =
        (deleteChildAtIndex builtRoot 3 builtState.world).2._voxelNodeLeafCount ∧
      (builtRoot.getChildAtIndex 3 = none → r = (builtRoot, builtState.world) ∧
        deleteChildAtIndex builtRoot 3 builtState.world = (builtRoot, builtState.world)) :=
  ⟨allInv_reachable _ builtState (reachable_runD _ _ (fun _ _ => trivial)) builtRoot
      (List.getElem?_mem (show builtState.roots[0]? = some builtRoot from rfl)),
    ⟨by decide, by decide⟩, by decide, rfl,
    safeDeepDeleteChildAtIndex_agrees_with_deleteChildAtIndex builtRoot 3 builtState.world 3
      (allInv_reachable _ builtState (reachable_runD _ _ (fun _ _ => trivial)) builtRoot
        (List.getElem?_mem (show builtState.roots[0]? = some builtRoot from rfl)))
      ⟨by decide, by decide⟩ (by decide)⟩

end VoxelNode

end Voxel
